import Mathlib

/-!
Verification of the scan-report validation engine (`src/transfer.py`,
`check_schema.py`).

The Python engine is embedded shallowly:

* pandas `DataFrame`s become `DF` (an explicit column-name list plus a list
  of rows; a row is an association list from column name to `Value`);
* every column-wise pandas operation used by `validate_data_with_schema`
  (mask computation, `append_error`, type conversion) is elementwise, so the
  pipeline is embedded as a per-row function applied in input order, with the
  column-set bookkeeping (`column in df.columns`) threaded explicitly;
* machine floats from `pd.to_numeric` are modelled by exact rationals; the
  overflow-to-infinity of float64 (whose rows the integer check rejects) is
  modelled by rejecting magnitudes beyond the float64 maximum, which yields
  the same verdict and the same coerced value;
* `pd.NA`/`NaN` cells are the `Value.missing` constructor.
-/

set_option maxRecDepth 8000
set_option exponentiation.threshold 1100

namespace ScanEtl

/-! ## Character classes and basic string operations -/

/-- The white-space characters of Python's `str.strip` / `str.isspace` and of
`re`'s `\s` on `str` patterns (ASCII control whitespace, NEL, NBSP, ogham,
the general-punctuation spaces, line/paragraph separators, narrow NBSP,
medium mathematical space, ideographic space). -/
def isPyWs (c : Char) : Bool :=
  (0x09 ≤ c.toNat && c.toNat ≤ 0x0d) || (0x1c ≤ c.toNat && c.toNat ≤ 0x1f) ||
  c.toNat == 0x20 || c.toNat == 0x85 || c.toNat == 0xa0 || c.toNat == 0x1680 ||
  (0x2000 ≤ c.toNat && c.toNat ≤ 0x200a) || c.toNat == 0x2028 ||
  c.toNat == 0x2029 || c.toNat == 0x202f || c.toNat == 0x205f ||
  c.toNat == 0x3000

/-- ASCII decimal digit. -/
def isDigitChar (c : Char) : Bool :=
  '0' ≤ c && c ≤ '9'

/-- Left strip by a character predicate (Python `str.lstrip`). -/
def lstripL (p : Char → Bool) (cs : List Char) : List Char :=
  cs.dropWhile p

/-- Right strip by a character predicate (Python `str.rstrip`). -/
def rstripL (p : Char → Bool) (cs : List Char) : List Char :=
  (cs.reverse.dropWhile p).reverse

/-- Two-sided strip by a character predicate. -/
def stripL (p : Char → Bool) (cs : List Char) : List Char :=
  rstripL p (lstripL p cs)

/-- Python `str.strip()` (no argument): strip Unicode whitespace. -/
def pyStrip (s : String) : String :=
  ⟨stripL isPyWs s.data⟩

/-- Python `value.rstrip("; ")` used on the accumulated error column: remove
every trailing character that is a semicolon or a space. -/
def rstripSemiSpace (s : String) : String :=
  ⟨rstripL (fun c => c == ';' || c == ' ') s.data⟩

/-- Python `str.strip("_")`. -/
def stripUnderscore (s : String) : String :=
  ⟨stripL (fun c => c == '_') s.data⟩

/-- Python `str.lstrip("0")` (the leading-zero drop of the store-id rule). -/
def lstripZero (s : String) : String :=
  ⟨lstripL (fun c => c == '0') s.data⟩

/-! ## Decimal rendering of numbers

Python renders integers (f-strings, `str()` on `int`, pandas `Int64`
display) in plain decimal.  We build the digit string ourselves so that
injectivity and digit-only facts are provable. -/

/-- Decimal digits, accumulator form; the fuel argument (any bound on the
number of digits, e.g. the number itself) keeps the recursion
structural. -/
def natDigitsAux : Nat → Nat → List Char → List Char
  | 0, n, acc => Nat.digitChar (n % 10) :: acc
  | fuel + 1, n, acc =>
    if n < 10 then Nat.digitChar n :: acc
    else natDigitsAux fuel (n / 10) (Nat.digitChar (n % 10) :: acc)

/-- Decimal digits of a natural number, most significant first. -/
def natDigits (n : Nat) : List Char :=
  natDigitsAux n n []

/-- Decimal rendering of a natural number. -/
def natToStr (n : Nat) : String :=
  ⟨natDigits n⟩

/-- Decimal rendering of an integer (Python `str` of an `int`, pandas
rendering of an `Int64` cell). -/
def intToStr (n : Int) : String :=
  if n < 0 then "-" ++ natToStr n.natAbs else natToStr n.natAbs

/-- Numeric value of a digit character. -/
def digitVal (c : Char) : Nat :=
  c.toNat - 48

/-- Value of a most-significant-first digit string. -/
def digitsToNat (cs : List Char) : Nat :=
  cs.foldl (fun a c => a * 10 + digitVal c) 0

/-- Pad a digit list on the left with zeros to the given width
(`%04d`-style formatting). -/
def padZeros (w : Nat) (cs : List Char) : List Char :=
  List.replicate (w - cs.length) '0' ++ cs

/-- Natural number rendered with `%02d`. -/
def pad2 (n : Nat) : List Char :=
  padZeros 2 (natDigits n)

/-- Natural number rendered with `%04d`. -/
def pad4 (n : Nat) : List Char :=
  padZeros 4 (natDigits n)

/-! ## Column-header normalization (`_normalize_column_name`, transfer.py
lines 248-254) -/

/-- ASCII lower-casing, the effect of Python `str.lower()` on every code
point that can survive the `[^a-z0-9]` replacement that follows (non-ASCII
letters are replaced by `_` on both sides of the modelling boundary). -/
def lowerStr (s : String) : String :=
  ⟨s.data.map Char.toLower⟩

/-- Keep-class of `re.sub(r"[^a-z0-9]+", "_", ...)`: lower-case ASCII
letters and digits survive, every other character is part of a replaced
run. -/
def isLowerAlnum (c : Char) : Bool :=
  ('a' ≤ c && c ≤ 'z') || ('0' ≤ c && c ≤ '9')

/-- One pass of `re.sub(r"[^a-z0-9]+", "_", ...)`: each maximal run of
characters outside `[a-z0-9]` becomes a single underscore.  The `inRun`
flag records whether the previous character belonged to such a run. -/
def replaceRunsAux (inRun : Bool) : List Char → List Char
  | [] => []
  | c :: rest =>
    if isLowerAlnum c then c :: replaceRunsAux false rest
    else if inRun then replaceRunsAux true rest
    else '_' :: replaceRunsAux true rest

/-- `re.sub(r"[^a-z0-9]+", "_", s)`. -/
def replaceNonAlnumRuns (s : String) : String :=
  ⟨replaceRunsAux false s.data⟩

/-- One pass of `re.sub(r"_+", "_", ...)`. -/
def collapseUnderscoresAux (inRun : Bool) : List Char → List Char
  | [] => []
  | c :: rest =>
    if c == '_' then
      if inRun then collapseUnderscoresAux true rest
      else '_' :: collapseUnderscoresAux true rest
    else c :: collapseUnderscoresAux false rest

/-- `re.sub(r"_+", "_", s)`. -/
def collapseUnderscores (s : String) : String :=
  ⟨collapseUnderscoresAux false s.data⟩

/-- `ScanReportProcessor._normalize_column_name`: strip + lower, replace
runs of characters outside `[a-z0-9]` by `_`, collapse `_` runs, strip
leading/trailing `_`. -/
def normalizeColumnName (s : String) : String :=
  stripUnderscore (collapseUnderscores (replaceNonAlnumRuns (lowerStr (pyStrip s))))

/-- The `COLUMN_ALIASES` table of `ScanReportProcessor` (transfer.py lines
26-43). -/
def COLUMN_ALIASES : List (String × String) :=
  [("sspc", "point_card_id"),
   ("store_id", "store_id"),
   ("employee_id", "employee_id"),
   ("shoe_sold", "shoe_sold"),
   ("shoe_exist_in_database", "shoe_exist_in_db"),
   ("shoes_marked_as_sold_in_rwa", "shoes_marked_sold_rwa"),
   ("insole_sold", "insole_sold"),
   ("shoe_functionally", "shoe_functional"),
   ("shoe_functionally_", "shoe_functional"),
   ("shoe_functional", "shoe_functional"),
   ("size_recommendation", "size_recommendation"),
   ("safesize_code", "safesize_code"),
   ("scanner_id", "scanner_id"),
   ("scan_date", "scan_date"),
   ("unnamed_11", "scan_date"),
   ("unnamed_11_", "scan_date")]

/-- Canonical name of one raw header: normalize, then
`COLUMN_ALIASES.get(normalized, normalized)` (transfer.py lines 259-262). -/
def canonicalColumnName (s : String) : String :=
  let normalized := normalizeColumnName s
  ((COLUMN_ALIASES.lookup normalized).getD normalized)

/-- The suffixed name `f"{target}_{count}"` given to a duplicate target. -/
def suffixedName (target : String) (count : Nat) : String :=
  target ++ "_" ++ natToStr count

/-- The `seen` fold of `_normalize_dataframe_columns` (transfer.py lines
266-271): the first occurrence of a target keeps its name, the k-th
repetition becomes `f"{target}_{k}"`.  `seen` maps a target to the number
of occurrences already passed. -/
def suffixDuplicatesAux (seen : List (String × Nat)) : List String → List String
  | [] => []
  | t :: rest =>
    let count := (seen.lookup t).getD 0
    let out := if count == 0 then t else suffixedName t count
    out :: suffixDuplicatesAux ((t, count + 1) :: seen) rest

/-- Resolve duplicate rename targets by numeric suffixes, in encounter
order. -/
def suffixDuplicates (targets : List String) : List String :=
  suffixDuplicatesAux [] targets

/-- `_normalize_dataframe_columns` acting on the header list: map every raw
header to its canonical name, then disambiguate duplicates. -/
def normalizeHeaders (headers : List String) : List String :=
  suffixDuplicates (headers.map canonicalColumnName)

/-! ## Store-id cleaning (`_clean_store_id_value`, transfer.py lines
284-309) -/

/-- The NFKC compatibility mappings relevant to the store-id business rule:
the full-width ASCII block U+FF01-U+FF5E maps to ASCII U+0021-U+007E (this
covers full-width digits and parentheses) and the ideographic space U+3000
maps to an ASCII space.  Code points outside these classes are left
unchanged (the rule never produces them: every other character either
survives verbatim or is removed as whitespace downstream). -/
def nfkcChar (c : Char) : Char :=
  if 0xff01 ≤ c.toNat && c.toNat ≤ 0xff5e then Char.ofNat (c.toNat - 0xfee0)
  else if c.toNat == 0x3000 then ' '
  else c

/-- `unicodedata.normalize("NFKC", s)` restricted to the character classes
the store-id rule targets. -/
def nfkcNormalize (s : String) : String :=
  ⟨s.data.map nfkcChar⟩

/-- `text.replace("(", "").replace(")", "")`. -/
def removeParens (s : String) : String :=
  ⟨s.data.filter (fun c => !(c == '(' || c == ')'))⟩

/-- `re.sub(r"\s+", "", text)`: remove every whitespace character. -/
def removeWhitespace (s : String) : String :=
  ⟨s.data.filter (fun c => !isPyWs c)⟩

/-! ## Cell values -/

/-- `_normalize_scanner_id_value` (transfer.py lines 275-282): strip;
missing or empty-after-strip stays missing. -/
def normalizeScannerIdStr (s : String) : Option String :=
  let text := pyStrip s
  if text == "" then none else some text

/-- The core of `_clean_store_id_value` (transfer.py lines 290-309) on a
present string: strip, NFKC, drop parentheses, drop whitespace, drop
leading zeros; empty results become missing. -/
def cleanStoreIdStr (s : String) : Option String :=
  let text := pyStrip s
  if text == "" then none
  else
    let t1 := nfkcNormalize text
    let t2 := removeParens t1
    let t3 := removeWhitespace t2
    let t4 := lstripZero t3
    if t4 == "" then none else some t4

/-- A calendar date (the payload of a `datetime64` cell normalized to
midnight). -/
structure DateV where
  year : Nat
  month : Nat
  day : Nat
  deriving DecidableEq, Repr

/-- A timezone-aware timestamp, stored in UTC. -/
structure TsV where
  date : DateV
  hour : Nat
  minute : Nat
  second : Nat
  deriving DecidableEq, Repr

/-- One cell of a batch.  CSV/Excel loading (`dtype=str`) produces only
`missing` and `str` cells; type coercion introduces the typed
constructors. -/
inductive Value where
  | missing
  | str (s : String)
  | int (n : Int)
  | date (d : DateV)
  | ts (t : TsV)
  deriving DecidableEq, Repr

/-- Calendar date rendered `YYYY-MM-DD` (how pandas renders a midnight
`datetime64` cell, and the `%Y-%m-%d` canonical form). -/
def formatDate (d : DateV) : String :=
  ⟨pad4 d.year ++ '-' :: pad2 d.month ++ '-' :: pad2 d.day⟩

/-- Timestamp rendered as pandas renders a UTC `Timestamp`:
`YYYY-MM-DD HH:MM:SS+00:00`. -/
def formatTs (t : TsV) : String :=
  formatDate t.date ++ " " ++
    ⟨pad2 t.hour ++ ':' :: pad2 t.minute ++ ':' :: pad2 t.second⟩ ++ "+00:00"

/-- The text of a non-missing cell: how pandas `astype(str)` /
`astype("string")` renders it (string cells verbatim, `Int64` in decimal,
midnight `datetime64` date-only, UTC timestamps with offset). -/
def stringifyVal : Value → String
  | .missing => ""
  | .str s => s
  | .int n => intToStr n
  | .date d => formatDate d
  | .ts t => formatTs t

/-- `series.astype("string")`: missing cells stay missing (`pd.NA`),
non-missing cells become their text. -/
def stringifyOpt : Value → Option String
  | .missing => none
  | v => some (stringifyVal v)

/-! ## Numeric parsing (`pd.to_numeric(..., errors="coerce")`)

Float cells are modelled by exact rationals.  Decimal strings parse to
their exact value; magnitudes beyond the float64 maximum — which real
float parsing turns into `±inf`, a value the integer check then always
rejects — are modelled as parse failures (same verdict, same `NA` coerced
value); magnitudes below the subnormal range — which real parsing turns
into `±0.0`, always accepted and rounded to `0` — are modelled as `0`. -/

/-- Split a leading run of ASCII digits. -/
def spanDigits (cs : List Char) : List Char × List Char :=
  (cs.takeWhile isDigitChar, cs.dropWhile isDigitChar)

/-- Consume an optional leading sign. -/
def parseSign : List Char → Int × List Char
  | '+' :: rest => (1, rest)
  | '-' :: rest => (-1, rest)
  | cs => (1, cs)

/-- Parse `digits [. digits]` or `. digits` to an exact rational. -/
def parseMantissa (cs : List Char) : Option (ℚ × List Char) :=
  let (ip, r1) := spanDigits cs
  match r1 with
  | '.' :: r2 =>
    let (fp, r3) := spanDigits r2
    if ip.isEmpty && fp.isEmpty then none
    else some ((digitsToNat ip : ℚ) + (digitsToNat fp : ℚ) / (10 : ℚ) ^ fp.length, r3)
  | _ => if ip.isEmpty then none else some ((digitsToNat ip : ℚ), r1)

/-- Largest finite float64, `(2^53 - 1) * 2^971`, as an exact rational
(the natural-number arithmetic keeps kernel evaluation cheap). -/
def float64Max : ℚ :=
  mkRat (((2 ^ 53 - 1) * 2 ^ 971 : Nat) : Int) 1

/-- Reject magnitudes that float64 parsing would turn into `±inf`. -/
def capFloatRange (q : ℚ) : Option ℚ :=
  if q < -float64Max ∨ float64Max < q then none else some q

/-- `pd.to_numeric(s, errors="coerce")` on a trimmed non-empty string:
optional sign, decimal mantissa, optional decimal exponent.  (`"inf"` and
`"nan"` are textual special cases whose rows the integer check rejects just
like a parse failure, so they are parse failures here.) -/
def parseNumeric (s : String) : Option ℚ :=
  let (sign, cs1) := parseSign s.data
  match parseMantissa cs1 with
  | none => none
  | some (m, rest) =>
    match rest with
    | [] => capFloatRange ((sign : ℚ) * m)
    | c :: r1 =>
      if c == 'e' || c == 'E' then
        let (esign, r2) := parseSign r1
        let (ds, r3) := spanDigits r2
        if ds.isEmpty || !r3.isEmpty then none
        else
          let e : Int := esign * (digitsToNat ds : Int)
          if 400 < e then (if m == 0 then some 0 else none)
          else if e < -400 then some 0
          else capFloatRange ((sign : ℚ) * m * (10 : ℚ) ^ e)
      else none

/-- The absolute tolerance of `np.isclose(..., 0)` (`atol = 1e-8`; the
relative term vanishes against 0). -/
def iscloseAtol : ℚ :=
  1 / 100000000

/-- `x % 1` for a float: the fractional part in `[0, 1)`. -/
def fracPart (q : ℚ) : ℚ :=
  q - (⌊q⌋ : ℚ)

/-- `np.isclose(x % 1, 0)`: the fractional part is within the absolute
tolerance. -/
def fracIsClose (q : ℚ) : Bool :=
  decide (fracPart q ≤ iscloseAtol)

/-- `np.round`: round half to even. -/
def roundHalfEven (q : ℚ) : Int :=
  let f := ⌊q⌋
  let r := q - (f : ℚ)
  if r < 1 / 2 then f
  else if 1 / 2 < r then f + 1
  else if f % 2 == 0 then f else f + 1

/-! ## Date parsing (`pd.to_datetime(..., format="%Y-%m-%d",
errors="coerce")`)

The `%Y-%m-%d` strptime grammar: exactly four year digits, one or two
month/day digits, full-string match; then real-calendar validity and the
`datetime64[ns]` representable range. -/

/-- Gregorian leap year. -/
def isLeapYear (y : Nat) : Bool :=
  (y % 4 == 0 && y % 100 != 0) || y % 400 == 0

/-- Days in a month of the proleptic Gregorian calendar. -/
def daysInMonth (y m : Nat) : Nat :=
  if m == 2 then (if isLeapYear y then 29 else 28)
  else if m == 4 || m == 6 || m == 9 || m == 11 then 30
  else 31

/-- Real-calendar validity of a (year, month, day) triple (what
`datetime.date` accepts). -/
def validCalendarDate (d : DateV) : Bool :=
  1 ≤ d.year && 1 ≤ d.month && d.month ≤ 12 && 1 ≤ d.day &&
    d.day ≤ daysInMonth d.year d.month

/-- Calendar order on dates (lexicographic on year, month, day). -/
def dateLE (a b : DateV) : Bool :=
  a.year < b.year ||
    (a.year == b.year &&
      (a.month < b.month || (a.month == b.month && a.day ≤ b.day)))

/-- First calendar date whose midnight is a representable
`datetime64[ns]` value (`Timestamp.min` is late on 1677-09-21). -/
def pandasMinDate : DateV := ⟨1677, 9, 22⟩

/-- Last calendar date whose midnight is representable
(`Timestamp.max` is late on 2262-04-11). -/
def pandasMaxDate : DateV := ⟨2262, 4, 11⟩

/-- Parse `YYYY-M-D` (four year digits, 1-2 month and day digits), leaving
the unconsumed remainder. -/
def parseYMD (cs : List Char) : Option (DateV × List Char) :=
  let (ys, r1) := spanDigits cs
  if ys.length == 4 then
    match r1 with
    | '-' :: r2 =>
      let (ms, r3) := spanDigits r2
      if ms.length == 1 || ms.length == 2 then
        match r3 with
        | '-' :: r4 =>
          let (ds, r5) := spanDigits r4
          if ds.length == 1 || ds.length == 2 then
            some (⟨digitsToNat ys, digitsToNat ms, digitsToNat ds⟩, r5)
          else none
        | _ => none
      else none
    | _ => none
  else none

/-- `pd.to_datetime(s, format="%Y-%m-%d", errors="coerce")` on a trimmed
non-empty string (then `.dt.normalize()`, a no-op on date-only input). -/
def parseDate (s : String) : Option DateV :=
  match parseYMD s.data with
  | some (d, []) =>
    if validCalendarDate d && dateLE pandasMinDate d && dateLE d pandasMaxDate then
      some d
    else none
  | _ => none

/-! ## Timestamp parsing (`pd.to_datetime(..., errors="coerce",
utc=True)`)

Modelled: the ISO-8601 family `YYYY-M-D[( |T)H:M[:S]][Z|±HH:MM]`, with a
source lacking an offset taken as UTC (`utc=True`).  The embedding covers
the subset pandas' ISO path accepts that the engine can produce or
round-trip. -/

/-- Calendar successor of a date. -/
def nextDay (d : DateV) : DateV :=
  if d.day < daysInMonth d.year d.month then ⟨d.year, d.month, d.day + 1⟩
  else if d.month < 12 then ⟨d.year, d.month + 1, 1⟩
  else ⟨d.year + 1, 1, 1⟩

/-- Calendar predecessor of a date. -/
def prevDay (d : DateV) : DateV :=
  if 1 < d.day then ⟨d.year, d.month, d.day - 1⟩
  else if 1 < d.month then ⟨d.year, d.month - 1, daysInMonth d.year (d.month - 1)⟩
  else ⟨d.year - 1, 12, 31⟩

/-- Convert a local wall-clock reading with a UTC offset (in minutes) to
UTC; the offset magnitude is below one day, so at most one calendar step
is needed. -/
def applyOffset (d : DateV) (h mi : Nat) (offMinutes : Int) : DateV × Nat × Nat :=
  let total : Int := (h : Int) * 60 + (mi : Int) - offMinutes
  if total < 0 then
    (prevDay d, ((total + 1440) / 60).toNat, ((total + 1440) % 60).toNat)
  else if 1440 ≤ total then
    (nextDay d, ((total - 1440) / 60).toNat, ((total - 1440) % 60).toNat)
  else
    (d, (total / 60).toNat, (total % 60).toNat)

/-- Parse `H:M[:S]` (1-2 digits each), leaving the remainder. -/
def parseHMS (cs : List Char) : Option (Nat × Nat × Nat × List Char) :=
  let (hs, r1) := spanDigits cs
  if hs.length == 1 || hs.length == 2 then
    match r1 with
    | ':' :: r2 =>
      let (ms, r3) := spanDigits r2
      if ms.length == 1 || ms.length == 2 then
        match r3 with
        | ':' :: r4 =>
          let (ss, r5) := spanDigits r4
          if ss.length == 1 || ss.length == 2 then
            some (digitsToNat hs, digitsToNat ms, digitsToNat ss, r5)
          else none
        | _ => some (digitsToNat hs, digitsToNat ms, 0, r3)
      else none
    | _ => none
  else none

/-- Parse a trailing UTC offset: nothing (naive, taken as UTC), `Z`, or
`±HH:MM`; returns the offset in minutes. -/
def parseOffset : List Char → Option Int
  | [] => some 0
  | ['Z'] => some 0
  | c :: rest =>
    if c == '+' || c == '-' then
      let (hs, r1) := spanDigits rest
      if hs.length == 2 then
        match r1 with
        | ':' :: r2 =>
          let (ms, r3) := spanDigits r2
          if ms.length == 2 && r3.isEmpty then
            let v : Int := (digitsToNat hs : Int) * 60 + (digitsToNat ms : Int)
            if digitsToNat hs ≤ 23 && digitsToNat ms ≤ 59 then
              some (if c == '-' then -v else v)
            else none
          else none
        | _ => none
      else none
    else none

/-- Assemble and range-check a parsed timestamp. -/
def mkTs (d : DateV) (h mi se : Nat) (off : Int) : Option TsV :=
  if validCalendarDate d && h ≤ 23 && mi ≤ 59 && se ≤ 59 then
    let (d2, h2, m2) := applyOffset d h mi off
    if dateLE pandasMinDate d2 && dateLE d2 pandasMaxDate then
      some ⟨d2, h2, m2, se⟩
    else none
  else none

/-- `pd.to_datetime(s, errors="coerce", utc=True)` on a trimmed non-empty
string. -/
def parseTs (s : String) : Option TsV :=
  match parseYMD s.data with
  | none => none
  | some (d, rest) =>
    match rest with
    | [] => mkTs d 0 0 0 0
    | c :: r1 =>
      if c == ' ' || c == 'T' then
        match parseHMS r1 with
        | none => none
        | some (h, mi, se, r2) =>
          match parseOffset r2 with
          | none => none
          | some off => mkTs d h mi se off
      else none

/-! ## Schemas (`src/schema.py`) and the column type spec
(`ScanReportProcessor.COLUMN_TYPE_SPEC`, transfer.py lines 45-59) -/

/-- The anchored regular expressions the repository's schemas use:
`^[0-9]+$` and `^[0-9]{n}$`. -/
inductive Pattern where
  | digitsPlus
  | digitsExact (n : Nat)
  deriving DecidableEq, Repr

/-- Python `$` also matches just before one final newline. -/
def dropFinalNewline (cs : List Char) : List Char :=
  match cs.reverse with
  | '\n' :: r => r.reverse
  | _ => cs

/-- Python `re.match` of the anchored digit patterns against a string. -/
def pymatch : Pattern → String → Bool
  | .digitsPlus, s =>
    let t := dropFinalNewline s.data
    !t.isEmpty && t.all isDigitChar
  | .digitsExact n, s =>
    let t := dropFinalNewline s.data
    t.length == n && t.all isDigitChar

/-- One entry of a schema's `validations` mapping. -/
structure Validation where
  vtype : String
  pattern : Pattern
  deriving DecidableEq, Repr

/-- A schema of `src/schema.py`: declared output columns, NOT-NULL
columns, and pattern validations (in mapping insertion order). -/
structure Schema where
  columns : List String
  not_null : List String
  validations : List (String × Validation)
  deriving DecidableEq, Repr

/-- `SCAN_REPORT_COLUMNS` (`src/schema.py` lines 3-17). -/
def SCAN_REPORT_COLUMNS : List String :=
  ["scan_date", "point_card_id", "store_id", "employee_id", "shoe_sold",
   "shoe_exist_in_db", "shoes_marked_sold_rwa", "insole_sold",
   "shoe_functional", "size_recommendation", "safesize_code", "scanner_id",
   "created_at"]

/-- `SCHEMAS["scan_report_daily"]`. -/
def scanReportDaily : Schema where
  columns := SCAN_REPORT_COLUMNS
  not_null := ["scan_date", "store_id", "employee_id", "safesize_code"]
  validations :=
    [("store_id", ⟨"numeric", .digitsPlus⟩),
     ("employee_id", ⟨"numeric", .digitsExact 7⟩)]

/-- `SCHEMAS["scan_report_weekly"]` (identical content). -/
def scanReportWeekly : Schema where
  columns := SCAN_REPORT_COLUMNS
  not_null := ["scan_date", "store_id", "employee_id", "safesize_code"]
  validations :=
    [("store_id", ⟨"numeric", .digitsPlus⟩),
     ("employee_id", ⟨"numeric", .digitsExact 7⟩)]

/-- The target type of one `COLUMN_TYPE_SPEC` entry. -/
inductive ColType where
  | string (maxLength : Option Nat)
  | int
  | date
  | timestamptz
  deriving DecidableEq, Repr

/-- `ScanReportProcessor.COLUMN_TYPE_SPEC`, in declaration (= iteration)
order. -/
def COLUMN_TYPE_SPEC : List (String × ColType) :=
  [("scan_date", .date),
   ("point_card_id", .string (some 16)),
   ("store_id", .string (some 6)),
   ("employee_id", .string (some 7)),
   ("shoe_sold", .int),
   ("shoe_exist_in_db", .int),
   ("shoes_marked_sold_rwa", .int),
   ("insole_sold", .int),
   ("shoe_functional", .int),
   ("size_recommendation", .int),
   ("safesize_code", .string (some 50)),
   ("scanner_id", .string (some 50)),
   ("created_at", .timestamptz)]

/-- Lookup in the column type spec. -/
def lookupSpec (c : String) : Option ColType :=
  COLUMN_TYPE_SPEC.lookup c

/-- `check_schema.ensure_column_type_spec` (check_schema.py lines 59-72):
the schema columns that lack a type spec entry. -/
def missingSpecColumns (schema : Schema) : List String :=
  schema.columns.filter (fun c => (lookupSpec c).isNone)

/-- `ensure_column_type_spec` returns `True` iff no schema column is
missing from `COLUMN_TYPE_SPEC`. -/
def ensureColumnTypeSpec (schema : Schema) : Bool :=
  (missingSpecColumns schema).isEmpty

/-! ## The DataFrame model -/

/-- A row: an association list from column name to cell value. -/
abbrev Row := List (String × Value)

/-- Cell of a row (first binding wins, `missing` when absent). -/
def Row.getVal (r : Row) (c : String) : Value :=
  match r.lookup c with
  | some v => v
  | none => .missing

/-- Whether the row carries a binding for the column. -/
def Row.hasCol (r : Row) (c : String) : Bool :=
  (r.lookup c).isSome

/-- `df[c] = v` at row level: overwrite every binding of `c`, or append a
new one. -/
def Row.setVal (r : Row) (c : String) (v : Value) : Row :=
  if r.hasCol c then r.map (fun p => bif p.1 == c then (c, v) else p)
  else r ++ [(c, v)]

/-- `df.drop(columns=[c])` at row level: remove every binding of `c`. -/
def Row.dropCol (r : Row) (c : String) : Row :=
  r.filter (fun p => !(p.1 == c))

/-- A DataFrame: the ordered column-name list plus the rows. -/
structure DF where
  cols : List String
  rows : List Row
  deriving DecidableEq, Repr

/-- Add a column name if absent (the effect of `df[c] = ...` on
`df.columns`). -/
def addCol (cols : List String) (c : String) : List String :=
  if cols.contains c then cols else cols ++ [c]

/-! ## The validation pipeline (`validate_data_with_schema`, transfer.py
lines 90-152)

Every mask the Python code builds (`null_mask`, `invalid_mask`,
`too_long`, ...) is computed elementwise from the current cell values of
one row, and `append_error` updates each flagged row's `_error` cell
independently, so the pipeline is embedded as a per-row function.  The
`if mask.any()` guard of `append_error` is semantically transparent (when
no row is flagged there is nothing to append).  The column-set bookkeeping
(`column not in df.columns`) is row-independent and threaded alongside. -/

/-- The accumulated `_error` text of a row (the code keeps it a string;
`fillna("").astype(str)` reads a missing cell as `""`). -/
def errOf (r : Row) : String :=
  match r.getVal "_error" with
  | .str s => s
  | .missing => ""
  | v => stringifyVal v

/-- `append_error` (lines 98-101) for one flagged row. -/
def appendErr (r : Row) (msg : String) : Row :=
  r.setVal "_error" (.str (errOf r ++ msg))

/-- `append_error` with an optional message: append when the cell was
flagged (`mask` true for this row), keep the row otherwise. -/
def maybeAppendErr (r : Row) : Option String → Row
  | some m => appendErr r m
  | none => r

/-- The NOT-NULL mask of line 111:
`series.isna() | stringified.str.strip().fillna("").eq("")`. -/
def nullMask (v : Value) : Bool :=
  match v with
  | .missing => true
  | v => pyStrip (stringifyVal v) == ""

/-- Lines 105-106: materialize a schema NOT-NULL column absent from the
batch as all-missing. -/
def nnMaterialize (cols : List String) (r : Row) (c : String) :
    List String × Row :=
  if cols.contains c then (cols, r)
  else (cols ++ [c], r.setVal c .missing)

/-- The NOT-NULL fragment for a column. -/
def nnMessage (c : String) : String :=
  "NOT NULL violation: " ++ c ++ "; "

/-- One iteration of the NOT-NULL loop (lines 104-112). -/
def notNullStep (cols : List String) (r : Row) (c : String) :
    List String × Row :=
  let m := nnMaterialize cols r c
  (m.1, if nullMask (m.2.getVal c) then appendErr m.2 (nnMessage c) else m.2)

/-- The NOT-NULL loop over `schema["not_null"]`. -/
def notNullStage (cols : List String) (r : Row) :
    List String → List String × Row
  | [] => (cols, r)
  | c :: rest =>
    let s := notNullStep cols r c
    notNullStage s.1 s.2 rest

/-- The `invalid_mask` of lines 121-123: fails the pattern and is not
missing (`na=False` plus the `notna()` conjunct). -/
def patternViolation (p : Pattern) (v : Value) : Bool :=
  match v with
  | .missing => false
  | v => !pymatch p (stringifyVal v)

/-- Message selection of lines 125-128 (the employee-id special case). -/
def validationMessage (field : String) : String :=
  if field == "employee_id" then "Invalid " ++ field ++ " (must be 7 digits)"
  else "Invalid " ++ field ++ " (must be numeric)"

/-- One iteration of the validations loop (lines 115-129); only `numeric`
validations append a message. -/
def validationStep (cols : List String) (r : Row) (fv : String × Validation) :
    Row :=
  if cols.contains fv.1 then
    if patternViolation fv.2.pattern (r.getVal fv.1) then
      if fv.2.vtype == "numeric" then appendErr r (validationMessage fv.1 ++ "; ")
      else r
    else r
  else r

/-- The validations loop over `schema.get("validations", {})`. -/
def validationStage (cols : List String) (r : Row) :
    List (String × Validation) → Row
  | [] => r
  | fv :: rest => validationStage cols (validationStep cols r fv) rest

/-- `_convert_column_for_output` (lines 175-235) on one cell: the optional
error fragment (with its trailing `"; "`) and the converted value. -/
def convertCell (column : String) (spec : ColType) (v : Value) :
    Option String × Value :=
  let trimmed := (stringifyOpt v).map pyStrip
  let nonEmpty := match trimmed with | some t => !(t == "") | none => false
  let cleaned : Option String := if nonEmpty then trimmed else none
  match spec with
  | .string maxLength =>
    let err :=
      match maxLength, cleaned with
      | some maxL, some t =>
        if maxL < t.length then
          some ("Invalid " ++ column ++ " (max " ++ natToStr maxL ++ " chars); ")
        else none
      | _, _ => none
    (err, match cleaned with | some t => .str t | none => .missing)
  | .int =>
    let numeric := cleaned.bind parseNumeric
    let invalidNumeric := nonEmpty && numeric.isNone
    let fractional :=
      match numeric with
      | some q => nonEmpty && !fracIsClose q
      | none => false
    let invalid := invalidNumeric || fractional
    (if invalid then some ("Invalid " ++ column ++ " (must be integer); ") else none,
     if invalid then .missing
     else match numeric with | some q => .int (roundHalfEven q) | none => .missing)
  | .date =>
    let parsed := cleaned.bind parseDate
    (if nonEmpty && parsed.isNone then
       some ("Invalid " ++ column ++ " (must be YYYY-MM-DD); ")
     else none,
     match parsed with | some d => .date d | none => .missing)
  | .timestamptz =>
    let parsed := cleaned.bind parseTs
    (if nonEmpty && parsed.isNone then
       some ("Invalid " ++ column ++ " (must be ISO 8601 timestamp); ")
     else none,
     match parsed with | some t => .ts t | none => .missing)

/-- The `_validate_and_prepare_output_types` loop (lines 154-173): walk
`COLUMN_TYPE_SPEC` in order, skip columns absent from the frame, append
each conversion error, and collect the converted cells. -/
def typeStage (cols : List String) (r : Row) :
    List (String × ColType) → Row × List (String × Value)
  | [] => (r, [])
  | (c, ty) :: rest =>
    if cols.contains c then
      let ec := convertCell c ty (r.getVal c)
      let res := typeStage cols (maybeAppendErr r ec.1) rest
      (res.1, (c, ec.2) :: res.2)
    else typeStage cols r rest

/-- The full per-row pipeline of `validate_data_with_schema` up to the
final `rstrip` of line 134: initialize `_error`/`_row_number`, NOT-NULL
checks, pattern validations, type conversions. -/
def processRow (cols : List String) (schema : Schema) (rowNum : Int)
    (r : Row) : Row × List (String × Value) :=
  let r0 := (r.setVal "_error" (.str "")).setVal "_row_number" (.int rowNum)
  let nn := notNullStage cols r0 schema.not_null
  let r2 := validationStage nn.1 nn.2 schema.validations
  let ts := typeStage nn.1 r2 COLUMN_TYPE_SPEC
  (ts.1.setVal "_error" (.str (rstripSemiSpace (errOf ts.1))), ts.2)

/-- The frame's columns after `df["_error"] = ...` and
`df["_row_number"] = ...`. -/
def dfCols0 (df : DF) : List String :=
  addCol (addCol df.cols "_error") "_row_number"

/-- Pure column-set evolution of the NOT-NULL loop (materializations only
depend on the column set, not on any row). -/
def notNullCols (cols : List String) : List String → List String
  | [] => cols
  | c :: rest => notNullCols (if cols.contains c then cols else cols ++ [c]) rest

/-- `df.columns` after the whole pipeline (only the NOT-NULL loop adds
columns). -/
def finalCols (df : DF) (schema : Schema) : List String :=
  notNullCols (dfCols0 df) schema.not_null

/-- `existing_columns` of line 138: the schema columns present in the
frame. -/
def existingCols (df : DF) (schema : Schema) : List String :=
  schema.columns.filter (fun c => (finalCols df schema).contains c)

/-- The column selection of line 139:
`df[[*existing_columns, "_error", "_row_number"]]`. -/
def selCols (df : DF) (schema : Schema) : List String :=
  existingCols df schema ++ ["_error", "_row_number"]

/-- Restrict a row to the selected columns, in selection order. -/
def selectRow (cs : List String) (r : Row) : Row :=
  cs.map (fun c => (c, r.getVal c))

/-- All rows processed in input order; `_row_number` counts from 2 (line
96: the header occupies line 1). -/
def processedRows (df : DF) (schema : Schema) :
    List (Row × List (String × Value)) :=
  df.rows.enum.map (fun p => processRow (dfCols0 df) schema ((p.1 : Int) + 2) p.2)

/-- The split predicate of lines 142-143: a row is clean iff its final
`_error` text is empty. -/
def isCleanP (p : Row × List (String × Value)) : Bool :=
  errOf p.1 == ""

/-- Lines 147-149 for one clean row: overwrite each converted column that
survived the selection with its converted value. -/
def applyConversions (cs : List String) (row : Row) :
    List (String × Value) → Row
  | [] => row
  | (c, v) :: rest =>
    applyConversions cs (if cs.contains c then row.setVal c v else row) rest

/-- A clean output row: selected columns, conversions applied, diagnostic
columns dropped (lines 146-150). -/
def cleanRowOf (sel : List String) (p : Row × List (String × Value)) : Row :=
  ((applyConversions sel (selectRow sel p.1) p.2).dropCol "_error").dropCol
    "_row_number"

/-- An invalid output row: the selected columns verbatim (line 143). -/
def invalidRowOf (sel : List String) (p : Row × List (String × Value)) : Row :=
  selectRow sel p.1

/-- `validate_data_with_schema` (lines 90-152): returns (clean frame,
invalid frame).  The `if not clean_df.empty` guard of line 146 skips both
the conversion write-back and the diagnostic-column drop when no row is
clean. -/
def validate (df : DF) (schema : Schema) : DF × DF :=
  let pr := processedRows df schema
  let sel := selCols df schema
  let cleanP := pr.filter isCleanP
  let invalidP := pr.filter (fun p => !isCleanP p)
  let invalidDF : DF := ⟨sel, invalidP.map (invalidRowOf sel)⟩
  let cleanDF : DF :=
    if cleanP.isEmpty then ⟨sel, []⟩
    else
      ⟨sel.filter (fun c => !(c == "_error" || c == "_row_number")),
       cleanP.map (cleanRowOf sel)⟩
  (cleanDF, invalidDF)

/-! ## Stage-ordered diagnostic fragments (the specification side of the
error-accumulation contract)

`rowFragments` lists, in stage order, exactly the fragments the pipeline
appends for one row; the development proves the pipeline's `_error` text
is their concatenation with the trailing separator trimmed. -/

/-- Fragments of the NOT-NULL stage, threading the actual per-step row
evolution. -/
def nnFrags (cols : List String) (r : Row) : List String → List String
  | [] => []
  | c :: rest =>
    let m := nnMaterialize cols r c
    let hit := nullMask (m.2.getVal c)
    let r2 := if hit then appendErr m.2 (nnMessage c) else m.2
    (if hit then [nnMessage c] else []) ++ nnFrags m.1 r2 rest

/-- Fragments of the pattern-validation stage. -/
def valFrags (cols : List String) (r : Row) :
    List (String × Validation) → List String
  | [] => []
  | fv :: rest =>
    let hit := cols.contains fv.1 &&
      patternViolation fv.2.pattern (r.getVal fv.1) && fv.2.vtype == "numeric"
    (if hit then [validationMessage fv.1 ++ "; "] else []) ++
      valFrags cols (validationStep cols r fv) rest

/-- Fragments of the type-coercion stage, in `COLUMN_TYPE_SPEC` iteration
order. -/
def typeFrags (cols : List String) (r : Row) :
    List (String × ColType) → List String
  | [] => []
  | (c, ty) :: rest =>
    if cols.contains c then
      let ec := convertCell c ty (r.getVal c)
      (ec.1).toList ++ typeFrags cols (maybeAppendErr r ec.1) rest
    else typeFrags cols r rest

/-- All fragments of one row, in the fixed stage order: NOT-NULL checks,
then pattern validations, then per-column type coercion. -/
def rowFragments (cols : List String) (schema : Schema) (rowNum : Int)
    (r : Row) : List String :=
  let r0 := (r.setVal "_error" (.str "")).setVal "_row_number" (.int rowNum)
  let nn := notNullStage cols r0 schema.not_null
  let r2 := validationStage nn.1 nn.2 schema.validations
  nnFrags cols r0 schema.not_null ++ valFrags nn.1 nn.2 schema.validations ++
    typeFrags nn.1 r2 COLUMN_TYPE_SPEC

/-- Concatenation of the fragment list (each fragment already carries its
trailing `"; "` separator). -/
def concatFrags : List String → String
  | [] => ""
  | f :: rest => f ++ concatFrags rest

/-- The row after the `_error` / `_row_number` initialization of lines
94-96 (the `r0` of `processRow`). -/
def initRow (rn : Int) (r : Row) : Row :=
  (r.setVal "_error" (.str "")).setVal "_row_number" (.int rn)

/-- Column set and row after the NOT-NULL stage (the `nn` of
`processRow`). -/
def nnOf (cols : List String) (schema : Schema) (rn : Int) (r : Row) :
    List String × Row :=
  notNullStage cols (initRow rn r) schema.not_null

/-- Row after the pattern-validation stage (the `r2` of `processRow`). -/
def valRowOf (cols : List String) (schema : Schema) (rn : Int) (r : Row) :
    Row :=
  validationStage (nnOf cols schema rn r).1 (nnOf cols schema rn r).2
    schema.validations

/-- Result of the type-coercion stage (the `ts` of `processRow`). -/
def tsOf (cols : List String) (schema : Schema) (rn : Int) (r : Row) :
    Row × List (String × Value) :=
  typeStage (nnOf cols schema rn r).1 (valRowOf cols schema rn r)
    COLUMN_TYPE_SPEC

/-- The per-entry conversion record produced by the type stage for a
frame with columns `cols` whose pre-coercion cell values are those of
`row`. -/
def convFun (cols : List String) (row : Row) (pr : String × ColType) :
    Option (String × Value) :=
  if cols.contains pr.1 then
    some (pr.1, (convertCell pr.1 pr.2 (row.getVal pr.1)).2)
  else none

/-- `_clean_store_id_value` on a cell (`pd.isna` guard, then the string
pipeline). -/
def cleanStoreIdValue : Value → Value
  | .missing => .missing
  | v =>
    match cleanStoreIdStr (stringifyVal v) with
    | some t => .str t
    | none => .missing

/-- `_normalize_scanner_id_value` on a cell. -/
def normalizeScannerIdValue : Value → Value
  | .missing => .missing
  | v =>
    match normalizeScannerIdStr (stringifyVal v) with
    | some t => .str t
    | none => .missing

/-- The `_row_number` values of the rows judged clean, read off the
processed batch. -/
def cleanNums (df : DF) (schema : Schema) : List Value :=
  ((processedRows df schema).filter isCleanP).map
    (fun p => p.1.getVal "_row_number")

/-- The `_row_number` values of the rows judged invalid. -/
def invalidNums (df : DF) (schema : Schema) : List Value :=
  ((processedRows df schema).filter (fun p => !isCleanP p)).map
    (fun p => p.1.getVal "_row_number")

/-! ## Specification-side companions

These definitions restate, in the spec's vocabulary, what the
corresponding code-derived definitions compute; the theorems compare the
two. -/

/-- Spec wording of the header contract: trim and lower-case, replace
every run of characters outside `[a-z0-9]` with a single underscore,
collapse repeated underscores and trim leading/trailing underscores, then
look the result up in the alias table, falling back to the normalized
name. -/
def specCanonicalName (s : String) : String :=
  let trimmedLower := lowerStr (pyStrip s)
  let replaced := replaceNonAlnumRuns trimmedLower
  let collapsed := stripUnderscore (collapseUnderscores replaced)
  ((COLUMN_ALIASES.lookup collapsed).getD collapsed)

/-- The name the duplicate-resolution step gives the occurrence of a
target that `k` earlier columns already mapped to: the first occurrence
keeps the name, the `k`-th repetition gains the suffix `_k`. -/
def encodeDup (t : String) (k : Nat) : String :=
  if k == 0 then t else suffixedName t k

/-- Spec wording of duplicate resolution: walk the targets in encounter
order, naming each occurrence by how many identical targets precede it
(`pre` is the already-consumed prefix). -/
def specSuffixes (pre : List String) : List String → List String
  | [] => []
  | t :: rest => encodeDup t (pre.count t) :: specSuffixes (pre ++ [t]) rest

/-! # Lemmas -/

/-! ## Generic list and string facts -/

theorem string_eq_of_data {s t : String} (h : s.data = t.data) : s = t := by
  cases s; cases t; simp_all

theorem length_filter_add_length_filter_not {α : Type} (l : List α)
    (p : α → Bool) :
    (l.filter p).length + (l.filter (fun x => !p x)).length = l.length := by
  induction l with
  | nil => rfl
  | cons a t ih => by_cases h : p a <;> simp [List.filter_cons, h] <;> omega

theorem dropWhile_append_of_all {p : Char → Bool} (l1 l2 : List Char)
    (h : ∀ c ∈ l1, p c = true) :
    (l1 ++ l2).dropWhile p = l2.dropWhile p := by
  induction l1 with
  | nil => rfl
  | cons a t ih =>
    simp only [List.cons_append, List.dropWhile_cons, h a (by simp)]
    exact ih (fun c hc => h c (by simp [hc]))

theorem takeWhile_append_of_all {p : Char → Bool} (l1 l2 : List Char)
    (h : ∀ c ∈ l1, p c = true) :
    (l1 ++ l2).takeWhile p = l1 ++ l2.takeWhile p := by
  induction l1 with
  | nil => rfl
  | cons a t ih =>
    simp only [List.cons_append, List.takeWhile_cons, h a (by simp)]
    simp [ih (fun c hc => h c (by simp [hc]))]

theorem dropWhile_eq_self_of_head {p : Char → Bool} (cs : List Char)
    (h : ∀ c, cs.head? = some c → p c = false) :
    cs.dropWhile p = cs := by
  cases cs with
  | nil => rfl
  | cons a t => simp [List.dropWhile_cons, h a rfl]

theorem takeWhile_eq_nil_of_head {p : Char → Bool} (cs : List Char)
    (h : ∀ c, cs.head? = some c → p c = false) :
    cs.takeWhile p = [] := by
  cases cs with
  | nil => rfl
  | cons a t => simp [List.takeWhile_cons, h a rfl]

theorem dropWhile_eq_self_of_all {p : Char → Bool} (cs : List Char)
    (h : ∀ c ∈ cs, p c = false) :
    cs.dropWhile p = cs := by
  apply dropWhile_eq_self_of_head
  intro c hc
  cases cs with
  | nil => simp at hc
  | cons a t => exact h c (by simp_all)

theorem rstripL_eq_self_of_all {p : Char → Bool} (cs : List Char)
    (h : ∀ c ∈ cs, p c = false) :
    rstripL p cs = cs := by
  unfold rstripL
  rw [dropWhile_eq_self_of_all _ (fun c hc => h c (List.mem_reverse.mp hc))]
  exact cs.reverse_reverse

theorem stripL_eq_self_of_all {p : Char → Bool} (cs : List Char)
    (h : ∀ c ∈ cs, p c = false) :
    stripL p cs = cs := by
  unfold stripL lstripL
  rw [dropWhile_eq_self_of_all _ h, rstripL_eq_self_of_all _ h]

theorem rstripL_append_singleton {p : Char → Bool} (cs : List Char) (c : Char)
    (h : p c = true) :
    rstripL p (cs ++ [c]) = rstripL p cs := by
  unfold rstripL
  simp [List.dropWhile_cons, h]

theorem stripL_eq_self_of_ends {p : Char → Bool} (cs : List Char)
    (hhead : ∀ c, cs.head? = some c → p c = false)
    (hlast : ∀ c, cs.getLast? = some c → p c = false) :
    stripL p cs = cs := by
  unfold stripL lstripL rstripL
  rw [dropWhile_eq_self_of_head _ hhead]
  rw [dropWhile_eq_self_of_head _ (fun c hc => hlast c ?_)]
  · exact cs.reverse_reverse
  · rwa [← List.head?_reverse]

theorem rstripL_eq_nil_iff {p : Char → Bool} (cs : List Char) :
    rstripL p cs = [] ↔ ∀ c ∈ cs, p c = true := by
  unfold rstripL
  rw [List.reverse_eq_nil_iff, List.dropWhile_eq_nil_iff]
  constructor
  · intro h c hc
    exact h c (List.mem_reverse.mpr hc)
  · intro h c hc
    exact h c (List.mem_reverse.mp hc)

/-! ## Decimal digit facts -/

theorem digitChar_isDigit : ∀ n, n < 10 → isDigitChar (Nat.digitChar n) = true := by
  decide

theorem digitVal_digitChar : ∀ n, n < 10 → digitVal (Nat.digitChar n) = n := by
  decide

theorem natDigitsAux_acc (fuel : Nat) :
    ∀ n acc, natDigitsAux fuel n acc = natDigitsAux fuel n [] ++ acc := by
  induction fuel with
  | zero => intro n acc; rfl
  | succ f ih =>
    intro n acc
    by_cases h : n < 10
    · simp [natDigitsAux, h]
    · simp only [natDigitsAux, if_neg h]
      rw [ih (n / 10) (Nat.digitChar (n % 10) :: acc),
        ih (n / 10) [Nat.digitChar (n % 10)]]
      simp

theorem natDigitsAux_fuel (n : Nat) :
    ∀ fuel fuel', n ≤ fuel → n ≤ fuel' →
      natDigitsAux fuel n [] = natDigitsAux fuel' n [] := by
  induction n using Nat.strong_induction_on with
  | _ n ih =>
    intro fuel fuel' hf hf'
    by_cases h : n < 10
    · have hm : n % 10 = n := Nat.mod_eq_of_lt h
      cases fuel <;> cases fuel' <;> simp [natDigitsAux, h, hm]
    · have h1 : 1 ≤ fuel := by omega
      have h1' : 1 ≤ fuel' := by omega
      obtain ⟨f, rfl⟩ : ∃ f, fuel = f + 1 := ⟨fuel - 1, by omega⟩
      obtain ⟨f', rfl⟩ : ∃ f', fuel' = f' + 1 := ⟨fuel' - 1, by omega⟩
      have hdiv : n / 10 < n := Nat.div_lt_self (by omega) (by omega)
      simp only [natDigitsAux, if_neg h]
      rw [natDigitsAux_acc f, natDigitsAux_acc f',
        ih (n / 10) hdiv f f' (by omega) (by omega)]

theorem natDigits_eq (n : Nat) :
    natDigits n =
      if 10 ≤ n then natDigits (n / 10) ++ [Nat.digitChar (n % 10)]
      else [Nat.digitChar n] := by
  by_cases h : 10 ≤ n
  · rw [if_pos h]
    unfold natDigits
    obtain ⟨f, rfl⟩ : ∃ f, n = f + 1 := ⟨n - 1, by omega⟩
    simp only [natDigitsAux, if_neg (by omega : ¬ f + 1 < 10)]
    rw [natDigitsAux_acc f,
      natDigitsAux_fuel ((f + 1) / 10) f ((f + 1) / 10)
        (by have := Nat.div_lt_self (by omega : 0 < f + 1) (by omega : 1 < 10); omega)
        (le_refl _)]
  · rw [if_neg h]
    unfold natDigits
    cases n with
    | zero => rfl
    | succ m =>
      simp [natDigitsAux, Nat.lt_of_not_le h]

theorem natDigits_ne_nil (n : Nat) : natDigits n ≠ [] := by
  rw [natDigits_eq]
  split <;> simp

theorem natDigits_all_digit (n : Nat) :
    ∀ c ∈ natDigits n, isDigitChar c = true := by
  induction n using Nat.strong_induction_on with
  | _ n ih =>
    rw [natDigits_eq]
    split
    · rename_i h
      intro c hc
      rcases List.mem_append.mp hc with h1 | h1
      · exact ih (n / 10) (Nat.div_lt_self (by omega) (by omega)) c h1
      · simp at h1
        subst h1
        exact digitChar_isDigit _ (Nat.mod_lt _ (by omega))
    · rename_i h
      intro c hc
      simp at hc
      subst hc
      exact digitChar_isDigit n (by omega)

theorem digitsToNat_append_singleton (xs : List Char) (c : Char) :
    digitsToNat (xs ++ [c]) = 10 * digitsToNat xs + digitVal c := by
  simp [digitsToNat, List.foldl_append]
  omega

theorem digitsToNat_natDigits (n : Nat) : digitsToNat (natDigits n) = n := by
  induction n using Nat.strong_induction_on with
  | _ n ih =>
    rw [natDigits_eq]
    split
    · rename_i h
      rw [digitsToNat_append_singleton,
        ih (n / 10) (Nat.div_lt_self (by omega) (by omega)),
        digitVal_digitChar _ (Nat.mod_lt _ (by omega))]
      omega
    · rename_i h
      simp [digitsToNat, digitVal_digitChar n (by omega)]

theorem natToStr_injective {a b : Nat} (h : natToStr a = natToStr b) : a = b := by
  have hd : natDigits a = natDigits b := congrArg String.data h
  have := digitsToNat_natDigits a
  rw [hd, digitsToNat_natDigits] at this
  omega

theorem digitsToNat_replicate_zero (k : Nat) (cs : List Char) :
    digitsToNat (List.replicate k '0' ++ cs) = digitsToNat cs := by
  induction k with
  | zero => rfl
  | succ m ih =>
    have : digitVal '0' = 0 := by decide
    simp only [List.replicate_succ, List.cons_append, digitsToNat, List.foldl_cons] at *
    simpa [this] using ih

theorem natDigits_length_le (k : Nat) (n : Nat) (hk : 1 ≤ k) (h : n < 10 ^ k) :
    (natDigits n).length ≤ k := by
  induction k generalizing n with
  | zero => omega
  | succ m ih =>
    rw [natDigits_eq]
    split
    · rename_i hn
      have hm : 1 ≤ m := by
        by_contra hm
        have : m = 0 := by omega
        subst this
        simp [pow_succ] at h
        omega
      have : n / 10 < 10 ^ m := by
        have := Nat.pow_succ 10 m
        omega
      have := ih hm (n := n / 10) this
      simp [List.length_append]
      omega
    · simp

theorem underscore_not_in_natDigits (n : Nat) : '_' ∉ natDigits n := by
  intro h
  have := natDigits_all_digit n '_' h
  simp [isDigitChar] at this

/-! ## Row (association list) facts -/

theorem lookup_cons_self {α : Type} (l : List (String × α)) (c : String) (v : α) :
    ((c, v) :: l).lookup c = some v := by
  simp [List.lookup]

theorem lookup_cons_ne {α : Type} (l : List (String × α)) (c c' : String) (v : α)
    (h : c' ≠ c) :
    ((c, v) :: l).lookup c' = l.lookup c' := by
  have : (c' == c) = false := by simp [h]
  simp [List.lookup, this]

theorem getVal_eq_lookup (r : Row) (c : String) :
    r.getVal c = ((r.lookup c).getD .missing) := by
  unfold Row.getVal
  cases r.lookup c <;> rfl

theorem lookup_map_overwrite (r : Row) (c : String) (v : Value) :
    ((r.map (fun p => bif p.1 == c then (c, v) else p)).lookup c) =
      if (r.lookup c).isSome then some v else none := by
  induction r with
  | nil => rfl
  | cons p t ih =>
    by_cases h : p.1 = c
    · simp [h, List.lookup, lookup_cons_self]
    · have hb : (p.1 == c) = false := by simp [h]
      have hb' : (c == p.1) = false := by simp [Ne.symm h]
      simp only [List.map_cons, hb, if_false, List.lookup, hb']
      simpa using ih

theorem lookup_map_overwrite_ne (r : Row) (c c' : String) (v : Value)
    (h : c' ≠ c) :
    ((r.map (fun p => bif p.1 == c then (c, v) else p)).lookup c') =
      r.lookup c' := by
  induction r with
  | nil => rfl
  | cons p t ih =>
    by_cases hp : p.1 = c
    · have hb : (p.1 == c) = true := by simp [hp]
      have hb' : (c' == c) = false := by simp [h]
      have hb'' : (c' == p.1) = false := by simp [hp, h]
      simp only [List.map_cons, hb, if_true, List.lookup, hb', hb'']
      exact ih
    · have hb : (p.1 == c) = false := by simp [hp]
      simp only [List.map_cons, hb, if_false, List.lookup]
      cases hcp : (c' == p.1) <;> simp [ih]

theorem lookup_append_of_none {α : Type} (l1 l2 : List (String × α)) (c : String)
    (h : l1.lookup c = none) :
    (l1 ++ l2).lookup c = l2.lookup c := by
  induction l1 with
  | nil => rfl
  | cons p t ih =>
    cases hb : (c == p.1) with
    | true =>
      exfalso
      simp [List.lookup, hb] at h
    | false =>
      simp only [List.lookup, hb, List.cons_append] at h ⊢
      exact ih h

theorem getVal_setVal_self (r : Row) (c : String) (v : Value) :
    (r.setVal c v).getVal c = v := by
  unfold Row.setVal Row.hasCol
  split
  · rename_i h
    rw [getVal_eq_lookup, lookup_map_overwrite]
    simp_all
  · rename_i h
    rw [getVal_eq_lookup, lookup_append_of_none]
    · simp [List.lookup]
    · cases hl : r.lookup c with
      | none => rfl
      | some w => exact absurd (by simp [hl]) h

theorem getVal_setVal_ne (r : Row) (c c' : String) (v : Value) (h : c' ≠ c) :
    (r.setVal c v).getVal c' = r.getVal c' := by
  unfold Row.setVal Row.hasCol
  split
  · rw [getVal_eq_lookup, lookup_map_overwrite_ne _ _ _ _ h, ← getVal_eq_lookup]
  · rename_i hnone
    rw [getVal_eq_lookup, getVal_eq_lookup]
    cases hc : r.lookup c' with
    | some w => rw [List.lookup_append, hc]; rfl
    | none =>
      rw [List.lookup_append, hc]
      have : (c' == c) = false := by simp [h]
      simp [List.lookup, this]

theorem hasCol_setVal_ne (r : Row) (c c' : String) (v : Value) (h : c' ≠ c) :
    (r.setVal c v).hasCol c' = r.hasCol c' := by
  unfold Row.setVal
  split
  · unfold Row.hasCol
    rw [lookup_map_overwrite_ne _ _ _ _ h]
  · unfold Row.hasCol
    cases hc : r.lookup c' with
    | some w => rw [List.lookup_append, hc]; rfl
    | none =>
      rw [List.lookup_append, hc]
      have : (c' == c) = false := by simp [h]
      simp [List.lookup, this]

theorem getVal_dropCol_self (r : Row) (c : String) :
    (r.dropCol c).getVal c = .missing := by
  unfold Row.dropCol
  rw [getVal_eq_lookup]
  induction r with
  | nil => rfl
  | cons p t ih =>
    by_cases h : p.1 = c
    · simpa [List.filter_cons, h] using ih
    · have hb : (p.1 == c) = false := by simp [h]
      have hb' : (c == p.1) = false := by simp [Ne.symm h]
      simpa [List.filter_cons, hb, List.lookup, hb'] using ih

theorem getVal_dropCol_ne (r : Row) (c c' : String) (h : c' ≠ c) :
    (r.dropCol c).getVal c' = r.getVal c' := by
  unfold Row.dropCol
  rw [getVal_eq_lookup, getVal_eq_lookup]
  induction r with
  | nil => rfl
  | cons p t ih =>
    by_cases hp : p.1 = c
    · have hb : (p.1 == c) = true := by simp [hp]
      have hb' : (c' == p.1) = false := by simp [hp, h]
      simpa [List.filter_cons, hb, List.lookup, hb'] using ih
    · have hb : (p.1 == c) = false := by simp [hp]
      cases hcp : (c' == p.1) <;> simp [List.filter_cons, hb, List.lookup, hcp, ih]

theorem hasCol_dropCol_self (r : Row) (c : String) :
    (r.dropCol c).hasCol c = false := by
  unfold Row.dropCol Row.hasCol
  induction r with
  | nil => rfl
  | cons p t ih =>
    by_cases h : p.1 = c
    · simpa [List.filter_cons, h] using ih
    · have hb : (p.1 == c) = false := by simp [h]
      have hb' : (c == p.1) = false := by simp [Ne.symm h]
      simpa [List.filter_cons, hb, List.lookup, hb'] using ih

theorem hasCol_dropCol_ne (r : Row) (c c' : String) (h : c' ≠ c) :
    (r.dropCol c).hasCol c' = r.hasCol c' := by
  unfold Row.dropCol Row.hasCol
  induction r with
  | nil => rfl
  | cons p t ih =>
    by_cases hp : p.1 = c
    · have hb : (p.1 == c) = true := by simp [hp]
      have hb' : (c' == p.1) = false := by simp [hp, h]
      simpa [List.filter_cons, hb, List.lookup, hb'] using ih
    · have hb : (p.1 == c) = false := by simp [hp]
      cases hcp : (c' == p.1) <;> simp [List.filter_cons, hb, List.lookup, hcp, ih]

theorem getVal_selectRow (cs : List String) (r : Row) (c : String) :
    (selectRow cs r).getVal c =
      if cs.contains c then r.getVal c else .missing := by
  induction cs with
  | nil => rfl
  | cons a t ih =>
    by_cases h : c = a
    · subst h
      simp [selectRow, getVal_eq_lookup, lookup_cons_self]
    · have hb : (c == a) = false := by simp [h]
      simp only [selectRow, List.map_cons] at *
      rw [getVal_eq_lookup, lookup_cons_ne _ _ _ _ h, ← getVal_eq_lookup, ih]
      simp [List.contains_cons, hb, h]

theorem hasCol_selectRow (cs : List String) (r : Row) (c : String) :
    (selectRow cs r).hasCol c = cs.contains c := by
  induction cs with
  | nil => rfl
  | cons a t ih =>
    by_cases h : c = a
    · subst h
      simp [selectRow, Row.hasCol, lookup_cons_self, List.contains_cons]
    · have hb : (c == a) = false := by simp [h]
      simp only [selectRow, List.map_cons, Row.hasCol] at *
      rw [lookup_cons_ne _ _ _ _ h]
      rw [ih]
      simp [List.contains_cons, hb, h]

/-! ## Pipeline bookkeeping -/

theorem errOf_str (r : Row) (s : String) :
    errOf (r.setVal "_error" (.str s)) = s := by
  unfold errOf
  rw [getVal_setVal_self]

theorem errOf_appendErr (r : Row) (m : String) :
    errOf (appendErr r m) = errOf r ++ m := by
  unfold appendErr
  rw [errOf_str]

theorem getVal_appendErr (r : Row) (c : String) (m : String)
    (h : c ≠ "_error") :
    (appendErr r m).getVal c = r.getVal c :=
  getVal_setVal_ne _ _ _ _ h

theorem contains_append_singleton (cols : List String) (c x : String) :
    (cols ++ [c]).contains x = (cols.contains x || (x == c)) := by
  induction cols with
  | nil => by_cases h : x = c <;> simp [List.contains_cons, h]
  | cons a t ih =>
    by_cases h : x = a <;> simp_all [List.contains_cons]

theorem contains_addCol_of (cols : List String) (c x : String)
    (h : cols.contains x = true) :
    (addCol cols c).contains x = true := by
  unfold addCol
  split
  · exact h
  · rw [contains_append_singleton, h]
    rfl

theorem contains_addCol_self (cols : List String) (c : String) :
    (addCol cols c).contains c = true := by
  unfold addCol
  split
  · assumption
  · rw [contains_append_singleton]
    simp

theorem notNullCols_mono (l : List String) :
    ∀ cols x, cols.contains x = true → (notNullCols cols l).contains x = true := by
  induction l with
  | nil => exact fun cols x h => h
  | cons c rest ih =>
    intro cols x h
    unfold notNullCols
    split
    · exact ih cols x h
    · refine ih _ x ?_
      rw [contains_append_singleton, h]
      rfl

theorem notNullCols_contains_elem (l : List String) :
    ∀ cols c, c ∈ l → (notNullCols cols l).contains c = true := by
  induction l with
  | nil => intro cols c h; simp at h
  | cons a rest ih =>
    intro cols c h
    rcases List.mem_cons.mp h with h1 | h1
    · subst h1
      unfold notNullCols
      split
      · exact notNullCols_mono rest _ c (by assumption)
      · refine notNullCols_mono rest _ c ?_
        rw [contains_append_singleton]
        simp
    · unfold notNullCols
      split
      · exact ih _ c h1
      · exact ih _ c h1

theorem notNullStep_eq_pos (cols : List String) (r : Row) (c : String)
    (hc : cols.contains c = true) :
    notNullStep cols r c =
      (cols, if nullMask (r.getVal c) then appendErr r (nnMessage c) else r) := by
  unfold notNullStep nnMaterialize
  rw [if_pos hc]

theorem notNullStep_eq_neg (cols : List String) (r : Row) (c : String)
    (hc : ¬ cols.contains c = true) :
    notNullStep cols r c =
      (cols ++ [c], appendErr (r.setVal c .missing) (nnMessage c)) := by
  unfold notNullStep nnMaterialize
  rw [if_neg hc]
  have : (r.setVal c Value.missing).getVal c = Value.missing := getVal_setVal_self r c _
  simp [this, nullMask]

theorem notNullStage_cons (cols : List String) (r : Row) (c : String)
    (rest : List String) :
    notNullStage cols r (c :: rest) =
      notNullStage (notNullStep cols r c).1 (notNullStep cols r c).2 rest := rfl

theorem nnFrags_cons (cols : List String) (r : Row) (c : String)
    (rest : List String) :
    nnFrags cols r (c :: rest) =
      (if nullMask ((nnMaterialize cols r c).2.getVal c) then [nnMessage c] else []) ++
        nnFrags (notNullStep cols r c).1 (notNullStep cols r c).2 rest := rfl

theorem notNullCols_cons (cols : List String) (c : String) (rest : List String) :
    notNullCols cols (c :: rest) =
      notNullCols (if cols.contains c then cols else cols ++ [c]) rest := rfl

theorem notNullStage_cols (l : List String) :
    ∀ cols r, (notNullStage cols r l).1 = notNullCols cols l := by
  induction l with
  | nil => intro cols r; rfl
  | cons c rest ih =>
    intro cols r
    rw [notNullStage_cons, notNullCols_cons]
    by_cases hc : cols.contains c = true
    · rw [notNullStep_eq_pos _ _ _ hc, if_pos hc]
      exact ih _ _
    · rw [notNullStep_eq_neg _ _ _ hc, if_neg hc]
      exact ih _ _

theorem notNullStage_getVal (l : List String) :
    ∀ cols r x, cols.contains x = true → x ≠ "_error" →
      ((notNullStage cols r l).2).getVal x = r.getVal x := by
  induction l with
  | nil => intro cols r x _ _; rfl
  | cons c rest ih =>
    intro cols r x hx he
    rw [notNullStage_cons]
    by_cases hc : cols.contains c = true
    · rw [notNullStep_eq_pos _ _ _ hc]
      rw [ih cols _ x hx he]
      split
      · exact getVal_appendErr _ _ _ he
      · rfl
    · have hxc : x ≠ c := fun h => hc (h ▸ hx)
      rw [notNullStep_eq_neg _ _ _ hc]
      rw [ih _ _ x (by rw [contains_append_singleton, hx]; rfl) he]
      rw [getVal_appendErr _ _ _ he, getVal_setVal_ne _ _ _ _ hxc]

theorem validationStage_getVal (l : List (String × Validation)) :
    ∀ cols r x, x ≠ "_error" →
      (validationStage cols r l).getVal x = r.getVal x := by
  induction l with
  | nil => intro cols r x _; rfl
  | cons fv rest ih =>
    intro cols r x he
    show (validationStage cols (validationStep cols r fv) rest).getVal x = _
    rw [ih _ _ x he]
    unfold validationStep
    split
    · split
      · split
        · exact getVal_appendErr _ _ _ he
        · rfl
      · rfl
    · rfl

theorem concatFrags_append (a b : List String) :
    concatFrags (a ++ b) = concatFrags a ++ concatFrags b := by
  induction a with
  | nil => simp [concatFrags]
  | cons f t ih => simp [concatFrags, ih, String.append_assoc]

theorem errOf_notNullStage (l : List String) :
    ∀ cols r, cols.contains "_error" = true →
      errOf (notNullStage cols r l).2 =
        errOf r ++ concatFrags (nnFrags cols r l) := by
  induction l with
  | nil => intro cols r _; simp [notNullStage, nnFrags, concatFrags]
  | cons c rest ih =>
    intro cols r he
    rw [notNullStage_cons, nnFrags_cons, concatFrags_append]
    by_cases hc : cols.contains c = true
    · have hm : nnMaterialize cols r c = (cols, r) := by
        unfold nnMaterialize
        rw [if_pos hc]
      rw [hm, notNullStep_eq_pos _ _ _ hc]
      dsimp only
      by_cases hmask : nullMask (r.getVal c) = true
      · simp only [if_pos hmask]
        rw [ih _ _ he, errOf_appendErr]
        simp [concatFrags, String.append_assoc]
      · simp only [if_neg hmask]
        rw [ih _ _ he]
        simp [concatFrags]
    · have he' : "_error" ≠ c := fun h => hc (h ▸ he)
      have hm : nnMaterialize cols r c = (cols ++ [c], r.setVal c .missing) := by
        unfold nnMaterialize
        rw [if_neg hc]
      have hmask : nullMask ((r.setVal c Value.missing).getVal c) = true := by
        rw [getVal_setVal_self]
        rfl
      rw [hm, notNullStep_eq_neg _ _ _ hc]
      dsimp only
      rw [if_pos hmask]
      rw [ih _ _ (by rw [contains_append_singleton, he]; rfl), errOf_appendErr]
      have : errOf (r.setVal c Value.missing) = errOf r := by
        unfold errOf
        rw [getVal_setVal_ne _ _ _ _ he']
      rw [this]
      simp [concatFrags, String.append_assoc]

theorem validationStep_eq (cols : List String) (r : Row)
    (fv : String × Validation) :
    validationStep cols r fv =
      if cols.contains fv.1 && patternViolation fv.2.pattern (r.getVal fv.1) &&
          (fv.2.vtype == "numeric") then
        appendErr r (validationMessage fv.1 ++ "; ")
      else r := by
  unfold validationStep
  by_cases h1 : fv.1 ∈ cols
  · by_cases h2 : patternViolation fv.2.pattern (r.getVal fv.1) = true
    · by_cases h3 : fv.2.vtype = "numeric"
      · simp [h1, h2, h3]
      · simp [h1, h2, h3]
    · simp [h1, h2]
  · simp [h1]

theorem valFrags_cons (cols : List String) (r : Row) (fv : String × Validation)
    (rest : List (String × Validation)) :
    valFrags cols r (fv :: rest) =
      (if cols.contains fv.1 && patternViolation fv.2.pattern (r.getVal fv.1) &&
          (fv.2.vtype == "numeric") then [validationMessage fv.1 ++ "; "] else []) ++
        valFrags cols (validationStep cols r fv) rest := rfl

theorem errOf_validationStage (l : List (String × Validation)) :
    ∀ cols r,
      errOf (validationStage cols r l) =
        errOf r ++ concatFrags (valFrags cols r l) := by
  induction l with
  | nil => intro cols r; simp [validationStage, valFrags, concatFrags]
  | cons fv rest ih =>
    intro cols r
    show errOf (validationStage cols (validationStep cols r fv) rest) = _
    rw [ih, valFrags_cons, concatFrags_append, validationStep_eq]
    by_cases hhit : (cols.contains fv.1 && patternViolation fv.2.pattern (r.getVal fv.1) &&
        (fv.2.vtype == "numeric")) = true
    · rw [if_pos hhit, if_pos hhit, errOf_appendErr]
      simp [concatFrags, String.append_assoc]
    · rw [if_neg hhit, if_neg hhit]
      simp [concatFrags]

theorem typeStage_cons_pos (cols : List String) (r : Row) (c : String)
    (ty : ColType) (rest : List (String × ColType))
    (hc : cols.contains c = true) :
    typeStage cols r ((c, ty) :: rest) =
      ((typeStage cols (maybeAppendErr r (convertCell c ty (r.getVal c)).1) rest).1,
       (c, (convertCell c ty (r.getVal c)).2) ::
         (typeStage cols (maybeAppendErr r (convertCell c ty (r.getVal c)).1) rest).2) := by
  conv_lhs => rw [typeStage]
  rw [if_pos hc]

theorem typeStage_cons_neg (cols : List String) (r : Row) (c : String)
    (ty : ColType) (rest : List (String × ColType))
    (hc : ¬ cols.contains c = true) :
    typeStage cols r ((c, ty) :: rest) = typeStage cols r rest := by
  conv_lhs => rw [typeStage]
  rw [if_neg hc]

theorem typeFrags_cons_pos (cols : List String) (r : Row) (c : String)
    (ty : ColType) (rest : List (String × ColType))
    (hc : cols.contains c = true) :
    typeFrags cols r ((c, ty) :: rest) =
      ((convertCell c ty (r.getVal c)).1).toList ++
        typeFrags cols (maybeAppendErr r (convertCell c ty (r.getVal c)).1) rest := by
  conv_lhs => rw [typeFrags]
  rw [if_pos hc]

theorem typeFrags_cons_neg (cols : List String) (r : Row) (c : String)
    (ty : ColType) (rest : List (String × ColType))
    (hc : ¬ cols.contains c = true) :
    typeFrags cols r ((c, ty) :: rest) = typeFrags cols r rest := by
  conv_lhs => rw [typeFrags]
  rw [if_neg hc]

theorem errOf_maybeAppendErr (r : Row) (o : Option String) :
    errOf (maybeAppendErr r o) = errOf r ++ concatFrags o.toList := by
  cases o with
  | none => simp [maybeAppendErr, concatFrags]
  | some m => simp [maybeAppendErr, errOf_appendErr, concatFrags]

theorem getVal_maybeAppendErr (r : Row) (o : Option String) (c : String)
    (h : c ≠ "_error") :
    (maybeAppendErr r o).getVal c = r.getVal c := by
  cases o with
  | none => rfl
  | some m => exact getVal_appendErr _ _ _ h

theorem typeStage_getVal (l : List (String × ColType)) :
    ∀ cols r x, x ≠ "_error" →
      ((typeStage cols r l).1).getVal x = r.getVal x := by
  induction l with
  | nil => intro cols r x _; rfl
  | cons p rest ih =>
    intro cols r x he
    obtain ⟨c, ty⟩ := p
    by_cases h1 : cols.contains c = true
    · rw [typeStage_cons_pos _ _ _ _ _ h1]
      dsimp only
      rw [ih _ _ x he, getVal_maybeAppendErr _ _ _ he]
    · rw [typeStage_cons_neg _ _ _ _ _ h1]
      exact ih _ _ x he

theorem errOf_typeStage (l : List (String × ColType)) :
    ∀ cols r,
      errOf (typeStage cols r l).1 =
        errOf r ++ concatFrags (typeFrags cols r l) := by
  induction l with
  | nil => intro cols r; simp [typeStage, typeFrags, concatFrags]
  | cons p rest ih =>
    intro cols r
    obtain ⟨c, ty⟩ := p
    by_cases h1 : cols.contains c = true
    · rw [typeStage_cons_pos _ _ _ _ _ h1, typeFrags_cons_pos _ _ _ _ _ h1]
      dsimp only
      rw [ih, errOf_maybeAppendErr, concatFrags_append]
      simp [String.append_assoc]
    · rw [typeStage_cons_neg _ _ _ _ _ h1, typeFrags_cons_neg _ _ _ _ _ h1]
      exact ih cols r

theorem errOf_processRow (cols : List String) (schema : Schema) (rn : Int)
    (r : Row) (h : cols.contains "_error" = true) :
    errOf (processRow cols schema rn r).1 =
      rstripSemiSpace (concatFrags (rowFragments cols schema rn r)) := by
  unfold processRow rowFragments
  rw [errOf_str]
  have h1 : (notNullStage cols
      ((r.setVal "_error" (.str "")).setVal "_row_number" (.int rn))
      schema.not_null).1.contains "_error" = true := by
    rw [notNullStage_cols]
    exact notNullCols_mono _ _ _ h
  rw [errOf_typeStage, errOf_validationStage, errOf_notNullStage _ _ _ h]
  have h0 : errOf ((r.setVal "_error" (.str "")).setVal "_row_number" (.int rn)) = "" := by
    unfold errOf
    rw [getVal_setVal_ne _ _ _ _ (by decide), getVal_setVal_self]
  rw [h0, concatFrags_append, concatFrags_append]
  simp [String.append_assoc]

/-! ## Characterizations of `convertCell` -/

theorem stringifyOpt_of_ne_missing (v : Value) (hm : v ≠ .missing) :
    stringifyOpt v = some (stringifyVal v) := by
  cases v with
  | missing => exact absurd rfl hm
  | str s => rfl
  | int n => rfl
  | date d => rfl
  | ts t => rfl

theorem convertCell_empty (c : String) (ty : ColType) (v : Value)
    (h : v = .missing ∨ pyStrip (stringifyVal v) = "") :
    convertCell c ty v = (none, .missing) := by
  have htr : (stringifyOpt v).map pyStrip = none ∨
      (stringifyOpt v).map pyStrip = some "" := by
    rcases h with h | h
    · subst h; left; rfl
    · cases v with
      | missing => left; rfl
      | str s => right; simp [stringifyOpt, h]
      | int n => right; simp [stringifyOpt, h]
      | date d => right; simp [stringifyOpt, h]
      | ts t => right; simp [stringifyOpt, h]
  unfold convertCell
  rcases htr with h1 | h1 <;>
    cases ty <;> simp [h1]

theorem convertCell_int_present (c : String) (v : Value) (hm : v ≠ .missing)
    (h : pyStrip (stringifyVal v) ≠ "") :
    convertCell c .int v =
      (match parseNumeric (pyStrip (stringifyVal v)) with
       | none => (some ("Invalid " ++ c ++ " (must be integer); "), Value.missing)
       | some q =>
         if fracIsClose q then (none, .int (roundHalfEven q))
         else (some ("Invalid " ++ c ++ " (must be integer); "), Value.missing)) := by
  unfold convertCell
  rw [stringifyOpt_of_ne_missing v hm]
  have hb : (pyStrip (stringifyVal v) == "") = false := by simp [h]
  cases hp : parseNumeric (pyStrip (stringifyVal v)) with
  | none => simp [hb, hp]
  | some q => by_cases hf : fracIsClose q = true <;> simp [hb, hp, hf]

theorem convertCell_string_present (c : String) (maxL : Option Nat) (v : Value)
    (hm : v ≠ .missing) (h : pyStrip (stringifyVal v) ≠ "") :
    convertCell c (.string maxL) v =
      ((match maxL with
        | some m =>
          if m < (pyStrip (stringifyVal v)).length then
            some ("Invalid " ++ c ++ " (max " ++ natToStr m ++ " chars); ")
          else none
        | none => none),
       .str (pyStrip (stringifyVal v))) := by
  unfold convertCell
  rw [stringifyOpt_of_ne_missing v hm]
  have hb : (pyStrip (stringifyVal v) == "") = false := by simp [h]
  cases maxL with
  | none => simp [hb]
  | some m =>
    by_cases hl : m < (pyStrip (stringifyVal v)).length <;> simp [hb, hl]

theorem convertCell_date_present (c : String) (v : Value) (hm : v ≠ .missing)
    (h : pyStrip (stringifyVal v) ≠ "") :
    convertCell c .date v =
      (match parseDate (pyStrip (stringifyVal v)) with
       | none => (some ("Invalid " ++ c ++ " (must be YYYY-MM-DD); "), Value.missing)
       | some d => (none, .date d)) := by
  unfold convertCell
  rw [stringifyOpt_of_ne_missing v hm]
  have hb : (pyStrip (stringifyVal v) == "") = false := by simp [h]
  cases hp : parseDate (pyStrip (stringifyVal v)) with
  | none => simp [hb, hp]
  | some d => simp [hb, hp]

theorem convertCell_ts_present (c : String) (v : Value) (hm : v ≠ .missing)
    (h : pyStrip (stringifyVal v) ≠ "") :
    convertCell c .timestamptz v =
      (match parseTs (pyStrip (stringifyVal v)) with
       | none => (some ("Invalid " ++ c ++ " (must be ISO 8601 timestamp); "), Value.missing)
       | some t => (none, .ts t)) := by
  unfold convertCell
  rw [stringifyOpt_of_ne_missing v hm]
  have hb : (pyStrip (stringifyVal v) == "") = false := by simp [h]
  cases hp : parseTs (pyStrip (stringifyVal v)) with
  | none => simp [hb, hp]
  | some t => simp [hb, hp]

/-! ## Validate-level structure -/

theorem contains_append (l1 l2 : List String) (x : String) :
    (l1 ++ l2).contains x = (l1.contains x || l2.contains x) := by
  induction l1 with
  | nil => rfl
  | cons a t ih =>
    by_cases h : x = a <;> simp_all [List.contains_cons]

theorem selCols_contains_error (df : DF) (schema : Schema) :
    (selCols df schema).contains "_error" = true := by
  unfold selCols
  rw [contains_append]
  simp [List.contains_cons]

theorem selCols_contains_rowNumber (df : DF) (schema : Schema) :
    (selCols df schema).contains "_row_number" = true := by
  unfold selCols
  rw [contains_append]
  simp [List.contains_cons]

theorem dfCols0_contains_error (df : DF) :
    (dfCols0 df).contains "_error" = true := by
  unfold dfCols0
  exact contains_addCol_of _ _ _ (contains_addCol_self _ _)

theorem dfCols0_contains_rowNumber (df : DF) :
    (dfCols0 df).contains "_row_number" = true := by
  unfold dfCols0
  exact contains_addCol_self _ _

theorem validate_clean_rows (df : DF) (schema : Schema) :
    (validate df schema).1.rows =
      ((processedRows df schema).filter isCleanP).map
        (cleanRowOf (selCols df schema)) := by
  unfold validate
  dsimp only
  split
  · rename_i h
    rw [List.isEmpty_iff] at h
    rw [h]
    rfl
  · rfl

theorem validate_invalid_rows (df : DF) (schema : Schema) :
    (validate df schema).2.rows =
      ((processedRows df schema).filter (fun p => !isCleanP p)).map
        (invalidRowOf (selCols df schema)) := rfl

theorem validate_invalid_cols (df : DF) (schema : Schema) :
    (validate df schema).2.cols = selCols df schema := rfl

theorem validate_clean_cols_of_empty (df : DF) (schema : Schema)
    (h : (processedRows df schema).filter isCleanP = []) :
    (validate df schema).1.cols = selCols df schema := by
  unfold validate
  dsimp only
  rw [if_pos (by rw [h]; rfl)]

theorem validate_clean_cols_of_nonempty (df : DF) (schema : Schema)
    (h : (processedRows df schema).filter isCleanP ≠ []) :
    (validate df schema).1.cols =
      (selCols df schema).filter
        (fun c => !(c == "_error" || c == "_row_number")) := by
  unfold validate
  dsimp only
  rw [if_neg (by rwa [ne_eq, ← List.isEmpty_iff] at h)]

theorem processedRows_length (df : DF) (schema : Schema) :
    (processedRows df schema).length = df.rows.length := by
  unfold processedRows
  rw [List.length_map, List.enum_length]

theorem validate_length (df : DF) (schema : Schema) :
    (validate df schema).1.rows.length + (validate df schema).2.rows.length
      = df.rows.length := by
  rw [validate_clean_rows, validate_invalid_rows, List.length_map,
    List.length_map, length_filter_add_length_filter_not,
    processedRows_length]

theorem processRow_rowNumber (cols : List String) (schema : Schema) (rn : Int)
    (r : Row) (h : cols.contains "_row_number" = true) :
    (processRow cols schema rn r).1.getVal "_row_number" = .int rn := by
  unfold processRow
  dsimp only
  rw [getVal_setVal_ne _ _ _ _ (by decide), typeStage_getVal _ _ _ _ (by decide),
    validationStage_getVal _ _ _ _ (by decide),
    notNullStage_getVal _ _ _ _ h (by decide), getVal_setVal_self]

theorem processedRows_rowNums (df : DF) (schema : Schema) :
    (processedRows df schema).map (fun p => p.1.getVal "_row_number") =
      (List.range df.rows.length).map
        (fun i : Nat => Value.int ((i : Int) + 2)) := by
  unfold processedRows
  rw [List.map_map]
  have hcong :
      ∀ p ∈ df.rows.enum,
        ((fun p => p.1.getVal "_row_number") ∘
          (fun p : Nat × Row =>
            processRow (dfCols0 df) schema ((p.1 : Int) + 2) p.2)) p =
          ((fun i : Nat => Value.int ((i : Int) + 2)) ∘ Prod.fst) p := by
    intro p _
    exact processRow_rowNumber _ _ _ _ (dfCols0_contains_rowNumber df)
  rw [List.map_congr_left hcong, ← List.map_map, List.enum_map_fst]

theorem rowNums_nodup (df : DF) (schema : Schema) :
    ((processedRows df schema).map (fun p => p.1.getVal "_row_number")).Nodup := by
  rw [processedRows_rowNums]
  refine List.Nodup.map ?_ (List.nodup_range _)
  intro a b hab
  simp only [Value.int.injEq] at hab
  omega

theorem filter_map_disjoint {α β : Type} (l : List α) (p : α → Bool)
    (f : α → β) (h : (l.map f).Nodup) :
    ∀ x ∈ (l.filter p).map f, x ∉ (l.filter (fun a => !p a)).map f := by
  induction l with
  | nil => intro x hx; simp at hx
  | cons a t ih =>
    rw [List.map_cons, List.nodup_cons] at h
    intro x hx
    by_cases hp : p a
    · rw [List.filter_cons_of_pos hp, List.map_cons] at hx
      rw [List.filter_cons_of_neg (by simp [hp])]
      rcases List.mem_cons.mp hx with h1 | h1
      · subst h1
        intro hmem
        exact h.1 (((List.filter_sublist t).map f).subset hmem)
      · exact ih h.2 x h1
    · rw [List.filter_cons_of_neg hp] at hx
      rw [List.filter_cons_of_pos (by simp [hp]), List.map_cons]
      intro hmem
      rcases List.mem_cons.mp hmem with h1 | h1
      · subst h1
        exact h.1 (((List.filter_sublist t).map f).subset hx)
      · exact ih h.2 x hx h1

theorem cleanNums_disjoint_invalidNums (df : DF) (schema : Schema) :
    ∀ v ∈ cleanNums df schema, v ∉ invalidNums df schema := by
  unfold cleanNums invalidNums
  exact filter_map_disjoint _ _ _ (rowNums_nodup df schema)

/-! ## Fragment membership and emptiness -/

theorem nnFrags_shape (l : List String) :
    ∀ cols r f, f ∈ nnFrags cols r l → ∃ c ∈ l, f = nnMessage c := by
  induction l with
  | nil => intro cols r f hf; simp [nnFrags] at hf
  | cons c rest ih =>
    intro cols r f hf
    rw [nnFrags_cons] at hf
    rcases List.mem_append.mp hf with h1 | h1
    · refine ⟨c, by simp, ?_⟩
      split at h1
      · simpa using h1
      · simp at h1
    · obtain ⟨c', hc', hf'⟩ := ih _ _ f h1
      exact ⟨c', by simp [hc'], hf'⟩

theorem valFrags_shape (l : List (String × Validation)) :
    ∀ cols r f, f ∈ valFrags cols r l →
      ∃ fv ∈ l, f = validationMessage fv.1 ++ "; " := by
  induction l with
  | nil => intro cols r f hf; simp [valFrags] at hf
  | cons fv rest ih =>
    intro cols r f hf
    rw [valFrags_cons] at hf
    rcases List.mem_append.mp hf with h1 | h1
    · refine ⟨fv, by simp, ?_⟩
      split at h1
      · simpa using h1
      · simp at h1
    · obtain ⟨fv', hfv', hf'⟩ := ih _ _ f h1
      exact ⟨fv', by simp [hfv'], hf'⟩

theorem convertCell_err_shape (c : String) (ty : ColType) (v : Value)
    (m : String) (h : (convertCell c ty v).1 = some m) :
    ∃ s, m = ("Invalid " ++ c ++ s) ++ "; " := by
  by_cases hm : v = .missing ∨ pyStrip (stringifyVal v) = ""
  · rw [convertCell_empty c ty v hm] at h
    cases h
  · push_neg at hm
    obtain ⟨hm1, hm2⟩ := hm
    cases ty with
    | string maxL =>
      rw [convertCell_string_present c maxL v hm1 hm2] at h
      cases maxL with
      | none => cases h
      | some maxI =>
        dsimp only at h
        split at h
        · refine ⟨" (max " ++ natToStr maxI ++ " chars)", ?_⟩
          simp only [Option.some_inj] at h
          rw [← h]
          simp [String.append_assoc]
        · cases h
    | int =>
      rw [convertCell_int_present c v hm1 hm2] at h
      cases hp : parseNumeric (pyStrip (stringifyVal v)) with
      | none =>
        rw [hp] at h
        refine ⟨" (must be integer)", ?_⟩
        simp only [Option.some_inj] at h
        rw [← h]
        simp [String.append_assoc]
      | some q =>
        rw [hp] at h
        dsimp only at h
        split at h
        · cases h
        · refine ⟨" (must be integer)", ?_⟩
          simp only [Option.some_inj] at h
          rw [← h]
          simp [String.append_assoc]
    | date =>
      rw [convertCell_date_present c v hm1 hm2] at h
      cases hp : parseDate (pyStrip (stringifyVal v)) with
      | none =>
        rw [hp] at h
        refine ⟨" (must be YYYY-MM-DD)", ?_⟩
        simp only [Option.some_inj] at h
        rw [← h]
        simp [String.append_assoc]
      | some d =>
        rw [hp] at h
        cases h
    | timestamptz =>
      rw [convertCell_ts_present c v hm1 hm2] at h
      cases hp : parseTs (pyStrip (stringifyVal v)) with
      | none =>
        rw [hp] at h
        refine ⟨" (must be ISO 8601 timestamp)", ?_⟩
        simp only [Option.some_inj] at h
        rw [← h]
        simp [String.append_assoc]
      | some t =>
        rw [hp] at h
        cases h

theorem typeFrags_shape (l : List (String × ColType)) :
    ∀ cols r f, f ∈ typeFrags cols r l →
      ∃ p ∈ l, ∃ s, f = ("Invalid " ++ p.1 ++ s) ++ "; " := by
  induction l with
  | nil => intro cols r f hf; simp [typeFrags] at hf
  | cons p rest ih =>
    intro cols r f hf
    obtain ⟨c, ty⟩ := p
    by_cases hc : cols.contains c = true
    · rw [typeFrags_cons_pos _ _ _ _ _ hc] at hf
      rcases List.mem_append.mp hf with h1 | h1
      · cases he : (convertCell c ty (r.getVal c)).1 with
        | none => rw [he] at h1; simp at h1
        | some m =>
          rw [he] at h1
          simp only [Option.toList_some, List.mem_singleton] at h1
          obtain ⟨s, hs⟩ := convertCell_err_shape c ty _ m he
          exact ⟨(c, ty), by simp, s, by rw [h1, hs]⟩
      · obtain ⟨p', hp', hs⟩ := ih _ _ f h1
        exact ⟨p', by simp [hp'], hs⟩
    · rw [typeFrags_cons_neg _ _ _ _ _ hc] at hf
      obtain ⟨p', hp', hs⟩ := ih _ _ f hf
      exact ⟨p', by simp [hp'], hs⟩

/-- Every fragment ends with the separator `"; "`. -/
theorem rowFragments_end_sep (cols : List String) (schema : Schema) (rn : Int)
    (r : Row) :
    ∀ f ∈ rowFragments cols schema rn r, ∃ s, f = s ++ "; " := by
  intro f hf
  unfold rowFragments at hf
  rcases List.mem_append.mp hf with h1 | h1
  · rcases List.mem_append.mp h1 with h2 | h2
    · obtain ⟨c, _, hc⟩ := nnFrags_shape _ _ _ f h2
      exact ⟨"NOT NULL violation: " ++ c, by
        rw [hc]
        simp [nnMessage, String.append_assoc]⟩
    · obtain ⟨fv, _, hc⟩ := valFrags_shape _ _ _ f h2
      exact ⟨validationMessage fv.1, hc⟩
  · obtain ⟨p, _, s, hs⟩ := typeFrags_shape _ _ _ f h1
    exact ⟨"Invalid " ++ p.1 ++ s, hs⟩

/-- Every fragment contains a character outside the `rstrip` set. -/
theorem rowFragments_have_letter (cols : List String) (schema : Schema)
    (rn : Int) (r : Row) :
    ∀ f ∈ rowFragments cols schema rn r,
      ∃ ch ∈ f.data, (ch == ';' || ch == ' ') = false := by
  intro f hf
  unfold rowFragments at hf
  rcases List.mem_append.mp hf with h1 | h1
  · rcases List.mem_append.mp h1 with h2 | h2
    · obtain ⟨c, _, hc⟩ := nnFrags_shape _ _ _ f h2
      refine ⟨'N', ?_, by decide⟩
      rw [hc]
      show 'N' ∈ (("NOT NULL violation: " ++ c) ++ "; ").data
      rw [String.data_append, String.data_append]
      exact List.mem_append_left _ (List.mem_append_left _ (by decide))
    · obtain ⟨fv, _, hc⟩ := valFrags_shape _ _ _ f h2
      refine ⟨'I', ?_, by decide⟩
      rw [hc, String.data_append]
      refine List.mem_append_left _ ?_
      unfold validationMessage
      split <;>
        · rw [String.data_append, String.data_append]
          exact List.mem_append_left _ (List.mem_append_left _ (by decide))
  · obtain ⟨p, _, s, hs⟩ := typeFrags_shape _ _ _ f h1
    refine ⟨'I', ?_, by decide⟩
    rw [hs, String.data_append, String.data_append, String.data_append]
    exact List.mem_append_left _
      (List.mem_append_left _ (List.mem_append_left _ (by decide)))

theorem concatFrags_data_mem (l : List String) (f : String) :
    f ∈ l → ∀ ch ∈ f.data, ch ∈ (concatFrags l).data := by
  induction l with
  | nil =>
    intro hf
    simp at hf
  | cons g t ih =>
    intro hf ch hch
    rcases List.mem_cons.mp hf with h1 | h1
    · show ch ∈ (g ++ concatFrags t).data
      rw [String.data_append]
      exact List.mem_append_left _ (h1 ▸ hch)
    · show ch ∈ (g ++ concatFrags t).data
      rw [String.data_append]
      exact List.mem_append_right _ (ih h1 ch hch)

theorem rstripSemiSpace_ne_empty (s : String)
    (h : ∃ ch ∈ s.data, (ch == ';' || ch == ' ') = false) :
    rstripSemiSpace s ≠ "" := by
  obtain ⟨ch, hmem, hch⟩ := h
  intro hem
  have hd : rstripL (fun c => c == ';' || c == ' ') s.data = [] :=
    congrArg String.data hem
  rw [rstripL_eq_nil_iff] at hd
  rw [hd ch hmem] at hch
  cases hch

/-- If any fragment exists, the final diagnostic is non-empty. -/
theorem errOf_processRow_ne_empty (cols : List String) (schema : Schema)
    (rn : Int) (r : Row) (h : cols.contains "_error" = true)
    (hne : rowFragments cols schema rn r ≠ []) :
    errOf (processRow cols schema rn r).1 ≠ "" := by
  rw [errOf_processRow _ _ _ _ h]
  cases hl : rowFragments cols schema rn r with
  | nil => exact absurd hl hne
  | cons f rest =>
    have hfmem : f ∈ rowFragments cols schema rn r := by
      rw [hl]
      simp
    obtain ⟨ch, hmem, hch⟩ := rowFragments_have_letter cols schema rn r f hfmem
    exact rstripSemiSpace_ne_empty _
      ⟨ch, concatFrags_data_mem _ f (by simp) ch hmem, hch⟩

/-- Conversely, with no fragments the final diagnostic is empty. -/
theorem errOf_processRow_empty (cols : List String) (schema : Schema)
    (rn : Int) (r : Row) (h : cols.contains "_error" = true)
    (hnil : rowFragments cols schema rn r = []) :
    errOf (processRow cols schema rn r).1 = "" := by
  rw [errOf_processRow _ _ _ _ h, hnil]
  rfl

/-! ## Concrete numeric evaluations -/

theorem parseNumeric_two_point_five : parseNumeric "2.5" = some (mkRat 5 2) := by
  with_unfolding_all rfl

theorem parseNumeric_two_point_zero : parseNumeric "2.0" = some (2 : ℚ) := by
  with_unfolding_all rfl

theorem parseNumeric_one_billionth :
    parseNumeric "0.000000001" = some (1 / 1000000000 : ℚ) := by
  with_unfolding_all rfl

theorem fracPart_intCast (n : ℤ) : fracPart (n : ℚ) = 0 := by
  simp [fracPart]

theorem fracPart_one_billionth :
    fracPart (1 / 1000000000 : ℚ) = 1 / 1000000000 := by
  with_unfolding_all rfl

theorem fracIsClose_two_point_five : fracIsClose (mkRat 5 2) = false := by
  with_unfolding_all rfl

theorem fracIsClose_two : fracIsClose (2 : ℚ) = true := by
  with_unfolding_all rfl

theorem fracIsClose_one_billionth : fracIsClose (1 / 1000000000 : ℚ) = true := by
  with_unfolding_all rfl

theorem roundHalfEven_intCast (n : ℤ) : roundHalfEven (n : ℚ) = n := by
  simp [roundHalfEven]

theorem roundHalfEven_one_billionth : roundHalfEven (1 / 1000000000 : ℚ) = 0 := by
  with_unfolding_all rfl

/-! # Claim theorems -/

/-- Membership of the NOT-NULL fragment when the column is absent from the
frame: it is materialized all-missing and every row is flagged. -/
theorem nnFrags_mem_of_absent (l : List String) :
    ∀ cols (r : Row) c, c ∈ l → cols.contains c = false →
      nnMessage c ∈ nnFrags cols r l := by
  induction l with
  | nil => intro cols r c hc _; simp at hc
  | cons a rest ih =>
    intro cols r c hc habs
    rw [nnFrags_cons]
    by_cases hca : c = a
    · subst hca
      have hm : nnMaterialize cols r c = (cols ++ [c], r.setVal c .missing) := by
        unfold nnMaterialize
        rw [if_neg (by rw [habs]; exact Bool.false_ne_true)]
      rw [hm]
      dsimp only
      rw [getVal_setVal_self]
      exact List.mem_append_left _ (by simp [nullMask])
    · have hc' : c ∈ rest := by
        rcases List.mem_cons.mp hc with h | h
        · exact absurd h hca
        · exact h
      refine List.mem_append_right _ (ih _ _ c hc' ?_)
      by_cases ha : cols.contains a = true
      · rw [notNullStep_eq_pos _ _ _ ha]
        exact habs
      · rw [notNullStep_eq_neg _ _ _ ha]
        dsimp only
        rw [contains_append_singleton, habs]
        simp [hca]

/-- C1: validate partitions the rows totally and stably: the partition
sizes sum to the input size, each partition is the filter of the processed
rows by (non-)emptiness of the final diagnostic, each is a sublist of the
full per-row transform (so input order is preserved), the invalid rows
carry their `_row_number`, and the two partitions are disjoint by row
number. -/
theorem c1_validate_partition (df : DF) (schema : Schema) :
    ((validate df schema).1.rows.length + (validate df schema).2.rows.length
        = df.rows.length) ∧
    (validate df schema).1.rows =
      ((processedRows df schema).filter isCleanP).map
        (cleanRowOf (selCols df schema)) ∧
    (validate df schema).2.rows =
      ((processedRows df schema).filter (fun p => !isCleanP p)).map
        (invalidRowOf (selCols df schema)) ∧
    (validate df schema).1.rows.Sublist
      ((processedRows df schema).map (cleanRowOf (selCols df schema))) ∧
    (validate df schema).2.rows.Sublist
      ((processedRows df schema).map (invalidRowOf (selCols df schema))) ∧
    (validate df schema).2.rows.map (fun r => r.getVal "_row_number") =
      invalidNums df schema ∧
    (∀ v ∈ cleanNums df schema, v ∉ invalidNums df schema) := by
  refine ⟨validate_length df schema, validate_clean_rows df schema,
    validate_invalid_rows df schema, ?_, ?_, ?_,
    cleanNums_disjoint_invalidNums df schema⟩
  · rw [validate_clean_rows]
    exact (List.filter_sublist _).map _
  · rw [validate_invalid_rows]
    exact (List.filter_sublist _).map _
  · rw [validate_invalid_rows, List.map_map]
    unfold invalidNums
    apply List.map_congr_left
    intro p _
    show (invalidRowOf (selCols df schema) p).getVal "_row_number" = _
    unfold invalidRowOf
    rw [getVal_selectRow, selCols_contains_rowNumber]
    rfl

/-- C2 counterexample: `validate_data_with_schema` does not refuse a
schema whose column `mystery_metric` has no `COLUMN_TYPE_SPEC` entry: the
one-row batch is processed normally (the row even lands in the clean
partition), while only the check-schema CLI's `ensure_column_type_spec`
flags the condition. -/
theorem c2_counterexample :
    ensureColumnTypeSpec ⟨["mystery_metric"], [], []⟩ = false ∧
    (validate ⟨["mystery_metric"], [[("mystery_metric", Value.str "7")]]⟩
        ⟨["mystery_metric"], [], []⟩).1.rows =
      [[("mystery_metric", Value.str "7")]] ∧
    (validate ⟨["mystery_metric"], [[("mystery_metric", Value.str "7")]]⟩
        ⟨["mystery_metric"], [], []⟩).2.rows = [] := by
  refine ⟨by decide, ?_, ?_⟩ <;> with_unfolding_all rfl

/-- C2 (amended): the engine itself performs no ColumnTypeSpec coverage
check — `validate_data_with_schema` processes every batch totally, columns
without a spec entry are simply not coerced, and the condition never
surfaces per-row; the setup-time refusal lives only in the check-schema
CLI, whose `ensure_column_type_spec` succeeds exactly when every schema
column has a spec entry. -/
theorem c2_type_spec_coverage :
    (∀ schema : Schema,
      ensureColumnTypeSpec schema = true ↔
        ∀ c ∈ schema.columns, (lookupSpec c).isSome = true) ∧
    (∀ (df : DF) (schema : Schema),
      (validate df schema).1.rows.length + (validate df schema).2.rows.length
        = df.rows.length) := by
  refine ⟨?_, fun df schema => validate_length df schema⟩
  intro schema
  unfold ensureColumnTypeSpec missingSpecColumns
  rw [List.isEmpty_iff, List.filter_eq_nil_iff]
  constructor
  · intro h c hc
    have h2 := h c hc
    cases hl : lookupSpec c with
    | none => rw [hl] at h2; simp at h2
    | some ty => rfl
  · intro h c hc
    have h2 := h c hc
    cases hl : lookupSpec c with
    | none => rw [hl] at h2; simp at h2
    | some ty => simp

/-- Witness for C2 (amended): the coverage check accepts the daily schema,
and a batch is processed totally. -/
theorem c2_type_spec_coverage_witness :
    ensureColumnTypeSpec scanReportDaily = true ∧
    (validate ⟨["scan_date"], []⟩ scanReportDaily).1.rows.length +
      (validate ⟨["scan_date"], []⟩ scanReportDaily).2.rows.length = 0 := by
  constructor
  · exact (c2_type_spec_coverage.1 scanReportDaily).mpr (by decide)
  · exact c2_type_spec_coverage.2 ⟨["scan_date"], []⟩ scanReportDaily

/-- C4 counterexample: on a batch whose single row is invalid the clean
frame is empty, so the `if not clean_df.empty` guard skips the column
drop and the empty clean frame still carries the `_error` and
`_row_number` columns. -/
theorem c4_counterexample :
    (validate ⟨["scan_date"], [[("scan_date", Value.str "2024-01-02")]]⟩
        scanReportDaily).1.rows = [] ∧
    (validate ⟨["scan_date"], [[("scan_date", Value.str "2024-01-02")]]⟩
        scanReportDaily).1.cols.contains "_error" = true ∧
    (validate ⟨["scan_date"], [[("scan_date", Value.str "2024-01-02")]]⟩
        scanReportDaily).1.cols.contains "_row_number" = true := by
  refine ⟨?_, ?_, ?_⟩ <;> with_unfolding_all rfl

/-- C4 (amended): a row lands in the clean partition iff its final
trimmed diagnostic is empty (both directions, by construction of the
split); every invalid row carries the diagnostic and row-number fields;
and whenever the clean partition is non-empty its frame carries neither —
when no row is clean the code skips the drop, so the empty clean frame
retains both columns. -/
theorem c4_clean_iff_empty_diagnostic (df : DF) (schema : Schema) :
    ((validate df schema).1.rows =
      ((processedRows df schema).filter (fun p => errOf p.1 == "")).map
        (cleanRowOf (selCols df schema))) ∧
    ((validate df schema).2.rows =
      ((processedRows df schema).filter (fun p => !(errOf p.1 == ""))).map
        (invalidRowOf (selCols df schema))) ∧
    (∀ r ∈ (validate df schema).2.rows,
      r.hasCol "_error" = true ∧ r.hasCol "_row_number" = true) ∧
    ((validate df schema).1.rows ≠ [] →
      (validate df schema).1.cols.contains "_error" = false ∧
      (validate df schema).1.cols.contains "_row_number" = false ∧
      ∀ r ∈ (validate df schema).1.rows,
        r.hasCol "_error" = false ∧ r.hasCol "_row_number" = false) := by
  refine ⟨validate_clean_rows df schema, validate_invalid_rows df schema,
    ?_, ?_⟩
  · intro r hr
    rw [validate_invalid_rows] at hr
    obtain ⟨p, _, rfl⟩ := List.mem_map.mp hr
    unfold invalidRowOf
    rw [hasCol_selectRow, hasCol_selectRow, selCols_contains_error,
      selCols_contains_rowNumber]
    exact ⟨rfl, rfl⟩
  · intro hne
    have hfil : (processedRows df schema).filter isCleanP ≠ [] := by
      intro h0
      rw [validate_clean_rows, h0] at hne
      exact hne rfl
    have hcols := validate_clean_cols_of_nonempty df schema hfil
    refine ⟨?_, ?_, ?_⟩
    · rw [hcols]
      cases hc : ((selCols df schema).filter
          (fun c => !(c == "_error" || c == "_row_number"))).contains "_error" with
      | false => rfl
      | true =>
        exfalso
        have hmem := (List.elem_iff).mp hc
        have := (List.mem_filter.mp hmem).2
        simp at this
    · rw [hcols]
      cases hc : ((selCols df schema).filter
          (fun c => !(c == "_error" || c == "_row_number"))).contains "_row_number" with
      | false => rfl
      | true =>
        exfalso
        have hmem := (List.elem_iff).mp hc
        have := (List.mem_filter.mp hmem).2
        simp at this
    · intro r hr
      rw [validate_clean_rows] at hr
      obtain ⟨p, _, rfl⟩ := List.mem_map.mp hr
      unfold cleanRowOf
      constructor
      · rw [hasCol_dropCol_ne _ _ _ (by decide)]
        exact hasCol_dropCol_self _ _
      · exact hasCol_dropCol_self _ _

/-- Witness for C4 (amended): the non-empty-clean branch at a concrete
batch with one fully valid row. -/
theorem c4_clean_iff_empty_diagnostic_witness :
    (validate ⟨["scan_date", "store_id", "employee_id", "safesize_code"],
        [[("scan_date", Value.str "2024-01-02"), ("store_id", Value.str "123"),
          ("employee_id", Value.str "1234567"),
          ("safesize_code", Value.str "abc")]]⟩ scanReportDaily).1.cols.contains
      "_error" = false := by
  have hr : (validate ⟨["scan_date", "store_id", "employee_id", "safesize_code"],
      [[("scan_date", Value.str "2024-01-02"), ("store_id", Value.str "123"),
        ("employee_id", Value.str "1234567"),
        ("safesize_code", Value.str "abc")]]⟩ scanReportDaily).1.rows.length = 1 := by
    with_unfolding_all rfl
  refine ((c4_clean_iff_empty_diagnostic _ scanReportDaily).2.2.2 ?_).1
  intro h0
  rw [h0] at hr
  cases hr

/-- C9: the final diagnostic of every processed row is exactly the
concatenation of its stage-ordered fragments with the trailing separator
characters trimmed; every fragment carries the `"; "` separator; and the
fragment list is, by construction, NOT-NULL fragments, then pattern
fragments, then type-coercion fragments in `COLUMN_TYPE_SPEC` order. -/
theorem c9_diagnostic_order (cols : List String) (schema : Schema) (rn : Int)
    (r : Row) (h : cols.contains "_error" = true) :
    errOf (processRow cols schema rn r).1 =
      rstripSemiSpace (concatFrags (rowFragments cols schema rn r)) ∧
    (∀ f ∈ rowFragments cols schema rn r, ∃ s, f = s ++ "; ") ∧
    rowFragments cols schema rn r =
      nnFrags cols
        ((r.setVal "_error" (.str "")).setVal "_row_number" (.int rn))
        schema.not_null ++
      valFrags
        (notNullStage cols
          ((r.setVal "_error" (.str "")).setVal "_row_number" (.int rn))
          schema.not_null).1
        (notNullStage cols
          ((r.setVal "_error" (.str "")).setVal "_row_number" (.int rn))
          schema.not_null).2 schema.validations ++
      typeFrags
        (notNullStage cols
          ((r.setVal "_error" (.str "")).setVal "_row_number" (.int rn))
          schema.not_null).1
        (validationStage
          (notNullStage cols
            ((r.setVal "_error" (.str "")).setVal "_row_number" (.int rn))
            schema.not_null).1
          (notNullStage cols
            ((r.setVal "_error" (.str "")).setVal "_row_number" (.int rn))
            schema.not_null).2 schema.validations) COLUMN_TYPE_SPEC := by
  exact ⟨errOf_processRow cols schema rn r h,
    rowFragments_end_sep cols schema rn r, rfl⟩

/-- Witness for C9: the diagnostic equation at a concrete row with
several violations. -/
theorem c9_diagnostic_order_witness :
    errOf (processRow (dfCols0 ⟨["scan_date", "store_id"], []⟩)
        scanReportDaily 2
        [("scan_date", Value.str "2024-01-02"),
         ("store_id", Value.str "")]).1 =
      rstripSemiSpace (concatFrags
        (rowFragments (dfCols0 ⟨["scan_date", "store_id"], []⟩)
          scanReportDaily 2
          [("scan_date", Value.str "2024-01-02"),
           ("store_id", Value.str "")])) :=
  (c9_diagnostic_order (dfCols0 ⟨["scan_date", "store_id"], []⟩)
    scanReportDaily 2 _ (dfCols0_contains_error _)).1

/-- C10: when a schema NOT-NULL column is entirely absent from the batch,
validate does not fail: the column is materialized all-missing, every row
receives the NOT-NULL fragment for it, and the whole batch lands in the
invalid partition. -/
theorem c10_absent_not_null_column (df : DF) (schema : Schema) (c : String)
    (hc : c ∈ schema.not_null) (habs : (dfCols0 df).contains c = false) :
    (validate df schema).1.rows = [] ∧
    (validate df schema).2.rows.length = df.rows.length ∧
    (∀ r ∈ df.rows, ∀ rn : Int,
      nnMessage c ∈ rowFragments (dfCols0 df) schema rn r) := by
  have hfrag : ∀ (r : Row) (rn : Int),
      nnMessage c ∈ rowFragments (dfCols0 df) schema rn r := by
    intro r rn
    unfold rowFragments
    exact List.mem_append_left _ (List.mem_append_left _
      (nnFrags_mem_of_absent _ _ _ c hc habs))
  have hclean : ∀ p ∈ processedRows df schema, isCleanP p = false := by
    intro p hp
    unfold processedRows at hp
    obtain ⟨q, _, rfl⟩ := List.mem_map.mp hp
    unfold isCleanP
    have hne := errOf_processRow_ne_empty (dfCols0 df) schema ((q.1 : Int) + 2)
      q.2 (dfCols0_contains_error df)
      (List.ne_nil_of_mem (hfrag q.2 ((q.1 : Int) + 2)))
    simp [hne]
  have hfil : (processedRows df schema).filter isCleanP = [] :=
    List.filter_eq_nil_iff.mpr (by intro p hp; simp [hclean p hp])
  refine ⟨?_, ?_, fun r _ rn => hfrag r rn⟩
  · rw [validate_clean_rows, hfil]
    rfl
  · have := validate_length df schema
    have h0 : (validate df schema).1.rows.length = 0 := by
      rw [validate_clean_rows, hfil]
      rfl
    omega

/-- Witness for C10: a batch with only a `scan_date` column misses the
NOT-NULL column `store_id`. -/
theorem c10_absent_not_null_column_witness :
    (validate ⟨["scan_date"], [[("scan_date", Value.str "2024-01-02")]]⟩
        scanReportDaily).1.rows = [] ∧
    (validate ⟨["scan_date"], [[("scan_date", Value.str "2024-01-02")]]⟩
        scanReportDaily).2.rows.length =
      (⟨["scan_date"], [[("scan_date", Value.str "2024-01-02")]]⟩ : DF).rows.length ∧
    (∀ r ∈ (⟨["scan_date"], [[("scan_date", Value.str "2024-01-02")]]⟩ : DF).rows,
      ∀ rn : Int,
      nnMessage "store_id" ∈
        rowFragments (dfCols0 ⟨["scan_date"], [[("scan_date", Value.str "2024-01-02")]]⟩)
          scanReportDaily rn r) :=
  c10_absent_not_null_column
    ⟨["scan_date"], [[("scan_date", Value.str "2024-01-02")]]⟩
    scanReportDaily "store_id" (by decide) (by decide)

/-! ## Duplicate-header suffixing: characterization and uniqueness -/

theorem data_suffixedName (t : String) (k : Nat) :
    (suffixedName t k).data = t.data ++ '_' :: (natToStr k).data := by
  unfold suffixedName
  rw [String.data_append, String.data_append, List.append_assoc]
  rfl

theorem underscore_not_in_natToStr (k : Nat) : '_' ∉ (natToStr k).data :=
  underscore_not_in_natDigits k

/-- Splitting a string at a separator whose right part avoids the
separator character is unambiguous. -/
theorem sep_inj : ∀ (u₁ u₂ d₁ d₂ : List Char),
    '_' ∉ d₁ → '_' ∉ d₂ →
    u₁ ++ '_' :: d₁ = u₂ ++ '_' :: d₂ → u₁ = u₂ ∧ d₁ = d₂ := by
  intro u₁
  induction u₁ with
  | nil =>
    intro u₂ d₁ d₂ h₁ _ heq
    cases u₂ with
    | nil =>
      simp only [List.nil_append, List.cons.injEq] at heq
      exact ⟨rfl, heq.2⟩
    | cons c u₂' =>
      simp only [List.nil_append, List.cons_append, List.cons.injEq] at heq
      exfalso
      apply h₁
      rw [heq.2]
      exact List.mem_append_right _ (List.mem_cons_self _ _)
  | cons c u₁' ih =>
    intro u₂ d₁ d₂ h₁ h₂ heq
    cases u₂ with
    | nil =>
      simp only [List.nil_append, List.cons_append, List.cons.injEq] at heq
      exfalso
      apply h₂
      rw [← heq.2]
      exact List.mem_append_right _ (List.mem_cons_self _ _)
    | cons c₂ u₂' =>
      simp only [List.cons_append, List.cons.injEq] at heq
      obtain ⟨hu, hd⟩ := ih u₂' d₁ d₂ h₁ h₂ heq.2
      exact ⟨by rw [heq.1, hu], hd⟩

theorem suffixedName_injective {t₁ t₂ : String} {k₁ k₂ : Nat}
    (h : suffixedName t₁ k₁ = suffixedName t₂ k₂) : t₁ = t₂ ∧ k₁ = k₂ := by
  have hd : (suffixedName t₁ k₁).data = (suffixedName t₂ k₂).data := by rw [h]
  rw [data_suffixedName, data_suffixedName] at hd
  obtain ⟨hu, hdig⟩ := sep_inj _ _ _ _ (underscore_not_in_natToStr k₁)
    (underscore_not_in_natToStr k₂) hd
  exact ⟨string_eq_of_data hu, natToStr_injective (string_eq_of_data hdig)⟩

theorem suffixedName_ne_self (t : String) (k : Nat) : suffixedName t k ≠ t := by
  intro h
  have hd := congrArg String.data h
  rw [data_suffixedName] at hd
  have hlen := congrArg List.length hd
  simp only [List.length_append, List.length_cons] at hlen
  omega

theorem encodeDup_zero (t : String) : encodeDup t 0 = t := rfl

theorem encodeDup_pos (t : String) (k : Nat) (h : k ≠ 0) :
    encodeDup t k = suffixedName t k := by
  unfold encodeDup
  rw [if_neg (by simp [h])]

theorem mem_specSuffixes {x : String} :
    ∀ (rest pre : List String), x ∈ specSuffixes pre rest →
      ∃ t k, t ∈ rest ∧ pre.count t ≤ k ∧ x = encodeDup t k := by
  intro rest
  induction rest with
  | nil => intro pre hx; simp [specSuffixes] at hx
  | cons t rest ih =>
    intro pre hx
    simp only [specSuffixes] at hx
    rcases List.mem_cons.mp hx with h | h
    · exact ⟨t, pre.count t, List.mem_cons_self _ _, le_refl _, h⟩
    · obtain ⟨t', k, ht', hk, hx'⟩ := ih (pre ++ [t]) h
      refine ⟨t', k, List.mem_cons_of_mem _ ht', ?_, hx'⟩
      have := hk
      rw [List.count_append] at this
      omega

/-- Under the side condition that no already-suffixed form of a target
itself occurs among the targets, the suffixed output is duplicate-free. -/
theorem specSuffixes_nodup : ∀ (rest pre : List String),
    (∀ u ∈ pre ++ rest, ∀ k, 1 ≤ k → suffixedName u k ∉ pre ++ rest) →
    (specSuffixes pre rest).Nodup := by
  intro rest
  induction rest with
  | nil => intro pre _; simp [specSuffixes]
  | cons t rest ih =>
    intro pre H
    simp only [specSuffixes]
    refine List.nodup_cons.mpr ⟨?_, ?_⟩
    · intro hmem
      obtain ⟨t', k, ht', hkt', hx⟩ := mem_specSuffixes _ _ hmem
      by_cases hc : pre.count t = 0 <;> by_cases hk0 : k = 0
      · rw [hc, hk0, encodeDup_zero, encodeDup_zero] at hx
        rw [← hx, List.count_append] at hkt'
        have h1 : [t].count t = 1 := by simp
        omega
      · rw [hc, encodeDup_zero, encodeDup_pos _ _ hk0] at hx
        exact H t'
          (List.mem_append_right _ (List.mem_cons_of_mem _ ht'))
          k (Nat.one_le_iff_ne_zero.mpr hk0)
          (by rw [← hx]; exact List.mem_append_right _ (List.mem_cons_self _ _))
      · rw [encodeDup_pos _ _ hc, hk0, encodeDup_zero] at hx
        exact H t
          (List.mem_append_right _ (List.mem_cons_self _ _))
          (pre.count t) (Nat.one_le_iff_ne_zero.mpr hc)
          (by rw [hx]; exact List.mem_append_right _ (List.mem_cons_of_mem _ ht'))
      · rw [encodeDup_pos _ _ hc, encodeDup_pos _ _ hk0] at hx
        obtain ⟨ht, hkk⟩ := suffixedName_injective hx
        subst ht
        rw [List.count_append] at hkt'
        have h1 : [t].count t = 1 := by simp
        omega
    · apply ih (pre ++ [t])
      intro u hu k hk1 hmem
      refine H u ?_ k hk1 ?_
      · simp only [List.mem_append, List.mem_cons] at hu ⊢
        tauto
      · simp only [List.mem_append, List.mem_cons] at hmem ⊢
        tauto

/-- The `seen`-dict fold agrees with the count-in-prefix characterization:
the invariant is that `seen` records, for every target, the number of its
occurrences already passed. -/
theorem suffixDuplicatesAux_eq_spec :
    ∀ (rest : List String) (seen : List (String × Nat)) (pre : List String),
      (∀ t : String, ((seen.lookup t).getD 0) = pre.count t) →
      suffixDuplicatesAux seen rest = specSuffixes pre rest := by
  intro rest
  induction rest with
  | nil => intro seen pre _; rfl
  | cons t rest ih =>
    intro seen pre hinv
    simp only [suffixDuplicatesAux, specSuffixes]
    rw [hinv t]
    congr 1
    apply ih
    intro u
    by_cases hu : u = t
    · subst hu
      rw [lookup_cons_self, Option.getD_some, List.count_append]
      have h1 : [u].count u = 1 := by simp
      omega
    · rw [lookup_cons_ne _ _ _ _ hu, hinv u, List.count_append]
      have h0 : [t].count u = 0 := by simp [hu]
      omega

theorem suffixDuplicates_eq_spec (targets : List String) :
    suffixDuplicates targets = specSuffixes [] targets := by
  apply suffixDuplicatesAux_eq_spec
  intro t
  rfl

theorem specSuffixes_length : ∀ (rest pre : List String),
    (specSuffixes pre rest).length = rest.length := by
  intro rest
  induction rest with
  | nil => intro pre; rfl
  | cons t rest ih => intro pre; simp only [specSuffixes, List.length_cons, ih]

/-- C5 counterexample: with headers `scanner id`, `scanner-id`,
`scanner id 1` the first two both canonicalize to `scanner_id`, the
second is renamed `scanner_id_1`, and that collides with the third
header's own canonical name, so the output header list carries a
duplicate. -/
theorem c5_counterexample :
    normalizeHeaders ["scanner id", "scanner-id", "scanner id 1"] =
      ["scanner_id", "scanner_id_1", "scanner_id_1"] ∧
    ¬ (normalizeHeaders ["scanner id", "scanner-id", "scanner id 1"]).Nodup := by
  exact ⟨by decide, by decide⟩

/-- C5 (amended): the `seen` fold suffixes the k-th repetition of a
canonical target as `target_k` in encounter order and never drops a
column; the resulting header list is duplicate-free only under the side
condition that no suffixed form of a target itself occurs as a target. -/
theorem c5_duplicate_suffixing :
    (∀ targets : List String,
      suffixDuplicates targets = specSuffixes [] targets) ∧
    (∀ headers : List String,
      (normalizeHeaders headers).length = headers.length) ∧
    (∀ headers : List String,
      (∀ u ∈ headers.map canonicalColumnName, ∀ k, 1 ≤ k →
        suffixedName u k ∉ headers.map canonicalColumnName) →
      (normalizeHeaders headers).Nodup) := by
  refine ⟨suffixDuplicates_eq_spec, ?_, ?_⟩
  · intro headers
    unfold normalizeHeaders
    rw [suffixDuplicates_eq_spec, specSuffixes_length, List.length_map]
  · intro headers H
    unfold normalizeHeaders
    rw [suffixDuplicates_eq_spec]
    apply specSuffixes_nodup
    simpa using H

/-- Witness for C5 (amended): two headers both canonicalizing to
`scanner_id` come out unique, the second as `scanner_id_1`. -/
theorem c5_duplicate_suffixing_witness :
    (normalizeHeaders ["scanner id", "scanner-id"]).Nodup ∧
    normalizeHeaders ["scanner id", "scanner-id"] =
      ["scanner_id", "scanner_id_1"] := by
  constructor
  · apply c5_duplicate_suffixing.2.2
    have hmap : ["scanner id", "scanner-id"].map canonicalColumnName
        = ["scanner_id", "scanner_id"] := by decide
    rw [hmap]
    intro u hu k _ hmem
    simp only [List.mem_cons, List.not_mem_nil, or_false] at hu hmem
    rcases hu with hu | hu <;> subst hu <;>
      rcases hmem with hm | hm <;> exact suffixedName_ne_self _ _ hm
  · decide

/-- C7: for every raw header string, the canonical name is obtained by
trimming and lower-casing, replacing each run of characters outside
`[a-z0-9]` with a single underscore, collapsing repeated underscores,
trimming leading/trailing underscores, then looking the result up in the
alias table with the normalized name itself as fallback; in particular
`"Store ID"`, `"store_id"` and `"  STORE-ID  "` all map to `store_id`. -/
theorem c7_header_normalization :
    (∀ s : String, canonicalColumnName s = specCanonicalName s) ∧
    canonicalColumnName "Store ID" = "store_id" ∧
    canonicalColumnName "store_id" = "store_id" ∧
    canonicalColumnName "  STORE-ID  " = "store_id" := by
  refine ⟨fun s => rfl, by decide, by decide, by decide⟩

/-- C8: a missing or blank store-identifier cell stays missing; otherwise
the value is trimmed, compatibility-normalized, stripped of parentheses,
stripped of all whitespace and of leading zeros, an empty result becoming
missing; `"０１２(３)"` cleans to `"123"` and `"000"` cleans to missing. -/
theorem c8_store_id_cleaning :
    cleanStoreIdValue .missing = .missing ∧
    (∀ s : String, pyStrip s = "" → cleanStoreIdValue (.str s) = .missing) ∧
    (∀ s : String, pyStrip s ≠ "" →
      cleanStoreIdValue (.str s) =
        (if lstripZero (removeWhitespace (removeParens (nfkcNormalize (pyStrip s)))) = ""
         then .missing
         else .str (lstripZero (removeWhitespace (removeParens (nfkcNormalize (pyStrip s))))))) ∧
    cleanStoreIdValue (.str "０１２(３)") = .str "123" ∧
    cleanStoreIdValue (.str "000") = .missing := by
  refine ⟨rfl, ?_, ?_, by decide, by decide⟩
  · intro s h
    simp [cleanStoreIdValue, cleanStoreIdStr, stringifyVal, h]
  · intro s h
    have hb : (pyStrip s == "") = false := by simp [h]
    by_cases ht :
        lstripZero (removeWhitespace (removeParens (nfkcNormalize (pyStrip s)))) = ""
    · simp [cleanStoreIdValue, cleanStoreIdStr, stringifyVal, hb, ht]
    · have hb2 :
          (lstripZero (removeWhitespace (removeParens (nfkcNormalize (pyStrip s)))) == "")
            = false := by simp [ht]
      simp [cleanStoreIdValue, cleanStoreIdStr, stringifyVal, hb, hb2, ht]

/-- Witness for C8: the blank-value and present-value branches at concrete
inputs. -/
theorem c8_store_id_cleaning_witness :
    cleanStoreIdValue (.str " ") = .missing ∧
    cleanStoreIdValue (.str "０１２(３)") = .str "123" := by
  constructor
  · exact c8_store_id_cleaning.2.1 " " (by decide)
  · exact (c8_store_id_cleaning.2.2.1 "０１２(３)" (by decide)).trans (by decide)

/-- C6 counterexample: `"0.000000001"` parses to the rational `10⁻⁹`,
whose fractional part is non-zero, yet the int coercion accepts it (no
diagnostic) and stores `0`, because the fractional part lies within the
`np.isclose` absolute tolerance of `1e-8`. -/
theorem c6_counterexample :
    parseNumeric "0.000000001" = some (1 / 1000000000 : ℚ) ∧
    fracPart (1 / 1000000000 : ℚ) ≠ 0 ∧
    convertCell "shoe_sold" .int (.str "0.000000001") = (none, .int 0) := by
  refine ⟨parseNumeric_one_billionth, ?_, ?_⟩
  · rw [fracPart_one_billionth]
    norm_num
  · with_unfolding_all rfl

/-- C6 (amended): for an int column and a present (non-empty after
trimming) value, the diagnostic `"Invalid <column> (must be integer); "`
is appended iff the value is unparseable as a number or its fractional
part exceeds the `1e-8` absolute tolerance of `np.isclose`; on success the
half-to-even rounded integer is stored (`"2.0"` coerces to `2`, `"2.5"` is
invalid, and near-integers within the tolerance such as `"0.000000001"`
are accepted and rounded). -/
theorem c6_int_coercion :
    (∀ c s : String, pyStrip s ≠ "" →
      ((convertCell c .int (.str s)).1 =
          some ("Invalid " ++ c ++ " (must be integer); ") ↔
        (parseNumeric (pyStrip s) = none ∨
          ∃ q, parseNumeric (pyStrip s) = some q ∧ iscloseAtol < fracPart q))) ∧
    (∀ (c s : String) (q : ℚ), pyStrip s ≠ "" →
      parseNumeric (pyStrip s) = some q → fracPart q ≤ iscloseAtol →
      (convertCell c .int (.str s)).2 = .int (roundHalfEven q)) ∧
    convertCell "shoe_sold" .int (.str "2.0") = (none, .int 2) ∧
    (convertCell "shoe_sold" .int (.str "2.5")).1 =
      some "Invalid shoe_sold (must be integer); " := by
  refine ⟨?_, ?_, ?_, ?_⟩
  case refine_3 => with_unfolding_all rfl
  case refine_4 => with_unfolding_all rfl
  · intro c s h
    have := convertCell_int_present c (.str s) (by intro hc; cases hc) h
    rw [show stringifyVal (.str s) = s from rfl] at this
    rw [this]
    cases hp : parseNumeric (pyStrip s) with
    | none => simp
    | some q =>
      by_cases hf : fracIsClose q = true
      · have hq : fracPart q ≤ iscloseAtol := by
          simpa [fracIsClose] using hf
        simp only [hf, if_true]
        constructor
        · intro hx
          exact absurd hx (by simp)
        · rintro (hx | ⟨q', hq', hlt⟩)
          · exact absurd hx (by simp)
          · rw [Option.some_inj] at hq'
            subst hq'
            exact absurd hq (not_le.mpr hlt)
      · have hq : iscloseAtol < fracPart q := by
          have := hf
          simp only [fracIsClose, decide_eq_true_eq] at this
          exact lt_of_not_le this
        simp only [hf, if_false]
        constructor
        · intro _
          exact Or.inr ⟨q, rfl, hq⟩
        · intro _
          rfl
  · intro c s q h hp hq
    have := convertCell_int_present c (.str s) (by intro hc; cases hc) h
    rw [show stringifyVal (.str s) = s from rfl] at this
    rw [this, hp]
    have hf : fracIsClose q = true := by simp [fracIsClose, hq]
    simp [hf]

/-- Witness for C6 (amended): the iff and the success branch applied at
`"2.5"` and `"2.0"`. -/
theorem c6_int_coercion_witness :
    ((convertCell "x" .int (.str "2.5")).1 =
        some ("Invalid " ++ "x" ++ " (must be integer); ") ↔
      (parseNumeric (pyStrip "2.5") = none ∨
        ∃ q, parseNumeric (pyStrip "2.5") = some q ∧ iscloseAtol < fracPart q)) ∧
    (convertCell "x" .int (.str "2.0")).2 = .int (roundHalfEven (2 : ℚ)) := by
  constructor
  · exact c6_int_coercion.1 "x" "2.5" (by decide)
  · refine c6_int_coercion.2.1 "x" "2.0" (2 : ℚ) (by decide) ?_ ?_
    · rw [show pyStrip "2.0" = "2.0" by decide]
      exact parseNumeric_two_point_zero
    · rw [show ((2 : ℚ)) = ((2 : ℤ) : ℚ) by norm_num, fracPart_intCast]
      norm_num [iscloseAtol]

/-! ## Idempotence infrastructure: character classes and stripping -/

theorem isDigitChar_toNat (c : Char) (h : isDigitChar c = true) :
    48 ≤ c.toNat ∧ c.toNat ≤ 57 := by
  simp only [isDigitChar, Bool.and_eq_true, decide_eq_true_eq, Char.le_def] at h
  exact h

theorem digit_not_ws (c : Char) (h : isDigitChar c = true) : isPyWs c = false := by
  obtain ⟨h1, h2⟩ := isDigitChar_toNat c h
  simp only [isPyWs, Bool.or_eq_false_iff, Bool.and_eq_false_iff,
    decide_eq_false_iff_not, Nat.not_le, beq_eq_false_iff_ne, ne_eq]
  omega

theorem digit_ne_newline (c : Char) (h : isDigitChar c = true) : c ≠ '\n' := by
  obtain ⟨h1, _⟩ := isDigitChar_toNat c h
  intro he
  subst he
  simp at h1

theorem digit_ne_plus (c : Char) (h : isDigitChar c = true) : c ≠ '+' := by
  obtain ⟨h1, _⟩ := isDigitChar_toNat c h
  intro he
  subst he
  simp at h1

theorem digit_ne_minus (c : Char) (h : isDigitChar c = true) : c ≠ '-' := by
  obtain ⟨h1, _⟩ := isDigitChar_toNat c h
  intro he
  subst he
  simp at h1

theorem head?_dropWhile_false (p : Char → Bool) :
    ∀ (l : List Char) (c : Char), (l.dropWhile p).head? = some c → p c = false := by
  intro l
  induction l with
  | nil => intro c hc; simp at hc
  | cons a t ih =>
    intro c hc
    rw [List.dropWhile_cons] at hc
    by_cases ha : p a = true
    · rw [if_pos ha] at hc
      exact ih c hc
    · rw [if_neg ha] at hc
      simp only [List.head?_cons, Option.some.injEq] at hc
      subst hc
      exact Bool.eq_false_iff.mpr ha

theorem head?_append_ne_nil {α : Type} (a b : List α) (ha : a ≠ []) :
    (a ++ b).head? = a.head? := by
  cases a with
  | nil => exact absurd rfl ha
  | cons x t => rfl

theorem getLast?_append_ne_nil {α : Type} (a b : List α) (hb : b ≠ []) :
    (a ++ b).getLast? = b.getLast? := by
  rw [← List.head?_reverse, List.reverse_append, head?_append_ne_nil,
    List.head?_reverse]
  rwa [ne_eq, List.reverse_eq_nil_iff]

theorem mem_of_head? {α : Type} (l : List α) (c : α) (h : l.head? = some c) :
    c ∈ l := by
  cases l with
  | nil => cases h
  | cons x t =>
    simp only [List.head?_cons, Option.some.injEq] at h
    subst h
    exact List.mem_cons_self _ _

theorem head?_of_rstripL (p : Char → Bool) (l : List Char) (c : Char)
    (h : (rstripL p l).head? = some c) : l.head? = some c := by
  have hsplit : l = rstripL p l ++ (l.reverse.takeWhile p).reverse := by
    unfold rstripL
    conv_lhs => rw [← l.reverse_reverse,
      ← List.takeWhile_append_dropWhile p l.reverse]
    rw [List.reverse_append]
  cases hr : rstripL p l with
  | nil => rw [hr] at h; cases h
  | cons x t =>
    rw [hr] at h
    rw [hsplit, hr]
    simpa using h

theorem getLast?_of_lstripL (p : Char → Bool) (l : List Char) (c : Char)
    (h : (lstripL p l).getLast? = some c) : l.getLast? = some c := by
  have hsplit : l = l.takeWhile p ++ lstripL p l := by
    unfold lstripL
    rw [List.takeWhile_append_dropWhile]
  have hne : lstripL p l ≠ [] := by
    intro h0
    rw [h0] at h
    cases h
  rw [hsplit, getLast?_append_ne_nil _ _ hne]
  exact h

theorem getLast?_rstripL_false (p : Char → Bool) (l : List Char) (c : Char)
    (h : (rstripL p l).getLast? = some c) : p c = false := by
  unfold rstripL at h
  rw [List.getLast?_reverse] at h
  exact head?_dropWhile_false p _ c h

theorem stripL_head_false (p : Char → Bool) (l : List Char) (c : Char)
    (h : (stripL p l).head? = some c) : p c = false := by
  unfold stripL at h
  exact head?_dropWhile_false p l c (head?_of_rstripL p _ c h)

theorem stripL_last_false (p : Char → Bool) (l : List Char) (c : Char)
    (h : (stripL p l).getLast? = some c) : p c = false := by
  unfold stripL at h
  exact getLast?_rstripL_false p _ c h

theorem stripL_idem (p : Char → Bool) (l : List Char) :
    stripL p (stripL p l) = stripL p l :=
  stripL_eq_self_of_ends _ (fun c hc => stripL_head_false p l c hc)
    (fun c hc => stripL_last_false p l c hc)

theorem pyStrip_idem (s : String) : pyStrip (pyStrip s) = pyStrip s := by
  show (⟨stripL isPyWs (stripL isPyWs s.data)⟩ : String) = pyStrip s
  rw [stripL_idem]
  rfl

theorem pyStrip_of_no_ws (s : String) (h : ∀ c ∈ s.data, isPyWs c = false) :
    pyStrip s = s := by
  apply string_eq_of_data
  show stripL isPyWs s.data = s.data
  exact stripL_eq_self_of_all _ h

theorem pyStrip_of_ends (s : String)
    (hh : ∀ c, s.data.head? = some c → isPyWs c = false)
    (hl : ∀ c, s.data.getLast? = some c → isPyWs c = false) :
    pyStrip s = s := by
  apply string_eq_of_data
  show stripL isPyWs s.data = s.data
  exact stripL_eq_self_of_ends _ hh hl

theorem dropFinalNewline_spec (cs : List Char) :
    cs = dropFinalNewline cs ∨ cs = dropFinalNewline cs ++ ['\n'] := by
  unfold dropFinalNewline
  cases hr : cs.reverse with
  | nil => left; rfl
  | cons c rr =>
    by_cases hc : c = '\n'
    · subst hc
      right
      show cs = rr.reverse ++ ['\n']
      conv_lhs => rw [← cs.reverse_reverse, hr]
      rw [List.reverse_cons]
    · left
      split
      · rename_i r heq
        exfalso
        injection heq with h1 _
        exact hc h1
      · rfl

theorem dropFinalNewline_of_no_newline (cs : List Char)
    (h : ∀ c ∈ cs, c ≠ '\n') : dropFinalNewline cs = cs := by
  rcases dropFinalNewline_spec cs with he | he
  · exact he.symm
  · exfalso
    have hm : '\n' ∈ cs := by
      rw [he]
      exact List.mem_append_right _ (List.mem_cons_self _ _)
    exact h _ hm rfl

theorem stripL_of_digits_newline (t : List Char)
    (hall : ∀ c ∈ t, isDigitChar c = true) :
    stripL isPyWs (t ++ ['\n']) = t := by
  cases t with
  | nil => decide
  | cons a r =>
    unfold stripL lstripL
    rw [dropWhile_eq_self_of_head]
    · rw [show (a :: r) ++ ['\n'] = (a :: r) ++ ['\n'] from rfl]
      rw [rstripL_append_singleton _ _ (by decide)]
      exact rstripL_eq_self_of_all _
        (fun c hc => digit_not_ws c (hall c hc))
    · intro c hc
      simp only [List.cons_append, List.head?_cons, Option.some.injEq] at hc
      rw [← hc]
      exact digit_not_ws a (hall a (List.mem_cons_self _ _))

theorem strip_data_eq_of_digits (s : String)
    (hall : ∀ c ∈ dropFinalNewline s.data, isDigitChar c = true) :
    (pyStrip s).data = dropFinalNewline s.data := by
  show stripL isPyWs s.data = dropFinalNewline s.data
  rcases dropFinalNewline_spec s.data with he | he
  · conv_lhs => rw [he]
    exact stripL_eq_self_of_all _ (fun c hc => digit_not_ws c (hall c hc))
  · conv_lhs => rw [he]
    exact stripL_of_digits_newline _ hall

/-- A successful digit-pattern match survives Python `str.strip()`: the
pattern only admits digits with at most one final newline, both of which
stripping preserves or removes harmlessly. -/
theorem pymatch_pyStrip (pat : Pattern) (s : String)
    (h : pymatch pat s = true) : pymatch pat (pyStrip s) = true := by
  have hall : ∀ c ∈ dropFinalNewline s.data, isDigitChar c = true := by
    cases pat with
    | digitsPlus =>
      simp only [pymatch, Bool.and_eq_true, List.all_eq_true] at h
      exact h.2
    | digitsExact n =>
      simp only [pymatch, Bool.and_eq_true, List.all_eq_true] at h
      exact h.2
  have hdata := strip_data_eq_of_digits s hall
  have hdfn : dropFinalNewline (dropFinalNewline s.data) = dropFinalNewline s.data :=
    dropFinalNewline_of_no_newline _ (fun c hc => digit_ne_newline c (hall c hc))
  cases pat with
  | digitsPlus =>
    simp only [pymatch] at h ⊢
    rw [hdata, hdfn]
    exact h
  | digitsExact n =>
    simp only [pymatch] at h ⊢
    rw [hdata, hdfn]
    exact h

/-! ## Rendered values: digit content, non-emptiness, strip stability -/

theorem pad_all_digit (w n : Nat) :
    ∀ c ∈ padZeros w (natDigits n), isDigitChar c = true := by
  intro c hc
  unfold padZeros at hc
  rcases List.mem_append.mp hc with h | h
  · rw [List.eq_of_mem_replicate h]
    decide
  · exact natDigits_all_digit n c h

theorem pad_ne_nil (w n : Nat) : padZeros w (natDigits n) ≠ [] := by
  unfold padZeros
  intro h0
  exact natDigits_ne_nil _ (List.append_eq_nil.mp h0).2

theorem intToStr_no_ws (n : Int) : ∀ c ∈ (intToStr n).data, isPyWs c = false := by
  intro c hc
  unfold intToStr at hc
  split at hc
  · rw [String.data_append] at hc
    rcases List.mem_append.mp hc with h | h
    · simp only [List.mem_singleton] at h
      subst h
      decide
    · exact digit_not_ws c (natDigits_all_digit _ c h)
  · exact digit_not_ws c (natDigits_all_digit _ c hc)

theorem intToStr_ne_empty (n : Int) : intToStr n ≠ "" := by
  intro h
  have hd := congrArg String.data h
  unfold intToStr at hd
  split at hd
  · rw [String.data_append] at hd
    simp at hd
  · exact natDigits_ne_nil _ hd

theorem pyStrip_intToStr (n : Int) : pyStrip (intToStr n) = intToStr n :=
  pyStrip_of_no_ws _ (intToStr_no_ws n)

theorem formatDate_no_ws (d : DateV) :
    ∀ c ∈ (formatDate d).data, isPyWs c = false := by
  intro c hc
  have hc' : c ∈ pad4 d.year ++ '-' :: pad2 d.month ++ '-' :: pad2 d.day := hc
  rcases List.mem_append.mp hc' with h | h
  · rcases List.mem_append.mp h with h1 | h1
    · exact digit_not_ws c (pad_all_digit 4 _ c h1)
    · rcases List.mem_cons.mp h1 with h2 | h2
      · subst h2; decide
      · exact digit_not_ws c (pad_all_digit 2 _ c h2)
  · rcases List.mem_cons.mp h with h1 | h1
    · subst h1; decide
    · exact digit_not_ws c (pad_all_digit 2 _ c h1)

theorem formatDate_ne_empty (d : DateV) : formatDate d ≠ "" := by
  intro h
  have hd := congrArg String.data h
  have hd' : pad4 d.year ++ '-' :: pad2 d.month ++ '-' :: pad2 d.day = [] := hd
  rcases List.append_eq_nil.mp hd' with ⟨h1, h2⟩
  exact List.cons_ne_nil _ _ h2

theorem pyStrip_formatDate (d : DateV) : pyStrip (formatDate d) = formatDate d :=
  pyStrip_of_no_ws _ (formatDate_no_ws d)

theorem formatTs_data (t : TsV) :
    (formatTs t).data =
      (pad4 t.date.year ++ '-' :: pad2 t.date.month ++ '-' :: pad2 t.date.day) ++
        ' ' :: ((pad2 t.hour ++ ':' :: pad2 t.minute ++ ':' :: pad2 t.second) ++
          ['+', '0', '0', ':', '0', '0']) := by
  show ((formatDate t.date ++ " " ++
      ⟨pad2 t.hour ++ ':' :: pad2 t.minute ++ ':' :: pad2 t.second⟩) ++
      "+00:00").data = _
  rw [String.data_append, String.data_append, String.data_append]
  show (pad4 t.date.year ++ '-' :: pad2 t.date.month ++ '-' :: pad2 t.date.day) ++
      [' '] ++ (pad2 t.hour ++ ':' :: pad2 t.minute ++ ':' :: pad2 t.second) ++
      ['+', '0', '0', ':', '0', '0'] = _
  simp [List.append_assoc]

theorem formatTs_ne_empty (t : TsV) : formatTs t ≠ "" := by
  intro h
  have hd := congrArg String.data h
  rw [formatTs_data] at hd
  rcases List.append_eq_nil.mp hd with ⟨h1, _⟩
  rcases List.append_eq_nil.mp h1 with ⟨_, h2⟩
  exact List.cons_ne_nil _ _ h2

theorem pyStrip_formatTs (t : TsV) : pyStrip (formatTs t) = formatTs t := by
  apply pyStrip_of_ends
  · intro c hc
    rw [formatTs_data] at hc
    rw [head?_append_ne_nil] at hc
    · rw [head?_append_ne_nil] at hc
      · rw [head?_append_ne_nil _ _
            (show pad4 t.date.year ≠ [] from pad_ne_nil 4 _)] at hc
        exact digit_not_ws c (pad_all_digit 4 _ c (mem_of_head? _ _ hc))
      · intro h0
        exact pad_ne_nil 4 _ (List.append_eq_nil.mp h0).1
    · intro h0
      rcases List.append_eq_nil.mp h0 with ⟨h1, _⟩
      exact pad_ne_nil 4 _ (List.append_eq_nil.mp h1).1
  · intro c hc
    rw [formatTs_data] at hc
    rw [getLast?_append_ne_nil _ _ (List.cons_ne_nil _ _)] at hc
    rw [show (' ' :: ((pad2 t.hour ++ ':' :: pad2 t.minute ++ ':' :: pad2 t.second) ++
        ['+', '0', '0', ':', '0', '0'])) =
      [' '] ++ ((pad2 t.hour ++ ':' :: pad2 t.minute ++ ':' :: pad2 t.second) ++
        ['+', '0', '0', ':', '0', '0']) from rfl] at hc
    rw [getLast?_append_ne_nil] at hc
    · rw [getLast?_append_ne_nil _ _ (by decide)] at hc
      have : (['+', '0', '0', ':', '0', '0'] : List Char).getLast? = some '0' := rfl
      rw [this] at hc
      injection hc with hc
      rw [← hc]
      decide
    · intro h0
      rcases List.append_eq_nil.mp h0 with ⟨_, h2⟩
      exact (by decide : (['+', '0', '0', ':', '0', '0'] : List Char) ≠ []) h2

theorem nullMask_int (n : Int) : nullMask (.int n) = false := by
  show (pyStrip (intToStr n) == "") = false
  rw [pyStrip_intToStr]
  simp [intToStr_ne_empty n]

theorem nullMask_date (d : DateV) : nullMask (.date d) = false := by
  show (pyStrip (formatDate d) == "") = false
  rw [pyStrip_formatDate]
  simp [formatDate_ne_empty d]

theorem nullMask_ts (t : TsV) : nullMask (.ts t) = false := by
  show (pyStrip (formatTs t) == "") = false
  rw [pyStrip_formatTs]
  simp [formatTs_ne_empty t]

/-! ## Numeric facts: rendered integers re-parse to themselves -/

theorem roundHalfEven_eq (q : ℚ) :
    roundHalfEven q =
      if q - (⌊q⌋ : ℚ) < 1 / 2 then ⌊q⌋
      else if 1 / 2 < q - (⌊q⌋ : ℚ) then ⌊q⌋ + 1
      else if ⌊q⌋ % 2 == 0 then ⌊q⌋ else ⌊q⌋ + 1 := rfl

theorem float64Max_eq :
    float64Max = ((((2 ^ 53 - 1) * 2 ^ 971 : Nat) : Int) : ℚ) := by
  unfold float64Max
  rw [Rat.mkRat_eq_div]
  norm_num

theorem float64Max_nonneg : 0 ≤ float64Max := by
  rw [float64Max_eq]
  have h : (0 : Int) ≤ (((2 ^ 53 - 1) * 2 ^ 971 : Nat) : Int) := Int.natCast_nonneg _
  exact_mod_cast h

theorem capFloatRange_some (x q : ℚ) (h : capFloatRange x = some q) :
    q = x ∧ -float64Max ≤ q ∧ q ≤ float64Max := by
  unfold capFloatRange at h
  split_ifs at h with hc
  push_neg at hc
  cases h
  exact ⟨rfl, hc.1, hc.2⟩

theorem capFloatRange_of_bounds (x : ℚ) (h1 : -float64Max ≤ x)
    (h2 : x ≤ float64Max) : capFloatRange x = some x := by
  unfold capFloatRange
  rw [if_neg]
  rintro (h | h) <;> linarith

theorem parseSign_of_digit (c : Char) (rest : List Char)
    (h : isDigitChar c = true) :
    parseSign (c :: rest) = (1, c :: rest) := by
  unfold parseSign
  split
  · rename_i r heq
    injection heq with h1 _
    exact absurd h1 (digit_ne_plus c h)
  · rename_i r heq
    injection heq with h1 _
    exact absurd h1 (digit_ne_minus c h)
  · rfl

theorem takeWhile_eq_self_of_all (p : Char → Bool) (l : List Char)
    (h : ∀ c ∈ l, p c = true) : l.takeWhile p = l := by
  induction l with
  | nil => rfl
  | cons a t ih =>
    rw [List.takeWhile_cons, if_pos (h a (List.mem_cons_self _ _)),
      ih (fun c hc => h c (List.mem_cons_of_mem _ hc))]

theorem spanDigits_all (l : List Char) (h : ∀ c ∈ l, isDigitChar c = true) :
    spanDigits l = (l, []) := by
  unfold spanDigits
  rw [takeWhile_eq_self_of_all _ _ h, List.dropWhile_eq_nil_iff.mpr h]

theorem spanDigits_append_stop (a rest : List Char)
    (ha : ∀ c ∈ a, isDigitChar c = true)
    (hr : ∀ c, rest.head? = some c → isDigitChar c = false) :
    spanDigits (a ++ rest) = (a, rest) := by
  unfold spanDigits
  rw [takeWhile_append_of_all _ _ ha, dropWhile_append_of_all _ _ ha,
    takeWhile_eq_nil_of_head _ hr, dropWhile_eq_self_of_head _ hr,
    List.append_nil]

theorem parseMantissa_digits (l : List Char) (hne : l ≠ [])
    (hall : ∀ c ∈ l, isDigitChar c = true) :
    parseMantissa l = some ((digitsToNat l : ℚ), []) := by
  unfold parseMantissa
  rw [spanDigits_all l hall]
  dsimp only
  have hie : l.isEmpty = false := by
    cases l with
    | nil => exact absurd rfl hne
    | cons a t => rfl
  rw [hie]
  rfl

theorem parseNumeric_digits (l : List Char) (hne : l ≠ [])
    (hall : ∀ c ∈ l, isDigitChar c = true)
    (hub : ((digitsToNat l : ℚ)) ≤ float64Max) :
    parseNumeric ⟨l⟩ = some (digitsToNat l : ℚ) := by
  unfold parseNumeric
  have hps : parseSign (String.mk l).data = (1, l) := by
    show parseSign l = (1, l)
    cases l with
    | nil => exact absurd rfl hne
    | cons a t => exact parseSign_of_digit a t (hall a (List.mem_cons_self _ _))
  rw [hps]
  dsimp only
  rw [parseMantissa_digits l hne hall]
  dsimp only
  have h0 : (0 : ℚ) ≤ (digitsToNat l : ℚ) := Nat.cast_nonneg _
  have heq : ((1 : Int) : ℚ) * (digitsToNat l : ℚ) = (digitsToNat l : ℚ) := by
    push_cast
    ring
  rw [heq]
  exact capFloatRange_of_bounds _
    (le_trans (neg_nonpos.mpr float64Max_nonneg) h0) hub

theorem parseNumeric_neg_digits (l : List Char) (hne : l ≠ [])
    (hall : ∀ c ∈ l, isDigitChar c = true)
    (hub : ((digitsToNat l : ℚ)) ≤ float64Max) :
    parseNumeric ⟨'-' :: l⟩ = some (-(digitsToNat l : ℚ)) := by
  unfold parseNumeric
  have hps : parseSign (String.mk ('-' :: l)).data = (-1, l) := rfl
  rw [hps]
  dsimp only
  rw [parseMantissa_digits l hne hall]
  dsimp only
  have h0 : (0 : ℚ) ≤ (digitsToNat l : ℚ) := Nat.cast_nonneg _
  have heq : ((-1 : Int) : ℚ) * (digitsToNat l : ℚ) = -(digitsToNat l : ℚ) := by
    push_cast
    ring
  rw [heq]
  exact capFloatRange_of_bounds _ (neg_le_neg hub)
    (le_trans (neg_nonpos.mpr h0) float64Max_nonneg)

theorem parseNumeric_intToStr (n : Int)
    (h1 : -float64Max ≤ (n : ℚ)) (h2 : (n : ℚ) ≤ float64Max) :
    parseNumeric (intToStr n) = some (n : ℚ) := by
  by_cases hn : n < 0
  · have habs : ((n.natAbs : ℚ)) = -(n : ℚ) := by
      rw [Int.cast_natAbs, abs_of_neg hn]
      push_cast
      ring
    have hred : intToStr n = ⟨'-' :: natDigits n.natAbs⟩ := by
      unfold intToStr
      rw [if_pos hn]
      apply string_eq_of_data
      rw [String.data_append]
      rfl
    have hub : ((digitsToNat (natDigits n.natAbs) : ℚ)) ≤ float64Max := by
      rw [digitsToNat_natDigits, habs]
      linarith
    rw [hred, parseNumeric_neg_digits _ (natDigits_ne_nil _)
      (fun c hc => natDigits_all_digit _ c hc) hub]
    rw [digitsToNat_natDigits, habs, neg_neg]
  · have h0 : (0 : ℚ) ≤ (n : ℚ) := by exact_mod_cast not_lt.mp hn
    have habs : ((n.natAbs : ℚ)) = (n : ℚ) := by
      rw [Int.cast_natAbs, abs_of_nonneg (not_lt.mp hn)]
    have hred : intToStr n = ⟨natDigits n.natAbs⟩ := by
      unfold intToStr
      rw [if_neg hn]
      rfl
    have hub : ((digitsToNat (natDigits n.natAbs) : ℚ)) ≤ float64Max := by
      rw [digitsToNat_natDigits, habs]
      exact h2
    rw [hred, parseNumeric_digits _ (natDigits_ne_nil _)
      (fun c hc => natDigits_all_digit _ c hc) hub]
    rw [digitsToNat_natDigits, habs]

theorem roundHalfEven_le_int (q : ℚ) (M : Int) (h : q ≤ (M : ℚ)) :
    roundHalfEven q ≤ M := by
  rw [roundHalfEven_eq]
  have hf : ⌊q⌋ ≤ M := by
    have := Int.floor_le_floor h
    rwa [Int.floor_intCast] at this
  have hfl : (⌊q⌋ : ℚ) ≤ q := Int.floor_le q
  split_ifs with hc1 hc2 hc3
  · exact hf
  · have hlt : (⌊q⌋ : ℚ) < (M : ℚ) := by linarith
    have : ⌊q⌋ < M := by exact_mod_cast hlt
    omega
  · exact hf
  · have hr : (0 : ℚ) < q - (⌊q⌋ : ℚ) := by
      push_neg at hc1
      linarith
    have hlt : (⌊q⌋ : ℚ) < (M : ℚ) := by linarith
    have : ⌊q⌋ < M := by exact_mod_cast hlt
    omega

theorem roundHalfEven_ge_int (q : ℚ) (M : Int) (h : (M : ℚ) ≤ q) :
    M ≤ roundHalfEven q := by
  rw [roundHalfEven_eq]
  have hf : M ≤ ⌊q⌋ := Int.le_floor.mpr h
  split_ifs <;> omega

theorem fracIsClose_intCast (n : Int) : fracIsClose ((n : ℚ)) = true := by
  unfold fracIsClose
  rw [fracPart_intCast]
  have h : (0 : ℚ) ≤ iscloseAtol := by norm_num [iscloseAtol]
  simp [h]

theorem parseNumeric_bounds (s : String) (q : ℚ) (h : parseNumeric s = some q) :
    -float64Max ≤ q ∧ q ≤ float64Max := by
  unfold parseNumeric at h
  rcases hps : parseSign s.data with ⟨sgn, cs1⟩
  rw [hps] at h
  dsimp only at h
  cases hm : parseMantissa cs1 with
  | none => rw [hm] at h; cases h
  | some pr =>
    obtain ⟨m, rest⟩ := pr
    rw [hm] at h
    dsimp only at h
    cases rest with
    | nil =>
      dsimp only at h
      obtain ⟨_, hb1, hb2⟩ := capFloatRange_some _ _ h
      exact ⟨hb1, hb2⟩
    | cons c r1 =>
      dsimp only at h
      by_cases hce : (c == 'e' || c == 'E') = true
      · rw [if_pos hce] at h
        rcases hps2 : parseSign r1 with ⟨esgn, r2⟩
        rw [hps2] at h
        dsimp only at h
        rcases hsd : spanDigits r2 with ⟨ds, r3⟩
        rw [hsd] at h
        dsimp only at h
        by_cases hemp : (ds.isEmpty || !r3.isEmpty) = true
        · rw [if_pos hemp] at h
          cases h
        · rw [if_neg hemp] at h
          by_cases he1 : 400 < esgn * (digitsToNat ds : Int)
          · rw [if_pos he1] at h
            by_cases hm0 : (m == 0) = true
            · rw [if_pos hm0] at h
              injection h with h
              subst h
              exact ⟨by linarith [float64Max_nonneg], float64Max_nonneg⟩
            · rw [if_neg hm0] at h
              cases h
          · rw [if_neg he1] at h
            by_cases he2 : esgn * (digitsToNat ds : Int) < -400
            · rw [if_pos he2] at h
              injection h with h
              subst h
              exact ⟨by linarith [float64Max_nonneg], float64Max_nonneg⟩
            · rw [if_neg he2] at h
              obtain ⟨_, hb1, hb2⟩ := capFloatRange_some _ _ h
              exact ⟨hb1, hb2⟩
      · rw [if_neg hce] at h
        cases h

/-! ## Date and timestamp roundtrips -/

theorem padZeros_length (w : Nat) (cs : List Char) (h : cs.length ≤ w) :
    (padZeros w cs).length = w := by
  unfold padZeros
  rw [List.length_append, List.length_replicate]
  omega

theorem pad4_toNat (n : Nat) : digitsToNat (pad4 n) = n := by
  unfold pad4 padZeros
  rw [digitsToNat_replicate_zero, digitsToNat_natDigits]

theorem pad2_toNat (n : Nat) : digitsToNat (pad2 n) = n := by
  unfold pad2 padZeros
  rw [digitsToNat_replicate_zero, digitsToNat_natDigits]

theorem pad4_length (y : Nat) (h : y ≤ 9999) : (pad4 y).length = 4 := by
  unfold pad4
  refine padZeros_length 4 _ (natDigits_length_le 4 y (by norm_num) ?_)
  norm_num
  omega

theorem pad2_length (n : Nat) (h : n ≤ 99) : (pad2 n).length = 2 := by
  unfold pad2
  refine padZeros_length 2 _ (natDigits_length_le 2 n (by norm_num) ?_)
  norm_num
  omega

theorem pad4_all_digit (n : Nat) : ∀ c ∈ pad4 n, isDigitChar c = true :=
  pad_all_digit 4 n

theorem pad2_all_digit (n : Nat) : ∀ c ∈ pad2 n, isDigitChar c = true :=
  pad_all_digit 2 n

theorem daysInMonth_le (y m : Nat) : daysInMonth y m ≤ 31 := by
  unfold daysInMonth
  split_ifs <;> omega

theorem daysInMonth_pos (y m : Nat) : 1 ≤ daysInMonth y m := by
  unfold daysInMonth
  split_ifs <;> omega

theorem validCalendarDate_bounds (d : DateV) (h : validCalendarDate d = true) :
    1 ≤ d.year ∧ 1 ≤ d.month ∧ d.month ≤ 12 ∧ 1 ≤ d.day ∧
      d.day ≤ daysInMonth d.year d.month := by
  unfold validCalendarDate at h
  simp only [Bool.and_eq_true, decide_eq_true_eq] at h
  tauto

theorem dateLE_max_year (d : DateV) (h : dateLE d pandasMaxDate = true) :
    d.year ≤ 2262 := by
  unfold dateLE pandasMaxDate at h
  simp only [Bool.or_eq_true, Bool.and_eq_true, decide_eq_true_eq,
    beq_iff_eq] at h
  omega

theorem dateLE_min_year (d : DateV) (h : dateLE pandasMinDate d = true) :
    1677 ≤ d.year := by
  unfold dateLE pandasMinDate at h
  simp only [Bool.or_eq_true, Bool.and_eq_true, decide_eq_true_eq,
    beq_iff_eq] at h
  omega

theorem parseYMD_format (y mo dd : Nat) (rest : List Char)
    (hy : y ≤ 9999) (hmo : mo ≤ 99) (hdd : dd ≤ 99)
    (hr : ∀ c, rest.head? = some c → isDigitChar c = false) :
    parseYMD ((pad4 y ++ '-' :: pad2 mo ++ '-' :: pad2 dd) ++ rest) =
      some (⟨y, mo, dd⟩, rest) := by
  have hflat : ((pad4 y ++ '-' :: pad2 mo ++ '-' :: pad2 dd) ++ rest) =
      pad4 y ++ ('-' :: (pad2 mo ++ ('-' :: (pad2 dd ++ rest)))) := by
    simp [List.append_assoc]
  unfold parseYMD
  rw [hflat]
  rw [spanDigits_append_stop _ _ (pad4_all_digit y)
    (by intro c hc; simp only [List.head?_cons, Option.some.injEq] at hc;
        rw [← hc]; decide)]
  dsimp only
  rw [if_pos (by rw [pad4_length y hy]; rfl)]
  split
  · rename_i r2 heq
    injection heq with _ h2
    subst h2
    rw [spanDigits_append_stop _ _ (pad2_all_digit mo)
      (by intro c hc; simp only [List.head?_cons, Option.some.injEq] at hc;
          rw [← hc]; decide)]
    dsimp only
    rw [if_pos (by rw [pad2_length mo hmo]; rfl)]
    split
    · rename_i r4 heq2
      injection heq2 with _ h4
      subst h4
      rw [spanDigits_append_stop _ _ (pad2_all_digit dd) hr]
      dsimp only
      rw [if_pos (by rw [pad2_length dd hdd]; rfl)]
      rw [pad4_toNat, pad2_toNat, pad2_toNat]
    · rename_i hfun
      exact (hfun _ rfl).elim
  · rename_i hfun
    exact (hfun _ rfl).elim

theorem parseDate_format (d : DateV)
    (h1 : validCalendarDate d = true)
    (h2 : dateLE pandasMinDate d = true)
    (h3 : dateLE d pandasMaxDate = true) :
    parseDate (formatDate d) = some d := by
  obtain ⟨hb1, hb2, hb3, hb4, hb5⟩ := validCalendarDate_bounds d h1
  have hy : d.year ≤ 9999 := le_trans (dateLE_max_year d h3) (by norm_num)
  have hmo : d.month ≤ 99 := by omega
  have hdd : d.day ≤ 99 :=
    le_trans hb5 (le_trans (daysInMonth_le _ _) (by norm_num))
  unfold parseDate
  have hdata : (formatDate d).data =
      (pad4 d.year ++ '-' :: pad2 d.month ++ '-' :: pad2 d.day) ++ [] := by
    rw [List.append_nil]
    rfl
  rw [hdata, parseYMD_format d.year d.month d.day [] hy hmo hdd
    (by intro c hc; cases hc)]
  dsimp only
  have heta : (⟨d.year, d.month, d.day⟩ : DateV) = d := rfl
  rw [heta, if_pos (by simp [h1, h2, h3])]

theorem parseDate_some (s : String) (d : DateV) (h : parseDate s = some d) :
    validCalendarDate d = true ∧ dateLE pandasMinDate d = true ∧
      dateLE d pandasMaxDate = true := by
  unfold parseDate at h
  split at h
  · rename_i d' heq
    split_ifs at h with hc
    cases h
    simp only [Bool.and_eq_true] at hc
    exact ⟨hc.1.1, hc.1.2, hc.2⟩
  · cases h

theorem nextDay_valid (d : DateV) (h : validCalendarDate d = true) :
    validCalendarDate (nextDay d) = true := by
  obtain ⟨hb1, hb2, hb3, hb4, hb5⟩ := validCalendarDate_bounds d h
  unfold nextDay
  split_ifs with h1 h2
  · unfold validCalendarDate
    simp only [Bool.and_eq_true, decide_eq_true_eq]
    exact ⟨⟨⟨⟨hb1, hb2⟩, hb3⟩, by omega⟩, by omega⟩
  · unfold validCalendarDate
    simp only [Bool.and_eq_true, decide_eq_true_eq]
    exact ⟨⟨⟨⟨hb1, by omega⟩, by omega⟩, by omega⟩, daysInMonth_pos _ _⟩
  · unfold validCalendarDate
    simp only [Bool.and_eq_true, decide_eq_true_eq]
    refine ⟨⟨⟨⟨by omega, by omega⟩, by omega⟩, by omega⟩, ?_⟩
    exact daysInMonth_pos _ _

theorem prevDay_year (d : DateV) :
    (prevDay d).year = d.year ∨ (prevDay d).year = d.year - 1 := by
  unfold prevDay
  split_ifs <;> simp

theorem prevDay_valid (d : DateV) (h : validCalendarDate d = true)
    (hy : 2 ≤ d.year) : validCalendarDate (prevDay d) = true := by
  obtain ⟨hb1, hb2, hb3, hb4, hb5⟩ := validCalendarDate_bounds d h
  unfold prevDay
  split_ifs with h1 h2
  · unfold validCalendarDate
    simp only [Bool.and_eq_true, decide_eq_true_eq]
    exact ⟨⟨⟨⟨hb1, hb2⟩, hb3⟩, by omega⟩, by omega⟩
  · unfold validCalendarDate
    simp only [Bool.and_eq_true, decide_eq_true_eq]
    exact ⟨⟨⟨⟨hb1, by omega⟩, by omega⟩, daysInMonth_pos _ _⟩, le_refl _⟩
  · unfold validCalendarDate
    simp only [Bool.and_eq_true, decide_eq_true_eq]
    have h31 : daysInMonth (d.year - 1) 12 = 31 := rfl
    exact ⟨⟨⟨⟨by omega, by omega⟩, by omega⟩, by omega⟩, by rw [h31]⟩

theorem applyOffset_eq (d : DateV) (h mi : Nat) (off : Int) :
    applyOffset d h mi off =
      if (h : Int) * 60 + (mi : Int) - off < 0 then
        (prevDay d, (((h : Int) * 60 + (mi : Int) - off + 1440) / 60).toNat,
          (((h : Int) * 60 + (mi : Int) - off + 1440) % 60).toNat)
      else if 1440 ≤ (h : Int) * 60 + (mi : Int) - off then
        (nextDay d, (((h : Int) * 60 + (mi : Int) - off - 1440) / 60).toNat,
          (((h : Int) * 60 + (mi : Int) - off - 1440) % 60).toNat)
      else
        (d, (((h : Int) * 60 + (mi : Int) - off) / 60).toNat,
          (((h : Int) * 60 + (mi : Int) - off) % 60).toNat) := rfl

theorem applyOffset_bounds (d : DateV) (h0 mi : Nat) (off : Int)
    (hh : h0 ≤ 23) (hm : mi ≤ 59) (hoff1 : -1439 ≤ off) (hoff2 : off ≤ 1439) :
    ((applyOffset d h0 mi off).1 = d ∨ (applyOffset d h0 mi off).1 = prevDay d ∨
      (applyOffset d h0 mi off).1 = nextDay d) ∧
    (applyOffset d h0 mi off).2.1 ≤ 23 ∧ (applyOffset d h0 mi off).2.2 ≤ 59 := by
  rw [applyOffset_eq]
  have hmodb : ∀ x : Int, (x % 60).toNat ≤ 59 := by
    intro x
    have hn := Int.emod_nonneg x (by norm_num : (60 : Int) ≠ 0)
    have hl := Int.emod_lt_of_pos x (by norm_num : (0 : Int) < 60)
    exact Int.toNat_le.mpr (by omega)
  have hdivb : ∀ x : Int, 0 ≤ x → x ≤ 1439 → (x / 60).toNat ≤ 23 := by
    intro x hx1 hx2
    refine Int.toNat_le.mpr ?_
    calc x / 60 ≤ 1439 / 60 := Int.ediv_le_ediv (by norm_num) hx2
      _ = 23 := by norm_num
  split_ifs with h1 h2
  · refine ⟨Or.inr (Or.inl rfl), ?_, hmodb _⟩
    exact hdivb _ (by omega) (by omega)
  · refine ⟨Or.inr (Or.inr rfl), ?_, hmodb _⟩
    refine hdivb _ (by omega) (by omega)
  · refine ⟨Or.inl rfl, ?_, hmodb _⟩
    exact hdivb _ (by omega) (by omega)

theorem applyOffset_zero (d : DateV) (h mi : Nat) (hh : h ≤ 23) (hm : mi ≤ 59) :
    applyOffset d h mi 0 = (d, h, mi) := by
  rw [applyOffset_eq]
  rw [if_neg (by omega), if_neg (by omega)]
  rw [show (h : Int) * 60 + (mi : Int) - 0 = (mi : Int) + (h : Int) * 60 from by
    ring]
  rw [Int.add_mul_ediv_right _ _ (by norm_num : (60 : Int) ≠ 0),
    Int.ediv_eq_zero_of_lt (by positivity) (by exact_mod_cast (by omega : mi < 60)),
    zero_add, Int.toNat_natCast]
  rw [Int.add_mul_emod_self, Int.emod_eq_of_lt (by positivity)
    (by exact_mod_cast (by omega : mi < 60)), Int.toNat_natCast]

theorem parseOffset_bounds (cs : List Char) (off : Int)
    (h : parseOffset cs = some off) : -1439 ≤ off ∧ off ≤ 1439 := by
  unfold parseOffset at h
  split at h
  · cases h
    exact ⟨by norm_num, by norm_num⟩
  · cases h
    exact ⟨by norm_num, by norm_num⟩
  · dsimp only at h
    split_ifs at h with h1 h2 hsign
    all_goals
      split at h
      · split_ifs at h with h3 h4
        simp only [Bool.and_eq_true, decide_eq_true_eq] at h4
        cases h
        constructor <;> omega
      · cases h

theorem mkTs_zero_offset (d : DateV) (hh mi ss : Nat)
    (hv : validCalendarDate d = true) (h23 : hh ≤ 23) (h59 : mi ≤ 59)
    (hs : ss ≤ 59) (hmin : dateLE pandasMinDate d = true)
    (hmax : dateLE d pandasMaxDate = true) :
    mkTs d hh mi ss 0 = some ⟨d, hh, mi, ss⟩ := by
  unfold mkTs
  rw [if_pos (by simp [hv, h23, h59, hs])]
  rw [applyOffset_zero d hh mi h23 h59]
  dsimp only
  rw [if_pos (by simp [hmin, hmax])]

theorem mkTs_some (d : DateV) (h0 mi se : Nat) (off : Int) (t : TsV)
    (hoff1 : -1439 ≤ off) (hoff2 : off ≤ 1439)
    (h : mkTs d h0 mi se off = some t) :
    validCalendarDate t.date = true ∧ t.hour ≤ 23 ∧ t.minute ≤ 59 ∧
      t.second ≤ 59 ∧ dateLE pandasMinDate t.date = true ∧
      dateLE t.date pandasMaxDate = true := by
  unfold mkTs at h
  rcases happ : applyOffset d h0 mi off with ⟨d2, h2, m2⟩
  rw [happ] at h
  dsimp only at h
  split_ifs at h with hc1 hc2
  cases h
  simp only [Bool.and_eq_true, decide_eq_true_eq] at hc1 hc2
  obtain ⟨⟨⟨hv, hh23⟩, hm59⟩, hs59⟩ := hc1
  have hb := applyOffset_bounds d h0 mi off hh23 hm59 hoff1 hoff2
  rw [happ] at hb
  dsimp only at hb
  dsimp only
  have hminy := dateLE_min_year d2 hc2.1
  refine ⟨?_, hb.2.1, hb.2.2, hs59, hc2.1, hc2.2⟩
  rcases hb.1 with he | he | he
  · rw [he]; exact hv
  · rw [he]
    apply prevDay_valid d hv
    rcases prevDay_year d with hp | hp <;> rw [he] at hminy <;> omega
  · rw [he]
    exact nextDay_valid d hv

theorem parseHMS_format (hh mi ss : Nat) (rest : List Char)
    (h1 : hh ≤ 99) (h2 : mi ≤ 99) (h3 : ss ≤ 99)
    (hr : ∀ c, rest.head? = some c → isDigitChar c = false) :
    parseHMS ((pad2 hh ++ ':' :: pad2 mi ++ ':' :: pad2 ss) ++ rest) =
      some (hh, mi, ss, rest) := by
  have hflat : ((pad2 hh ++ ':' :: pad2 mi ++ ':' :: pad2 ss) ++ rest) =
      pad2 hh ++ (':' :: (pad2 mi ++ (':' :: (pad2 ss ++ rest)))) := by
    simp [List.append_assoc]
  unfold parseHMS
  rw [hflat]
  rw [spanDigits_append_stop _ _ (pad2_all_digit hh)
    (by intro c hc; simp only [List.head?_cons, Option.some.injEq] at hc;
        rw [← hc]; decide)]
  dsimp only
  rw [if_pos (by rw [pad2_length hh h1]; rfl)]
  split
  · rename_i r2 heq
    injection heq with _ hs2
    subst hs2
    rw [spanDigits_append_stop _ _ (pad2_all_digit mi)
      (by intro c hc; simp only [List.head?_cons, Option.some.injEq] at hc;
          rw [← hc]; decide)]
    dsimp only
    rw [if_pos (by rw [pad2_length mi h2]; rfl)]
    split
    · rename_i r4 heq2
      injection heq2 with _ hs4
      subst hs4
      rw [spanDigits_append_stop _ _ (pad2_all_digit ss) hr]
      dsimp only
      rw [if_pos (by rw [pad2_length ss h3]; rfl)]
      rw [pad2_toNat, pad2_toNat, pad2_toNat]
    · rename_i hfun
      exact (hfun _ rfl).elim
  · rename_i hfun
    exact (hfun _ rfl).elim

theorem parseOffset_utc :
    parseOffset ['+', '0', '0', ':', '0', '0'] = some 0 := by decide

theorem parseTs_format (t : TsV)
    (hv : validCalendarDate t.date = true) (h23 : t.hour ≤ 23)
    (h59 : t.minute ≤ 59) (hs : t.second ≤ 59)
    (hmin : dateLE pandasMinDate t.date = true)
    (hmax : dateLE t.date pandasMaxDate = true) :
    parseTs (formatTs t) = some t := by
  obtain ⟨hb1, hb2, hb3, hb4, hb5⟩ := validCalendarDate_bounds _ hv
  have hy : t.date.year ≤ 9999 := le_trans (dateLE_max_year _ hmax) (by norm_num)
  have hmo : t.date.month ≤ 99 := by omega
  have hdd : t.date.day ≤ 99 :=
    le_trans hb5 (le_trans (daysInMonth_le _ _) (by norm_num))
  unfold parseTs
  rw [formatTs_data]
  rw [parseYMD_format t.date.year t.date.month t.date.day _ hy hmo hdd
    (by intro c hc; simp only [List.head?_cons, Option.some.injEq] at hc;
        rw [← hc]; decide)]
  dsimp only
  rw [if_pos (by decide)]
  rw [parseHMS_format t.hour t.minute t.second _ (by omega) (by omega) (by omega)
    (by intro c hc; simp only [List.head?_cons, Option.some.injEq] at hc;
        rw [← hc]; decide)]
  dsimp only
  rw [parseOffset_utc]
  dsimp only
  have heta : (⟨t.date.year, t.date.month, t.date.day⟩ : DateV) = t.date := rfl
  rw [heta, mkTs_zero_offset t.date t.hour t.minute t.second hv h23 h59 hs
    hmin hmax]

theorem parseTs_some (s : String) (t : TsV) (h : parseTs s = some t) :
    validCalendarDate t.date = true ∧ t.hour ≤ 23 ∧ t.minute ≤ 59 ∧
      t.second ≤ 59 ∧ dateLE pandasMinDate t.date = true ∧
      dateLE t.date pandasMaxDate = true := by
  unfold parseTs at h
  cases hymd : parseYMD s.data with
  | none => rw [hymd] at h; cases h
  | some pr =>
    obtain ⟨d, rest⟩ := pr
    rw [hymd] at h
    dsimp only at h
    cases rest with
    | nil =>
      dsimp only at h
      exact mkTs_some d 0 0 0 0 t (by norm_num) (by norm_num) h
    | cons c r1 =>
      dsimp only at h
      split_ifs at h with hc
      · cases hhms : parseHMS r1 with
        | none => rw [hhms] at h; cases h
        | some pr2 =>
          obtain ⟨hh, mi, se, r2⟩ := pr2
          rw [hhms] at h
          dsimp only at h
          cases hoff : parseOffset r2 with
          | none => rw [hoff] at h; cases h
          | some off =>
            rw [hoff] at h
            dsimp only at h
            obtain ⟨ho1, ho2⟩ := parseOffset_bounds r2 off hoff
            exact mkTs_some d hh mi se off t ho1 ho2 h

/-! ## Per-cell idempotence of the output conversions -/

theorem nullMask_eq_of_ne_missing (v : Value) (hm : v ≠ .missing) :
    nullMask v = (pyStrip (stringifyVal v) == "") := by
  cases v with
  | missing => exact absurd rfl hm
  | str s => rfl
  | int n => rfl
  | date d => rfl
  | ts t => rfl

theorem patternViolation_eq_of_ne_missing (p : Pattern) (v : Value)
    (hm : v ≠ .missing) :
    patternViolation p v = !pymatch p (stringifyVal v) := by
  cases v with
  | missing => exact absurd rfl hm
  | str s => rfl
  | int n => rfl
  | date d => rfl
  | ts t => rfl

theorem nullMask_false_elim (v : Value) (hv : nullMask v = false) :
    v ≠ .missing ∧ pyStrip (stringifyVal v) ≠ "" := by
  have hm : v ≠ .missing := by
    intro h0
    rw [h0] at hv
    simp [nullMask] at hv
  refine ⟨hm, ?_⟩
  rw [nullMask_eq_of_ne_missing v hm] at hv
  simpa using hv

/-- An error-free conversion of a non-blank cell keeps the cell non-blank
(so NOT-NULL checks still pass on the clean output). -/
theorem convertCell_keeps_notNull (c : String) (ty : ColType) (v : Value)
    (herr : (convertCell c ty v).1 = none) (hv : nullMask v = false) :
    nullMask ((convertCell c ty v).2) = false := by
  obtain ⟨hm, hb⟩ := nullMask_false_elim v hv
  cases ty with
  | string maxL =>
    rw [convertCell_string_present c maxL v hm hb]
    show nullMask (.str (pyStrip (stringifyVal v))) = false
    rw [nullMask_eq_of_ne_missing _ (by simp)]
    show (pyStrip (pyStrip (stringifyVal v)) == "") = false
    rw [pyStrip_idem]
    simpa using hb
  | int =>
    rw [convertCell_int_present c v hm hb] at herr ⊢
    cases hp : parseNumeric (pyStrip (stringifyVal v)) with
    | none => rw [hp] at herr; simp at herr
    | some q =>
      rw [hp] at herr
      dsimp only at herr ⊢
      by_cases hf : fracIsClose q = true
      · rw [if_pos hf]
        exact nullMask_int _
      · rw [if_neg hf] at herr
        simp at herr
  | date =>
    rw [convertCell_date_present c v hm hb] at herr ⊢
    cases hp : parseDate (pyStrip (stringifyVal v)) with
    | none => rw [hp] at herr; simp at herr
    | some dd =>
      exact nullMask_date dd
  | timestamptz =>
    rw [convertCell_ts_present c v hm hb] at herr ⊢
    cases hp : parseTs (pyStrip (stringifyVal v)) with
    | none => rw [hp] at herr; simp at herr
    | some tt =>
      exact nullMask_ts tt

/-- The string conversion cannot introduce a pattern violation: it only
strips whitespace, which the digit patterns tolerate. -/
theorem convertCell_string_pattern (c : String) (m : Option Nat) (v : Value)
    (pat : Pattern) (hv : patternViolation pat v = false) :
    patternViolation pat ((convertCell c (.string m) v).2) = false := by
  by_cases hm : v = Value.missing
  · rw [convertCell_empty c _ v (Or.inl hm)]
    rfl
  · by_cases hb : pyStrip (stringifyVal v) = ""
    · rw [convertCell_empty c _ v (Or.inr hb)]
      rfl
    · rw [convertCell_string_present c m v hm hb]
      show patternViolation pat (.str (pyStrip (stringifyVal v))) = false
      rw [patternViolation_eq_of_ne_missing _ _ (by simp)]
      show (!pymatch pat (pyStrip (stringifyVal v))) = false
      rw [patternViolation_eq_of_ne_missing _ _ hm] at hv
      have hmatch : pymatch pat (stringifyVal v) = true := by
        cases hpm : pymatch pat (stringifyVal v) with
        | true => rfl
        | false => rw [hpm] at hv; simp at hv
      rw [pymatch_pyStrip pat _ hmatch]
      rfl

/-- Re-converting an error-free converted cell raises no error: the
conversion is idempotent on its successful outputs. -/
theorem convertCell_idem (c : String) (ty : ColType) (v : Value)
    (herr : (convertCell c ty v).1 = none) :
    (convertCell c ty ((convertCell c ty v).2)).1 = none := by
  by_cases hm : v = Value.missing
  · rw [convertCell_empty c ty v (Or.inl hm)]
    show (convertCell c ty .missing).1 = none
    rw [convertCell_empty c ty _ (Or.inl rfl)]
  · by_cases hb : pyStrip (stringifyVal v) = ""
    · rw [convertCell_empty c ty v (Or.inr hb)]
      show (convertCell c ty .missing).1 = none
      rw [convertCell_empty c ty _ (Or.inl rfl)]
    · cases ty with
      | string maxL =>
        rw [convertCell_string_present c maxL v hm hb] at herr ⊢
        show (convertCell c (.string maxL) (.str (pyStrip (stringifyVal v)))).1
          = none
        have htm : (Value.str (pyStrip (stringifyVal v))) ≠ Value.missing := by
          simp
        have htb : pyStrip (stringifyVal
            (Value.str (pyStrip (stringifyVal v)))) ≠ "" := by
          show pyStrip (pyStrip (stringifyVal v)) ≠ ""
          rw [pyStrip_idem]
          exact hb
        rw [convertCell_string_present c maxL _ htm htb]
        show (match maxL with
          | some mL =>
            if mL < (pyStrip (stringifyVal
                (Value.str (pyStrip (stringifyVal v))))).length then
              some ("Invalid " ++ c ++ " (max " ++ natToStr mL ++ " chars); ")
            else none
          | none => none) = none
        cases maxL with
        | none => rfl
        | some mL =>
          dsimp only
          have hss : pyStrip (stringifyVal
              (Value.str (pyStrip (stringifyVal v)))) =
              pyStrip (stringifyVal v) := by
            show pyStrip (pyStrip (stringifyVal v)) = pyStrip (stringifyVal v)
            exact pyStrip_idem _
          rw [hss]
          dsimp only at herr
          exact herr
      | int =>
        rw [convertCell_int_present c v hm hb] at herr ⊢
        cases hp : parseNumeric (pyStrip (stringifyVal v)) with
        | none => rw [hp] at herr; simp at herr
        | some q =>
          rw [hp] at herr
          dsimp only at herr ⊢
          by_cases hf : fracIsClose q = true
          · rw [if_pos hf]
            show (convertCell c .int (.int (roundHalfEven q))).1 = none
            have hmn : (Value.int (roundHalfEven q)) ≠ .missing := by simp
            have hsb : pyStrip (stringifyVal (Value.int (roundHalfEven q)))
                ≠ "" := by
              show pyStrip (intToStr (roundHalfEven q)) ≠ ""
              rw [pyStrip_intToStr]
              exact intToStr_ne_empty _
            rw [convertCell_int_present c _ hmn hsb]
            have hbnd := parseNumeric_bounds _ q hp
            have hle : ((roundHalfEven q : Int) : ℚ) ≤ float64Max := by
              have h1 := roundHalfEven_le_int q
                (((2 ^ 53 - 1) * 2 ^ 971 : Nat) : Int)
                (by rw [← float64Max_eq]; exact hbnd.2)
              rw [float64Max_eq]
              exact_mod_cast h1
            have hge : -float64Max ≤ ((roundHalfEven q : Int) : ℚ) := by
              have h2 := roundHalfEven_ge_int q
                (-(((2 ^ 53 - 1) * 2 ^ 971 : Nat) : Int))
                (by rw [Int.cast_neg, ← float64Max_eq]; exact hbnd.1)
              have h3 : ((-(((2 ^ 53 - 1) * 2 ^ 971 : Nat) : Int) : Int) : ℚ)
                  ≤ ((roundHalfEven q : Int) : ℚ) := by exact_mod_cast h2
              rw [Int.cast_neg, ← float64Max_eq] at h3
              exact h3
            rw [show pyStrip (stringifyVal (Value.int (roundHalfEven q))) =
                intToStr (roundHalfEven q) from pyStrip_intToStr _]
            rw [parseNumeric_intToStr _ hge hle]
            dsimp only
            rw [if_pos (fracIsClose_intCast _)]
          · rw [if_neg hf] at herr
            simp at herr
      | date =>
        rw [convertCell_date_present c v hm hb] at herr ⊢
        cases hp : parseDate (pyStrip (stringifyVal v)) with
        | none => rw [hp] at herr; simp at herr
        | some dd =>
          show (convertCell c .date (.date dd)).1 = none
          obtain ⟨hval, hmin, hmax⟩ := parseDate_some _ dd hp
          have hmn : (Value.date dd) ≠ .missing := by simp
          have hsb : pyStrip (stringifyVal (Value.date dd)) ≠ "" := by
            show pyStrip (formatDate dd) ≠ ""
            rw [pyStrip_formatDate]
            exact formatDate_ne_empty dd
          rw [convertCell_date_present c _ hmn hsb]
          rw [show pyStrip (stringifyVal (Value.date dd)) = formatDate dd from
            pyStrip_formatDate dd]
          rw [parseDate_format dd hval hmin hmax]
      | timestamptz =>
        rw [convertCell_ts_present c v hm hb] at herr ⊢
        cases hp : parseTs (pyStrip (stringifyVal v)) with
        | none => rw [hp] at herr; simp at herr
        | some tt =>
          show (convertCell c .timestamptz (.ts tt)).1 = none
          obtain ⟨hval, h23, h59, hs59, hmin, hmax⟩ := parseTs_some _ tt hp
          have hmn : (Value.ts tt) ≠ .missing := by simp
          have hsb : pyStrip (stringifyVal (Value.ts tt)) ≠ "" := by
            show pyStrip (formatTs tt) ≠ ""
            rw [pyStrip_formatTs]
            exact formatTs_ne_empty tt
          rw [convertCell_ts_present c _ hmn hsb]
          rw [show pyStrip (stringifyVal (Value.ts tt)) = formatTs tt from
            pyStrip_formatTs tt]
          rw [parseTs_format tt hval h23 h59 hs59 hmin hmax]

/-! ## Stage-level characterizations for the idempotence argument -/

theorem contains_addCol_iff (cols : List String) (c x : String) :
    (addCol cols c).contains x = (cols.contains x || x == c) := by
  unfold addCol
  by_cases hc : cols.contains c = true
  · rw [if_pos hc]
    by_cases hx : x = c
    · subst hx
      rw [hc, Bool.true_or]
    · simp [hx]
  · rw [if_neg hc]
    exact contains_append_singleton cols c x

theorem enumFrom_mem_snd {α : Type} :
    ∀ (l : List α) (n : Nat) (p : Nat × α), p ∈ List.enumFrom n l → p.2 ∈ l := by
  intro l
  induction l with
  | nil => intro n p hp; simp [List.enumFrom] at hp
  | cons a t ih =>
    intro n p hp
    rw [List.enumFrom] at hp
    rcases List.mem_cons.mp hp with h | h
    · subst h
      exact List.mem_cons_self _ _
    · exact List.mem_cons_of_mem _ (ih (n + 1) p h)

theorem enum_mem_snd {α : Type} (l : List α) (p : Nat × α) (h : p ∈ l.enum) :
    p.2 ∈ l := enumFrom_mem_snd l 0 p h

theorem lookup_eq_some_of_mem {α : Type} (l : List (String × α)) (c : String)
    (v : α) (hmem : (c, v) ∈ l) (hnd : (l.map Prod.fst).Nodup) :
    l.lookup c = some v := by
  induction l with
  | nil => cases hmem
  | cons p rest ih =>
    obtain ⟨c', v'⟩ := p
    rw [List.map_cons, List.nodup_cons] at hnd
    rcases List.mem_cons.mp hmem with he | hmem'
    · injection he with h1 h2
      subst h1
      subst h2
      exact lookup_cons_self _ _ _
    · have hne : c ≠ c' := by
        intro h0
        subst h0
        exact hnd.1 (List.mem_map.mpr ⟨(c, v), hmem', rfl⟩)
      rw [lookup_cons_ne _ _ _ _ hne]
      exact ih hmem' hnd.2

theorem mem_of_lookup_eq_some {α : Type} (l : List (String × α)) (c : String)
    (v : α) (h : l.lookup c = some v) : (c, v) ∈ l := by
  induction l with
  | nil => cases h
  | cons p rest ih =>
    obtain ⟨c', v'⟩ := p
    by_cases he : c = c'
    · subst he
      rw [lookup_cons_self] at h
      injection h with h
      subst h
      exact List.mem_cons_self _ _
    · rw [lookup_cons_ne _ _ _ _ he] at h
      exact List.mem_cons_of_mem _ (ih h)

theorem lookup_isSome_of_mem_keys {α : Type} (l : List (String × α))
    (c : String) (h : c ∈ l.map Prod.fst) : (l.lookup c).isSome = true := by
  induction l with
  | nil => simp at h
  | cons p rest ih =>
    obtain ⟨c', v'⟩ := p
    by_cases he : c = c'
    · subst he
      rw [lookup_cons_self]
      rfl
    · rw [lookup_cons_ne _ _ _ _ he]
      apply ih
      rw [List.map_cons] at h
      rcases List.mem_cons.mp h with h0 | h0
      · exact absurd h0 he
      · exact h0

theorem notNullCols_eq_self (l : List String) : ∀ cols : List String,
    (∀ c ∈ l, cols.contains c = true) → notNullCols cols l = cols := by
  induction l with
  | nil => intro cols _; rfl
  | cons a rest ih =>
    intro cols h
    rw [notNullCols_cons, if_pos (h a (List.mem_cons_self _ _))]
    exact ih cols (fun c hc => h c (List.mem_cons_of_mem _ hc))

theorem nnFrags_nil_elim (l : List String) :
    ∀ (cols : List String) (r : Row), nnFrags cols r l = [] →
      ∀ c ∈ l, cols.contains c = true ∧ nullMask (r.getVal c) = false := by
  induction l with
  | nil => intro cols r _ c hc; simp at hc
  | cons a rest ih =>
    intro cols r h
    rw [nnFrags_cons] at h
    rcases List.append_eq_nil.mp h with ⟨h1, h2⟩
    have hca : cols.contains a = true := by
      by_contra hcc
      have hmat : nnMaterialize cols r a = (cols ++ [a], r.setVal a .missing) := by
        unfold nnMaterialize
        rw [if_neg hcc]
      rw [hmat] at h1
      dsimp only at h1
      rw [getVal_setVal_self] at h1
      simp [nullMask] at h1
    have hmat : nnMaterialize cols r a = (cols, r) := by
      unfold nnMaterialize
      rw [if_pos hca]
    rw [hmat] at h1
    dsimp only at h1
    have hmask : nullMask (r.getVal a) = false := by
      cases hmk : nullMask (r.getVal a) with
      | false => rfl
      | true => rw [hmk] at h1; simp at h1
    have hstep : notNullStep cols r a = (cols, r) := by
      unfold notNullStep
      rw [hmat]
      dsimp only
      rw [if_neg (by rw [hmask]; exact Bool.false_ne_true)]
    rw [hstep] at h2
    dsimp only at h2
    intro c hc
    rcases List.mem_cons.mp hc with rfl | hc'
    · exact ⟨hca, hmask⟩
    · exact ih cols r h2 c hc'

theorem nnFrags_nil_intro (l : List String) :
    ∀ (cols : List String) (r : Row),
      (∀ c ∈ l, cols.contains c = true ∧ nullMask (r.getVal c) = false) →
      nnFrags cols r l = [] ∧ notNullStage cols r l = (cols, r) := by
  induction l with
  | nil => intro cols r _; exact ⟨rfl, rfl⟩
  | cons a rest ih =>
    intro cols r h
    obtain ⟨hca, hmask⟩ := h a (List.mem_cons_self _ _)
    have hmat : nnMaterialize cols r a = (cols, r) := by
      unfold nnMaterialize
      rw [if_pos hca]
    have hstep : notNullStep cols r a = (cols, r) := by
      unfold notNullStep
      rw [hmat]
      dsimp only
      rw [if_neg (by rw [hmask]; exact Bool.false_ne_true)]
    obtain ⟨ih1, ih2⟩ := ih cols r (fun c hc => h c (List.mem_cons_of_mem _ hc))
    constructor
    · rw [nnFrags_cons, hmat]
      dsimp only
      rw [if_neg (by rw [hmask]; exact Bool.false_ne_true), hstep]
      dsimp only
      rw [ih1]
      rfl
    · rw [notNullStage_cons, hstep]
      exact ih2

theorem valFrags_nil_elim (l : List (String × Validation)) :
    ∀ (cols : List String) (r : Row),
      (∀ fv ∈ l, fv.1 ≠ "_error") → valFrags cols r l = [] →
      ∀ fv ∈ l, cols.contains fv.1 = true → (fv.2.vtype == "numeric") = true →
        patternViolation fv.2.pattern (r.getVal fv.1) = false := by
  induction l with
  | nil => intro cols r _ _ fv hfv; simp at hfv
  | cons g rest ih =>
    intro cols r hne h fv hfv hcf hnum
    rw [valFrags_cons] at h
    rcases List.append_eq_nil.mp h with ⟨h1, h2⟩
    have hval : ∀ x, x ≠ "_error" →
        (validationStep cols r g).getVal x = r.getVal x := by
      intro x hx
      rw [validationStep_eq]
      split
      · exact getVal_appendErr _ _ _ hx
      · rfl
    rcases List.mem_cons.mp hfv with rfl | hfv'
    · by_cases hviol : patternViolation fv.2.pattern (r.getVal fv.1) = true
      · exfalso
        rw [if_pos (by rw [hcf, hviol, hnum]; rfl)] at h1
        cases h1
      · exact Bool.eq_false_iff.mpr hviol
    · have := ih cols (validationStep cols r g)
        (fun p hp => hne p (List.mem_cons_of_mem _ hp)) h2 fv hfv' hcf hnum
      rwa [hval fv.1 (hne fv (List.mem_cons_of_mem _ hfv'))] at this

theorem valFrags_nil_intro (l : List (String × Validation)) :
    ∀ (cols : List String) (r : Row),
      (∀ fv ∈ l, fv.1 ≠ "_error") →
      (∀ fv ∈ l, cols.contains fv.1 = true → (fv.2.vtype == "numeric") = true →
        patternViolation fv.2.pattern (r.getVal fv.1) = false) →
      valFrags cols r l = [] := by
  induction l with
  | nil => intro cols r _ _; rfl
  | cons g rest ih =>
    intro cols r hne h
    rw [valFrags_cons]
    have hhit : (cols.contains g.1 && patternViolation g.2.pattern (r.getVal g.1)
        && (g.2.vtype == "numeric")) = false := by
      by_cases hc : cols.contains g.1 = true
      · by_cases hn : (g.2.vtype == "numeric") = true
        · rw [h g (List.mem_cons_self _ _) hc hn, Bool.and_false, Bool.false_and]
        · rw [Bool.eq_false_iff.mpr hn, Bool.and_false]
      · rw [Bool.eq_false_iff.mpr hc, Bool.false_and, Bool.false_and]
    rw [if_neg (by rw [hhit]; exact Bool.false_ne_true), List.nil_append]
    have hval : ∀ x, x ≠ "_error" →
        (validationStep cols r g).getVal x = r.getVal x := by
      intro x hx
      rw [validationStep_eq]
      split
      · exact getVal_appendErr _ _ _ hx
      · rfl
    apply ih cols (validationStep cols r g)
      (fun p hp => hne p (List.mem_cons_of_mem _ hp))
    intro fv hfv hcf hnum
    rw [hval fv.1 (hne fv (List.mem_cons_of_mem _ hfv))]
    exact h fv (List.mem_cons_of_mem _ hfv) hcf hnum

theorem typeFrags_nil_elim (l : List (String × ColType)) :
    ∀ (cols : List String) (r : Row),
      (∀ p ∈ l, p.1 ≠ "_error") → typeFrags cols r l = [] →
      ∀ p ∈ l, cols.contains p.1 = true →
        (convertCell p.1 p.2 (r.getVal p.1)).1 = none := by
  induction l with
  | nil => intro cols r _ _ p hp; simp at hp
  | cons g rest ih =>
    intro cols r hne h p hp hcp
    obtain ⟨c, ty⟩ := g
    by_cases hc : cols.contains c = true
    · rw [typeFrags_cons_pos _ _ _ _ _ hc] at h
      rcases List.append_eq_nil.mp h with ⟨h1, h2⟩
      have hec : (convertCell c ty (r.getVal c)).1 = none := by
        cases he : (convertCell c ty (r.getVal c)).1 with
        | none => rfl
        | some m => rw [he] at h1; simp at h1
      rcases List.mem_cons.mp hp with rfl | hp'
      · exact hec
      · have := ih cols (maybeAppendErr r (convertCell c ty (r.getVal c)).1)
          (fun q hq => hne q (List.mem_cons_of_mem _ hq)) h2 p hp' hcp
        rwa [getVal_maybeAppendErr _ _ _
          (hne p (List.mem_cons_of_mem _ hp'))] at this
    · rw [typeFrags_cons_neg _ _ _ _ _ hc] at h
      rcases List.mem_cons.mp hp with rfl | hp'
      · exact absurd hcp hc
      · exact ih cols r (fun q hq => hne q (List.mem_cons_of_mem _ hq)) h p hp' hcp

theorem typeFrags_nil_intro (l : List (String × ColType)) :
    ∀ (cols : List String) (r : Row),
      (∀ p ∈ l, p.1 ≠ "_error") →
      (∀ p ∈ l, cols.contains p.1 = true →
        (convertCell p.1 p.2 (r.getVal p.1)).1 = none) →
      typeFrags cols r l = [] := by
  induction l with
  | nil => intro cols r _ _; rfl
  | cons g rest ih =>
    intro cols r hne h
    obtain ⟨c, ty⟩ := g
    by_cases hc : cols.contains c = true
    · rw [typeFrags_cons_pos _ _ _ _ _ hc]
      have hec := h (c, ty) (List.mem_cons_self _ _) hc
      rw [hec, show maybeAppendErr r none = r from rfl,
        ih cols r (fun q hq => hne q (List.mem_cons_of_mem _ hq))
          (fun q hq hcq => h q (List.mem_cons_of_mem _ hq) hcq)]
      rfl
    · rw [typeFrags_cons_neg _ _ _ _ _ hc]
      exact ih cols r (fun q hq => hne q (List.mem_cons_of_mem _ hq))
        (fun q hq hcq => h q (List.mem_cons_of_mem _ hq) hcq)

theorem typeStage_snd (l : List (String × ColType)) :
    ∀ (cols : List String) (r : Row), (∀ p ∈ l, p.1 ≠ "_error") →
      (typeStage cols r l).2 = l.filterMap (fun pr =>
        if cols.contains pr.1 = true then
          some (pr.1, (convertCell pr.1 pr.2 (r.getVal pr.1)).2)
        else none) := by
  induction l with
  | nil => intro cols r _; rfl
  | cons g rest ih =>
    intro cols r hne
    obtain ⟨c, ty⟩ := g
    by_cases hc : cols.contains c = true
    · rw [typeStage_cons_pos _ _ _ _ _ hc]
      simp only [List.filterMap_cons]
      rw [if_pos hc]
      dsimp only
      congr 1
      rw [ih cols _ (fun q hq => hne q (List.mem_cons_of_mem _ hq))]
      apply List.filterMap_congr
      intro q hq
      dsimp only
      rw [getVal_maybeAppendErr _ _ _ (hne q (List.mem_cons_of_mem _ hq))]
    · rw [typeStage_cons_neg _ _ _ _ _ hc]
      simp only [List.filterMap_cons]
      rw [if_neg hc]
      exact ih cols r (fun q hq => hne q (List.mem_cons_of_mem _ hq))

theorem typeStage_keys_sublist (l : List (String × ColType)) :
    ∀ (cols : List String) (r : Row),
      (((typeStage cols r l).2).map Prod.fst).Sublist (l.map Prod.fst) := by
  induction l with
  | nil => intro cols r; exact List.nil_sublist _
  | cons g rest ih =>
    intro cols r
    obtain ⟨c, ty⟩ := g
    by_cases hc : cols.contains c = true
    · rw [typeStage_cons_pos _ _ _ _ _ hc]
      simp only [List.map_cons]
      exact List.Sublist.cons₂ _ (ih _ _)
    · rw [typeStage_cons_neg _ _ _ _ _ hc]
      simp only [List.map_cons]
      exact List.Sublist.cons _ (ih _ _)

theorem applyConversions_cons (cs : List String) (row : Row) (c : String)
    (v : Value) (rest : List (String × Value)) :
    applyConversions cs row ((c, v) :: rest) =
      applyConversions cs (if cs.contains c then row.setVal c v else row)
        rest := rfl

theorem getVal_applyConversions_not_mem (convs : List (String × Value)) :
    ∀ (cs : List String) (row : Row) (c : String), c ∉ convs.map Prod.fst →
      (applyConversions cs row convs).getVal c = row.getVal c := by
  induction convs with
  | nil => intro cs row c _; rfl
  | cons g rest ih =>
    intro cs row c hc
    obtain ⟨c', v'⟩ := g
    rw [List.map_cons] at hc
    have hne : c ≠ c' := fun h0 => hc (h0 ▸ List.mem_cons_self _ _)
    have hrest : c ∉ rest.map Prod.fst := fun h0 =>
      hc (List.mem_cons_of_mem _ h0)
    rw [applyConversions_cons, ih _ _ _ hrest]
    split
    · exact getVal_setVal_ne _ _ _ _ hne
    · rfl

theorem getVal_applyConversions_mem (convs : List (String × Value)) :
    ∀ (cs : List String) (row : Row) (c : String) (v : Value),
      (c, v) ∈ convs → (convs.map Prod.fst).Nodup → cs.contains c = true →
      (applyConversions cs row convs).getVal c = v := by
  induction convs with
  | nil => intro cs row c v hm _ _; cases hm
  | cons g rest ih =>
    intro cs row c v hm hnd hcs
    obtain ⟨c', v'⟩ := g
    rw [List.map_cons, List.nodup_cons] at hnd
    rcases List.mem_cons.mp hm with he | hm'
    · injection he with h1 h2
      subst h1
      subst h2
      rw [applyConversions_cons, if_pos hcs,
        getVal_applyConversions_not_mem rest _ _ _ hnd.1]
      exact getVal_setVal_self _ _ _
    · rw [applyConversions_cons]
      exact ih _ _ _ _ hm' hnd.2 hcs

theorem spec_keys_nodup : (COLUMN_TYPE_SPEC.map Prod.fst).Nodup := by decide

theorem spec_keys_ne_diag :
    ∀ p ∈ COLUMN_TYPE_SPEC, p.1 ≠ "_error" ∧ p.1 ≠ "_row_number" := by decide

theorem lookupSpec_err : lookupSpec "_error" = none := by decide

theorem lookupSpec_rn : lookupSpec "_row_number" = none := by decide

/-! ## The pipeline stages expressed through the stage abbreviations -/

theorem processRow_eq (cols : List String) (schema : Schema) (rn : Int)
    (r : Row) :
    processRow cols schema rn r =
      ((tsOf cols schema rn r).1.setVal "_error"
        (.str (rstripSemiSpace (errOf (tsOf cols schema rn r).1))),
       (tsOf cols schema rn r).2) := rfl

theorem rowFragments_parts (cols : List String) (schema : Schema) (rn : Int)
    (r : Row) :
    rowFragments cols schema rn r =
      nnFrags cols (initRow rn r) schema.not_null ++
        valFrags (nnOf cols schema rn r).1 (nnOf cols schema rn r).2
          schema.validations ++
        typeFrags (nnOf cols schema rn r).1 (valRowOf cols schema rn r)
          COLUMN_TYPE_SPEC := rfl

theorem getVal_initRow_ne (rn : Int) (r : Row) (c : String)
    (h1 : c ≠ "_error") (h2 : c ≠ "_row_number") :
    (initRow rn r).getVal c = r.getVal c := by
  unfold initRow
  rw [getVal_setVal_ne _ _ _ _ h2, getVal_setVal_ne _ _ _ _ h1]

theorem getVal_valRowOf (cols : List String) (schema : Schema) (rn : Int)
    (r : Row) (x : String) (hx : x ≠ "_error") :
    (valRowOf cols schema rn r).getVal x =
      ((nnOf cols schema rn r).2).getVal x :=
  validationStage_getVal schema.validations (nnOf cols schema rn r).1
    (nnOf cols schema rn r).2 x hx

theorem getVal_processRow_fst (cols : List String) (schema : Schema) (rn : Int)
    (r : Row) (x : String) (hx : x ≠ "_error") :
    (processRow cols schema rn r).1.getVal x =
      (valRowOf cols schema rn r).getVal x := by
  rw [processRow_eq]
  dsimp only
  rw [getVal_setVal_ne _ _ _ _ hx]
  exact typeStage_getVal _ _ _ _ hx

theorem convs_eq (cols : List String) (schema : Schema) (rn : Int) (r : Row)
    (hnnid : nnOf cols schema rn r = (cols, initRow rn r)) :
    (processRow cols schema rn r).2 =
      COLUMN_TYPE_SPEC.filterMap (convFun cols (valRowOf cols schema rn r)) := by
  rw [processRow_eq]
  show (typeStage (nnOf cols schema rn r).1 (valRowOf cols schema rn r)
      COLUMN_TYPE_SPEC).2 = _
  rw [hnnid]
  exact typeStage_snd COLUMN_TYPE_SPEC cols (valRowOf cols schema rn r)
    (fun p hp => (spec_keys_ne_diag p hp).1)

theorem convs_keys_sublist (cols : List String) (schema : Schema) (rn : Int)
    (r : Row) :
    (((processRow cols schema rn r).2).map Prod.fst).Sublist
      (COLUMN_TYPE_SPEC.map Prod.fst) := by
  rw [processRow_eq]
  exact typeStage_keys_sublist _ _ _

theorem convs_keys_nodup (cols : List String) (schema : Schema) (rn : Int)
    (r : Row) :
    (((processRow cols schema rn r).2).map Prod.fst).Nodup :=
  List.Nodup.sublist (convs_keys_sublist cols schema rn r) spec_keys_nodup

theorem selCols_contains_iff (df : DF) (schema : Schema) (x : String) :
    (selCols df schema).contains x = true ↔
      ((x ∈ schema.columns ∧ (finalCols df schema).contains x = true) ∨
        x = "_error" ∨ x = "_row_number") := by
  unfold selCols existingCols
  rw [contains_append]
  simp only [Bool.or_eq_true]
  constructor
  · rintro (hx | hx)
    · left
      have hx' : x ∈ schema.columns.filter
          (fun c => (finalCols df schema).contains c) := List.elem_iff.mp hx
      rw [List.mem_filter] at hx'
      exact hx'
    · right
      have hx' : x ∈ ["_error", "_row_number"] := List.elem_iff.mp hx
      simp only [List.mem_cons, List.not_mem_nil, or_false] at hx'
      exact hx'
  · rintro (⟨hm, hf⟩ | h)
    · exact Or.inl (List.elem_iff.mpr (List.mem_filter.mpr ⟨hm, hf⟩))
    · refine Or.inr (List.elem_iff.mpr ?_)
      rcases h with rfl | rfl
      · exact List.mem_cons_self _ _
      · exact List.mem_cons_of_mem _ (List.mem_cons_self _ _)

/-- A selected clean-row cell whose column has a type-spec entry and was
present in the frame carries the coerced value. -/
theorem cleanRowOf_getVal_spec (df : DF) (schema : Schema) (rn : Int) (r : Row)
    (c : String) (ty : ColType)
    (hlook : lookupSpec c = some ty)
    (hc1 : (dfCols0 df).contains c = true)
    (hselc : (selCols df schema).contains c = true)
    (hce : c ≠ "_error") (hcr : c ≠ "_row_number")
    (hnnid : nnOf (dfCols0 df) schema rn r = (dfCols0 df, initRow rn r)) :
    (cleanRowOf (selCols df schema)
        (processRow (dfCols0 df) schema rn r)).getVal c =
      (convertCell c ty ((initRow rn r).getVal c)).2 := by
  unfold cleanRowOf
  rw [getVal_dropCol_ne _ _ _ hcr, getVal_dropCol_ne _ _ _ hce,
    convs_eq _ _ _ _ hnnid]
  have hmemSPEC : (c, ty) ∈ COLUMN_TYPE_SPEC := mem_of_lookup_eq_some _ _ _ hlook
  have hmem : (c, (convertCell c ty
      ((valRowOf (dfCols0 df) schema rn r).getVal c)).2) ∈
      COLUMN_TYPE_SPEC.filterMap
        (convFun (dfCols0 df) (valRowOf (dfCols0 df) schema rn r)) :=
    List.mem_filterMap.mpr ⟨(c, ty), hmemSPEC, by unfold convFun; rw [if_pos hc1]⟩
  have hnd : ((COLUMN_TYPE_SPEC.filterMap
      (convFun (dfCols0 df) (valRowOf (dfCols0 df) schema rn r))).map
        Prod.fst).Nodup := by
    have h := convs_keys_nodup (dfCols0 df) schema rn r
    rwa [convs_eq _ _ _ _ hnnid] at h
  rw [getVal_applyConversions_mem _ _ _ _ _ hmem hnd hselc,
    getVal_valRowOf _ _ _ _ _ hce, hnnid]

/-- A selected clean-row cell whose column has no type-spec entry keeps
its pre-coercion value. -/
theorem cleanRowOf_getVal_nospec (df : DF) (schema : Schema) (rn : Int)
    (r : Row) (c : String)
    (hlook : lookupSpec c = none)
    (hselc : (selCols df schema).contains c = true)
    (hce : c ≠ "_error") (hcr : c ≠ "_row_number") :
    (cleanRowOf (selCols df schema)
        (processRow (dfCols0 df) schema rn r)).getVal c =
      (valRowOf (dfCols0 df) schema rn r).getVal c := by
  unfold cleanRowOf
  rw [getVal_dropCol_ne _ _ _ hcr, getVal_dropCol_ne _ _ _ hce]
  have hnot : c ∉ ((processRow (dfCols0 df) schema rn r).2).map Prod.fst := by
    intro hmem
    have hk : c ∈ COLUMN_TYPE_SPEC.map Prod.fst :=
      (convs_keys_sublist _ _ _ _).subset hmem
    have hs := lookup_isSome_of_mem_keys COLUMN_TYPE_SPEC c hk
    rw [show COLUMN_TYPE_SPEC.lookup c = lookupSpec c from rfl, hlook] at hs
    cases hs
  rw [getVal_applyConversions_not_mem _ _ _ _ hnot, getVal_selectRow,
    if_pos hselc]
  exact getVal_processRow_fst _ _ _ _ _ hce

/-- Re-processing a clean output row with the same schema produces no
diagnostic fragment at all. -/
theorem processRow_clean_again (df : DF) (schema : Schema) (rn rn' : Int)
    (r : Row)
    (h0a : schema.columns.contains "_error" = false)
    (h0b : schema.columns.contains "_row_number" = false)
    (h1 : ∀ c ∈ schema.not_null, c ∈ schema.columns)
    (h2 : ∀ fv ∈ schema.validations, fv.1 ≠ "_error" ∧ fv.1 ≠ "_row_number" ∧
      ∃ m, lookupSpec fv.1 = some (ColType.string m))
    (cols2 : List String)
    (hc2 : ∀ x, cols2.contains x = true ↔
      ((x ∈ schema.columns ∧ (finalCols df schema).contains x = true) ∨
        x = "_error" ∨ x = "_row_number"))
    (hfr : rowFragments (dfCols0 df) schema rn r = []) :
    rowFragments cols2 schema rn'
      (cleanRowOf (selCols df schema) (processRow (dfCols0 df) schema rn r))
      = [] := by
  rw [rowFragments_parts] at hfr
  rcases List.append_eq_nil.mp hfr with ⟨hfr1, hty1⟩
  rcases List.append_eq_nil.mp hfr1 with ⟨hnn1, hval1⟩
  have hA := nnFrags_nil_elim _ _ _ hnn1
  have hnnid : nnOf (dfCols0 df) schema rn r = (dfCols0 df, initRow rn r) :=
    (nnFrags_nil_intro _ _ _ hA).2
  rw [hnnid] at hval1 hty1
  dsimp only at hval1 hty1
  have hvr : ∀ x, x ≠ "_error" →
      (valRowOf (dfCols0 df) schema rn r).getVal x =
        (initRow rn r).getVal x := by
    intro x hx
    rw [getVal_valRowOf _ _ _ _ _ hx, hnnid]
  have hV := valFrags_nil_elim _ _ _ (fun fv hfv => (h2 fv hfv).1) hval1
  have hT := typeFrags_nil_elim _ _ _
    (fun p hp => (spec_keys_ne_diag p hp).1) hty1
  have hfineq : finalCols df schema = dfCols0 df :=
    notNullCols_eq_self _ _ (fun c hc => (hA c hc).1)
  have hA2 : ∀ c ∈ schema.not_null, cols2.contains c = true ∧
      nullMask ((initRow rn' (cleanRowOf (selCols df schema)
        (processRow (dfCols0 df) schema rn r))).getVal c) = false := by
    intro c hc
    obtain ⟨hc1, hmask1⟩ := hA c hc
    have hcm : c ∈ schema.columns := h1 c hc
    have hce : c ≠ "_error" := by
      intro h0
      rw [h0] at hcm
      have hx : schema.columns.contains "_error" = true := List.elem_iff.mpr hcm
      rw [h0a] at hx
      exact Bool.false_ne_true hx
    have hcr : c ≠ "_row_number" := by
      intro h0
      rw [h0] at hcm
      have hx : schema.columns.contains "_row_number" = true :=
        List.elem_iff.mpr hcm
      rw [h0b] at hx
      exact Bool.false_ne_true hx
    have hfin : (finalCols df schema).contains c = true := by
      rw [hfineq]
      exact hc1
    refine ⟨(hc2 c).mpr (Or.inl ⟨hcm, hfin⟩), ?_⟩
    rw [getVal_initRow_ne _ _ _ hce hcr]
    have hselc : (selCols df schema).contains c = true :=
      (selCols_contains_iff df schema c).mpr (Or.inl ⟨hcm, hfin⟩)
    cases hlc : lookupSpec c with
    | some ty =>
      rw [cleanRowOf_getVal_spec df schema rn r c ty hlc hc1 hselc hce hcr
        hnnid]
      have hmemSPEC : (c, ty) ∈ COLUMN_TYPE_SPEC :=
        mem_of_lookup_eq_some _ _ _ hlc
      have herr : (convertCell c ty ((initRow rn r).getVal c)).1 = none := by
        have h0 : (convertCell c ty
            ((valRowOf (dfCols0 df) schema rn r).getVal c)).1 = none :=
          hT (c, ty) hmemSPEC hc1
        rwa [hvr c hce] at h0
      exact convertCell_keeps_notNull c ty _ herr hmask1
    | none =>
      rw [cleanRowOf_getVal_nospec df schema rn r c hlc hselc hce hcr,
        hvr c hce]
      exact hmask1
  have hnnid2 : nnOf cols2 schema rn' (cleanRowOf (selCols df schema)
      (processRow (dfCols0 df) schema rn r)) =
      (cols2, initRow rn' (cleanRowOf (selCols df schema)
        (processRow (dfCols0 df) schema rn r))) :=
    (nnFrags_nil_intro _ _ _ hA2).2
  have hvr2 : ∀ x, x ≠ "_error" →
      (valRowOf cols2 schema rn' (cleanRowOf (selCols df schema)
        (processRow (dfCols0 df) schema rn r))).getVal x =
      (initRow rn' (cleanRowOf (selCols df schema)
        (processRow (dfCols0 df) schema rn r))).getVal x := by
    intro x hx
    rw [getVal_valRowOf _ _ _ _ _ hx, hnnid2]
  have hB : valFrags cols2 (initRow rn' (cleanRowOf (selCols df schema)
      (processRow (dfCols0 df) schema rn r))) schema.validations = [] := by
    apply valFrags_nil_intro _ _ _ (fun fv hfv => (h2 fv hfv).1)
    intro fv hfv hcf hnum
    obtain ⟨hne, hnr, m, hlook⟩ := h2 fv hfv
    rcases (hc2 fv.1).mp hcf with ⟨hm1, hfin⟩ | h0 | h0
    · have hc1f : (dfCols0 df).contains fv.1 = true := by
        rw [← hfineq]
        exact hfin
      have hselc : (selCols df schema).contains fv.1 = true :=
        (selCols_contains_iff df schema fv.1).mpr (Or.inl ⟨hm1, hfin⟩)
      rw [getVal_initRow_ne _ _ _ hne hnr,
        cleanRowOf_getVal_spec df schema rn r fv.1 (.string m) hlook hc1f
          hselc hne hnr hnnid]
      have hpat1 := hV fv hfv hc1f hnum
      exact convertCell_string_pattern fv.1 m _ fv.2.pattern hpat1
    · exact absurd h0 hne
    · exact absurd h0 hnr
  have hC : typeFrags cols2 (valRowOf cols2 schema rn'
      (cleanRowOf (selCols df schema)
        (processRow (dfCols0 df) schema rn r))) COLUMN_TYPE_SPEC = [] := by
    apply typeFrags_nil_intro _ _ _ (fun p hp => (spec_keys_ne_diag p hp).1)
    intro p hp hcp
    obtain ⟨c, ty⟩ := p
    have hnec : c ≠ "_error" := (spec_keys_ne_diag (c, ty) hp).1
    have hnrc : c ≠ "_row_number" := (spec_keys_ne_diag (c, ty) hp).2
    have hcp' : cols2.contains c = true := hcp
    rcases (hc2 c).mp hcp' with ⟨hm1, hfin⟩ | h0 | h0
    · have hc1c : (dfCols0 df).contains c = true := by
        rw [← hfineq]
        exact hfin
      have hselc : (selCols df schema).contains c = true :=
        (selCols_contains_iff df schema c).mpr (Or.inl ⟨hm1, hfin⟩)
      have hlook : lookupSpec c = some ty :=
        lookup_eq_some_of_mem COLUMN_TYPE_SPEC c ty hp spec_keys_nodup
      show (convertCell c ty ((valRowOf cols2 schema rn'
        (cleanRowOf (selCols df schema)
          (processRow (dfCols0 df) schema rn r))).getVal c)).1 = none
      rw [hvr2 c hnec, getVal_initRow_ne _ _ _ hnec hnrc,
        cleanRowOf_getVal_spec df schema rn r c ty hlook hc1c hselc hnec
          hnrc hnnid]
      have herr : (convertCell c ty ((initRow rn r).getVal c)).1 = none := by
        have h0 : (convertCell c ty
            ((valRowOf (dfCols0 df) schema rn r).getVal c)).1 = none :=
          hT (c, ty) hp hc1c
        rwa [hvr c hnec] at h0
      exact convertCell_idem c ty _ herr
    · exact absurd h0 hnec
    · exact absurd h0 hnrc
  rw [rowFragments_parts, (nnFrags_nil_intro _ _ _ hA2).1, hnnid2]
  dsimp only
  rw [hB, hC]
  rfl

/-- The idempotence of `validate`, stated for any schema satisfying the
structural side conditions shared by both shipped schemas. -/
theorem validate_idempotent_core (df : DF) (schema : Schema)
    (h0a : schema.columns.contains "_error" = false)
    (h0b : schema.columns.contains "_row_number" = false)
    (h1 : ∀ c ∈ schema.not_null, c ∈ schema.columns)
    (h2 : ∀ fv ∈ schema.validations, fv.1 ≠ "_error" ∧ fv.1 ≠ "_row_number" ∧
      ∃ m, lookupSpec fv.1 = some (ColType.string m)) :
    (validate (validate df schema).1 schema).2.rows = [] ∧
      (validate (validate df schema).1 schema).1.rows.length =
        (validate df schema).1.rows.length := by
  suffices hinv : (validate (validate df schema).1 schema).2.rows = [] by
    refine ⟨hinv, ?_⟩
    have hlen := validate_length (validate df schema).1 schema
    rw [hinv] at hlen
    simpa using hlen
  by_cases hemp : ((processedRows df schema).filter isCleanP).isEmpty = true
  · have hrows : (validate df schema).1.rows = [] := by
      rw [validate_clean_rows]
      rw [List.isEmpty_iff] at hemp
      rw [hemp]
      rfl
    rw [validate_invalid_rows]
    have hpr2 : processedRows (validate df schema).1 schema = [] := by
      unfold processedRows
      rw [hrows]
      rfl
    rw [hpr2]
    rfl
  · have hne : (processedRows df schema).filter isCleanP ≠ [] := by
      intro h0
      exact hemp (by rw [h0]; rfl)
    have hcols2 := validate_clean_cols_of_nonempty df schema hne
    have hc2 : ∀ x, (dfCols0 (validate df schema).1).contains x = true ↔
        ((x ∈ schema.columns ∧ (finalCols df schema).contains x = true) ∨
          x = "_error" ∨ x = "_row_number") := by
      intro x
      show (addCol (addCol (validate df schema).1.cols "_error")
        "_row_number").contains x = true ↔ _
      rw [contains_addCol_iff, contains_addCol_iff, hcols2]
      simp only [Bool.or_eq_true]
      constructor
      · rintro ((hx | hx) | hx)
        · have hx' : x ∈ (selCols df schema).filter
              (fun c => !(c == "_error" || c == "_row_number")) :=
            List.elem_iff.mp hx
          rw [List.mem_filter] at hx'
          obtain ⟨hsel, hpred⟩ := hx'
          rcases (selCols_contains_iff df schema x).mp
              (List.elem_iff.mpr hsel) with h | h | h
          · exact Or.inl h
          · subst h
            exact absurd hpred (by decide)
          · subst h
            exact absurd hpred (by decide)
        · exact Or.inr (Or.inl (eq_of_beq hx))
        · exact Or.inr (Or.inr (eq_of_beq hx))
      · rintro (⟨hm, hf⟩ | rfl | rfl)
        · refine Or.inl (Or.inl (List.elem_iff.mpr ?_))
          rw [List.mem_filter]
          refine ⟨List.elem_iff.mp
            ((selCols_contains_iff df schema x).mpr (Or.inl ⟨hm, hf⟩)), ?_⟩
          have he : x ≠ "_error" := by
            intro h0
            rw [h0] at hm
            have hxx : schema.columns.contains "_error" = true :=
              List.elem_iff.mpr hm
            rw [h0a] at hxx
            exact Bool.false_ne_true hxx
          have hr : x ≠ "_row_number" := by
            intro h0
            rw [h0] at hm
            have hxx : schema.columns.contains "_row_number" = true :=
              List.elem_iff.mpr hm
            rw [h0b] at hxx
            exact Bool.false_ne_true hxx
          rw [beq_eq_false_iff_ne.mpr he, beq_eq_false_iff_ne.mpr hr]
          rfl
        · exact Or.inl (Or.inr (by decide))
        · exact Or.inr (by decide)
    rw [validate_invalid_rows]
    have hall : ∀ q ∈ processedRows (validate df schema).1 schema,
        isCleanP q = true := by
      intro q hq
      unfold processedRows at hq
      obtain ⟨pe, hpe, hqe⟩ := List.mem_map.mp hq
      have hrowmem : pe.2 ∈ (validate df schema).1.rows := enum_mem_snd _ _ hpe
      rw [validate_clean_rows] at hrowmem
      obtain ⟨p, hpmem, hpeq⟩ := List.mem_map.mp hrowmem
      obtain ⟨hpPR, hpclean⟩ := List.mem_filter.mp hpmem
      unfold processedRows at hpPR
      obtain ⟨pe1, hpe1, hpeq1⟩ := List.mem_map.mp hpPR
      have hfr : rowFragments (dfCols0 df) schema ((pe1.1 : Int) + 2) pe1.2
          = [] := by
        by_contra h0
        refine errOf_processRow_ne_empty (dfCols0 df) schema _ pe1.2
          (dfCols0_contains_error df) h0 ?_
        rw [show processRow (dfCols0 df) schema ((pe1.1 : Int) + 2) pe1.2
          = p from hpeq1]
        exact eq_of_beq hpclean
      have hclean2 := processRow_clean_again df schema ((pe1.1 : Int) + 2)
        ((pe.1 : Int) + 2) pe1.2 h0a h0b h1 h2
        (dfCols0 (validate df schema).1) hc2 hfr
      have hnil : rowFragments (dfCols0 (validate df schema).1) schema
          ((pe.1 : Int) + 2) pe.2 = [] := by
        rw [show pe.2 = cleanRowOf (selCols df schema) p from hpeq.symm,
          show p = processRow (dfCols0 df) schema ((pe1.1 : Int) + 2) pe1.2
            from hpeq1.symm]
        exact hclean2
      rw [← hqe]
      show (errOf (processRow (dfCols0 (validate df schema).1) schema
        ((pe.1 : Int) + 2) pe.2).1 == "") = true
      rw [errOf_processRow_empty _ _ _ _ (dfCols0_contains_error _) hnil]
      rfl
    have hfe : (processedRows (validate df schema).1 schema).filter
        (fun p => !isCleanP p) = [] := by
      rw [List.filter_eq_nil_iff]
      intro a ha
      simp [hall a ha]
    rw [hfe]
    rfl

/-- C3: validate is idempotent on its clean output.  For every batch and
either shipped schema, feeding the clean frame returned by
`validate_data_with_schema` back into the same validation produces no
invalid row and keeps every row. -/
theorem c3_validate_idempotent (df : DF) (schema : Schema)
    (hs : schema = scanReportDaily ∨ schema = scanReportWeekly) :
    (validate (validate df schema).1 schema).2.rows = [] ∧
      (validate (validate df schema).1 schema).1.rows.length =
        (validate df schema).1.rows.length := by
  have h0a : schema.columns.contains "_error" = false := by
    rcases hs with rfl | rfl <;> decide
  have h0b : schema.columns.contains "_row_number" = false := by
    rcases hs with rfl | rfl <;> decide
  have h1 : ∀ c ∈ schema.not_null, c ∈ schema.columns := by
    rcases hs with rfl | rfl <;> decide
  have h2 : ∀ fv ∈ schema.validations, fv.1 ≠ "_error" ∧ fv.1 ≠ "_row_number" ∧
      ∃ m, lookupSpec fv.1 = some (ColType.string m) := by
    rcases hs with rfl | rfl <;>
      · intro fv hfv
        rcases List.mem_cons.mp hfv with rfl | hfv'
        · exact ⟨by decide, by decide, some 6, by decide⟩
        · rcases List.mem_cons.mp hfv' with rfl | h0
          · exact ⟨by decide, by decide, some 7, by decide⟩
          · exact absurd h0 (List.not_mem_nil fv)
  exact validate_idempotent_core df schema h0a h0b h1 h2

/-- Witness for C3: the idempotence equations at a concrete one-row
batch under the daily schema. -/
theorem c3_validate_idempotent_witness :
    (validate (validate ⟨["store_id"], [[("store_id", Value.str "12")]]⟩
        scanReportDaily).1 scanReportDaily).2.rows = [] ∧
      (validate (validate ⟨["store_id"], [[("store_id", Value.str "12")]]⟩
          scanReportDaily).1 scanReportDaily).1.rows.length =
        (validate ⟨["store_id"], [[("store_id", Value.str "12")]]⟩
          scanReportDaily).1.rows.length :=
  c3_validate_idempotent _ _ (Or.inl rfl)

end ScanEtl
